import Mathlib

/-!
# clockwork: the `.pac` archive reader

A shallow embedding of `models/pac.go` (`ReadPACHeader`, `ReadPACEntry`,
`ReadPAC`) together with the parts of the Go standard library the reader
goes through (`io.Seeker`, `io.ReadFull`, `encoding/binary.Read` with
`binary.LittleEndian`, `bufio.Reader.ReadString`), and of `models/util.go`
(`ToPACEntryFilename`, `FromPACEntryFilename`) with `fmt.Sprintf` and
`strings.SplitN` as far as these two functions use them.  The archive encoder
is not part of the sources at hand; the round trip is stated against an
encoder modelled from the specification, marked as such.

Conventions of the embedding:

* a byte is a `Fin 256`; a Go `string` and a Go `[]byte` are both `List Byte`;
* a `uint32` is a `Nat`; every place where the source does `uint32`
  arithmetic carries an explicit `% 2 ^ 32`;
* an `io.ReadSeeker` is a `Stream`: the whole content plus a cursor.  Every
  function that takes the reader returns the reader's new state as the last
  component of its result;
* a Go result pair `(out, err)` is kept as a pair `out × Option Err`: the Go
  functions hand back `out` next to a non-nil error as well, and so does the
  embedding;
* in `ReadPAC` the allocation `make([]PACEntry, Count)` always succeeds;
  `ReadPACAlloc` is `ReadPAC` with a bound on the slots that can be allocated,
  beyond which the process ends in the allocation.
-/

namespace Clockwork

/-- One octet of the stream. -/
abbrev Byte := Fin 256

/-- Go `error` values that the reader can produce.  `EOF` and
`ErrUnexpectedEOF` are the sentinels of package `io`; `ErrInvalidSeek` is what
a seeker reports for a negative position; `New` and `Errorf` are the
constructors of `github.com/pkg/errors` (the format string and its argument
are kept apart); `Wrap` and `Wrapf` annotate a cause with a message. -/
inductive Err where
  | EOF : Err
  | ErrUnexpectedEOF : Err
  | ErrInvalidSeek : Err
  | New (msg : String) : Err
  | Errorf (format : String) (arg : Nat) : Err
  | Wrap (cause : Err) (msg : String) : Err
  | Wrapf (cause : Err) (format : String) (arg : Nat) : Err
  deriving DecidableEq, Repr

/-- An `io.ReadSeeker` over a finite content: `data` never changes, `pos` is
the cursor (an `int64` that is never negative). -/
structure Stream where
  data : List Byte
  pos : Nat
  deriving DecidableEq, Repr

/-- `r.Seek(offset, io.SeekStart)`: a negative target is refused, any other
target (also one past the end of the content) becomes the cursor. -/
def Seek (r : Stream) (offset : Int) : Option Err × Stream :=
  if offset < 0 then (some Err.ErrInvalidSeek, r)
  else (none, { r with pos := offset.toNat })

/-- `io.ReadFull(r, buf)` with `len(buf) = n`.  The buffer starts zeroed; the
bytes that could be read overwrite its front.  No error when all `n` bytes
were there (in particular when `n = 0`), `io.EOF` when none was,
`io.ErrUnexpectedEOF` when only some were. -/
def ReadFull (r : Stream) (n : Nat) : List Byte × Option Err × Stream :=
  let got := (r.data.drop r.pos).take n
  let buf := got ++ List.replicate (n - got.length) (0 : Byte)
  let r1 : Stream := { r with pos := r.pos + got.length }
  if got.length = n then (buf, none, r1)
  else if got.length = 0 then (buf, some Err.EOF, r1)
  else (buf, some Err.ErrUnexpectedEOF, r1)

/-- `binary.LittleEndian.Uint32(b[off:])`. -/
def Uint32 (b : List Byte) (off : Nat) : Nat :=
  (b.getD off 0).val + 256 * (b.getD (off + 1) 0).val
    + 65536 * (b.getD (off + 2) 0).val + 16777216 * (b.getD (off + 3) 0).val

/-- Size of the buffer a fresh `bufio.Reader` reads ahead with. -/
def defaultBufSize : Nat := 4096

/-- `bufio.NewReader(r).ReadString(delim)`: the bytes from the cursor up to
and including the first `delim`; when the content ends first, the bytes that
were left and `io.EOF`.  The buffered reader pulls whole chunks of
`defaultBufSize` bytes out of `r`, so the cursor of `r` ends up at the end of
the chunk that held the delimiter (or at the end of the content). -/
def ReadString (r : Stream) (delim : Byte) : List Byte × Option Err × Stream :=
  let rest := r.data.drop r.pos
  let k := rest.indexOf delim
  if k < rest.length then
    (rest.take (k + 1), none,
      { r with pos := r.pos + min rest.length (defaultBufSize * (k / defaultBufSize + 1)) })
  else
    (rest, some Err.EOF, { r with pos := r.pos + rest.length })

/-- The type `PACHeaderMagic`, a `[4]byte`. -/
structure PACHeaderMagic where
  m0 : Byte
  m1 : Byte
  m2 : Byte
  m3 : Byte
  deriving DecidableEq, Repr

instance : Inhabited PACHeaderMagic := ⟨⟨0, 0, 0, 0⟩⟩

/-- The struct `PACHeader`, the file header of a PAC. -/
structure PACHeader where
  Magic : PACHeaderMagic
  Version : Nat
  IndexPtr : Nat
  IndexStride : Nat
  Count : Nat
  FileLen : Nat
  deriving DecidableEq, Repr

instance : Inhabited PACHeader := ⟨⟨default, 0, 0, 0, 0, 0⟩⟩

/-- The struct `PACEntryFields`, the fixed part of an index record. -/
structure PACEntryFields where
  DataPtr : Nat
  DataLen : Nat
  Unused : Nat
  Unknown : Nat
  FilenamePtr : Nat
  deriving DecidableEq, Repr

instance : Inhabited PACEntryFields := ⟨⟨0, 0, 0, 0, 0⟩⟩

/-- The struct `PACEntry`: the embedded `PACEntryFields` and the two resolved
members of `Ptr`. -/
structure PACEntry where
  Fields : PACEntryFields
  Filename : List Byte
  Data : List Byte
  deriving DecidableEq, Repr

instance : Inhabited PACEntry := ⟨⟨default, [], []⟩⟩

/-- The struct `PAC`, the full contents of an archive. -/
structure PAC where
  Header : PACHeader
  Entries : List PACEntry
  deriving DecidableEq, Repr

instance : Inhabited PAC := ⟨⟨default, []⟩⟩

/-- What `binary.Read` stores into a `PACHeader` from its 24-byte buffer:
the fields in declaration order, no padding. -/
def decodePACHeader (b : List Byte) : PACHeader :=
  { Magic := ⟨b.getD 0 0, b.getD 1 0, b.getD 2 0, b.getD 3 0⟩
    Version := Uint32 b 4
    IndexPtr := Uint32 b 8
    IndexStride := Uint32 b 12
    Count := Uint32 b 16
    FileLen := Uint32 b 20 }

/-- What `binary.Read` stores into a `PACEntryFields` from its 20-byte
buffer. -/
def decodePACEntryFields (b : List Byte) : PACEntryFields :=
  { DataPtr := Uint32 b 0
    DataLen := Uint32 b 4
    Unused := Uint32 b 8
    Unknown := Uint32 b 12
    FilenamePtr := Uint32 b 16 }

/-- `ReadPACHeader`: reads a `PACHeader` at the cursor, then checks the magic
number, then the version. -/
def ReadPACHeader (r : Stream) : PACHeader × Option Err × Stream :=
  match ReadFull r 24 with
  | (_, some err, r1) => (default, some (Err.Wrap err "Version"), r1)
  | (buf, none, r1) =>
    let out := decodePACHeader buf
    if out.Magic.m0 ≠ 97 ∨ out.Magic.m1 ≠ 100 ∨ out.Magic.m2 ≠ 100 ∨ out.Magic.m3 ≠ 0 then
      (out, some (Err.New "Magic: Mismatch; file is not a valid .pac"), r1)
    else if out.Version ≠ 4 then
      (out, some (Err.Errorf "Version: Mismatch; expected 4, got %d" out.Version), r1)
    else
      (out, none, r1)

/-- `ReadPACEntry`: reads the fixed fields at the cursor, follows the filename
pointer, then the data pointer. -/
def ReadPACEntry (r : Stream) : PACEntry × Option Err × Stream :=
  match ReadFull r 20 with
  | (_, some err, r1) => (default, some (Err.Wrap err "Fields"), r1)
  | (buf, none, r1) =>
    let out : PACEntry := { Fields := decodePACEntryFields buf, Filename := [], Data := [] }
    match Seek r1 (Int.ofNat out.Fields.FilenamePtr) with
    | (some err, r2) => (out, some (Err.Wrap err "Ptr.Filename"), r2)
    | (none, r2) =>
      match ReadString r2 0 with
      | (_, some err, r3) => (out, some (Err.Wrap err "Ptr.Filename"), r3)
      | (filename, none, r3) =>
        let out : PACEntry := { out with Filename := filename.take (filename.length - 1) }
        match Seek r3 (Int.ofNat out.Fields.DataPtr) with
        | (some err, r4) => (out, some (Err.Wrap err "Ptr.Data"), r4)
        | (none, r4) =>
          match ReadFull r4 out.Fields.DataLen with
          | (data, some err, r5) => ({ out with Data := data }, some (Err.Wrap err "Ptr.Data"), r5)
          | (data, none, r5) => ({ out with Data := data }, none, r5)

/-- The seek target of `ReadPAC` for slot `i`: the source evaluates
`out.Header.IndexPtr+(i*out.Header.IndexStride)` on `uint32` operands and
converts the result to `int64`. -/
def indexSlot (hdr : PACHeader) (i : Nat) : Nat :=
  (hdr.IndexPtr + (i * hdr.IndexStride) % 2 ^ 32) % 2 ^ 32

/-- The `for` loop of `ReadPAC`, from counter value `i` on; `fuel` bounds the
number of iterations still allowed.  `ReadPAC` starts it with `i = 0` and
`fuel = Count`, so the fuel is used up exactly when the counter reaches
`Count` (`loop_spec` below). -/
def ReadPAC.loop (hdr : PACHeader) :
    Nat → Nat → Stream → List PACEntry → List PACEntry × Option Err × Stream
  | 0, _, r, entries => (entries, none, r)
  | fuel + 1, i, r, entries =>
    if i < hdr.Count then
      match Seek r (Int.ofNat (indexSlot hdr i)) with
      | (some err, r1) => (entries, some err, r1)
      | (none, r1) =>
        match ReadPACEntry r1 with
        | (_, some err, r2) => (entries, some (Err.Wrapf err "Entry %d" i), r2)
        | (entry, none, r2) =>
          ReadPAC.loop hdr fuel ((i + 1) % 2 ^ 32) r2 (entries.set i entry)
    else (entries, none, r)

/-- `ReadPAC`: reads the header, allocates `Count` zero entries, and fills
them slot by slot.  The loop runs `Count` times at most, which is the fuel it
is given. -/
def ReadPAC (r : Stream) : PAC × Option Err × Stream :=
  match ReadPACHeader r with
  | (hdr, some err, r1) => ({ Header := hdr, Entries := [] }, some (Err.Wrap err "Header"), r1)
  | (hdr, none, r1) =>
    match ReadPAC.loop hdr hdr.Count 0 r1 (List.replicate hdr.Count default) with
    | (entries, err, r2) => ({ Header := hdr, Entries := entries }, err, r2)

/-! ## Reading the content directly

The functions below say what sits at an offset of the content, without a
cursor; the theorems compare the reader with them. -/

/-- The header that sits at offset `p` of the content `d`: magic in bytes
`p .. p+3`, then five little-endian `uint32` fields. -/
def headerAt (d : List Byte) (p : Nat) : PACHeader :=
  { Magic := ⟨d.getD p 0, d.getD (p + 1) 0, d.getD (p + 2) 0, d.getD (p + 3) 0⟩
    Version := Uint32 d (p + 4)
    IndexPtr := Uint32 d (p + 8)
    IndexStride := Uint32 d (p + 12)
    Count := Uint32 d (p + 16)
    FileLen := Uint32 d (p + 20) }

/-- The magic number test of `ReadPACHeader`, on the content. -/
def magicOK (d : List Byte) (p : Nat) : Prop :=
  d.getD p 0 = 97 ∧ d.getD (p + 1) 0 = 100 ∧ d.getD (p + 2) 0 = 100 ∧ d.getD (p + 3) 0 = 0

instance (d : List Byte) (p : Nat) : Decidable (magicOK d p) := by
  unfold magicOK; infer_instance

/-- The fixed fields of the index record at offset `p` of the content `d`:
five little-endian `uint32` values. -/
def fieldsAt (d : List Byte) (p : Nat) : PACEntryFields :=
  { DataPtr := Uint32 d p
    DataLen := Uint32 d (p + 4)
    Unused := Uint32 d (p + 8)
    Unknown := Uint32 d (p + 12)
    FilenamePtr := Uint32 d (p + 16) }

/-- The bytes of the content from offset `p` up to, and without, the first zero
byte at or after `p` (all the bytes from `p` on when there is no zero). -/
def filenameAt (d : List Byte) (p : Nat) : List Byte :=
  (d.drop p).takeWhile (fun b => decide (b ≠ 0))

/-! ## Concrete inputs -/

/-- A well-formed 24-byte header: `indexPtr = 32`, `indexStride = 32`,
`count = 1`, `fileLen = 73`. -/
def exHeader : List Byte :=
  [97, 100, 100, 0, 4, 0, 0, 0, 32, 0, 0, 0, 32, 0, 0, 0, 1, 0, 0, 0, 73, 0, 0, 0]

/-- A header cut off after 23 bytes. -/
def exHeaderShort : List Byte :=
  [97, 100, 100, 0, 4, 0, 0, 0, 32, 0, 0, 0, 32, 0, 0, 0, 1, 0, 0, 0, 73, 0, 0]

/-- A 24-byte header whose magic is `adx\0` and whose version is 5. -/
def exHeaderBadMagic : List Byte :=
  [97, 100, 120, 0, 5, 0, 0, 0, 32, 0, 0, 0, 32, 0, 0, 0, 1, 0, 0, 0, 73, 0, 0, 0]

/-- A 24-byte header with the right magic and version 5. -/
def exHeaderBadVersion : List Byte :=
  [97, 100, 100, 0, 5, 0, 0, 0, 32, 0, 0, 0, 32, 0, 0, 0, 1, 0, 0, 0, 73, 0, 0, 0]

/-- An index record at offset 0 with a non-zero `unused` field (`0x01020304`),
`unknown = 7`, filename `a` at offset 20 and two payload bytes at offset 22. -/
def exEntry : List Byte :=
  [22, 0, 0, 0, 2, 0, 0, 0, 4, 3, 2, 1, 7, 0, 0, 0, 20, 0, 0, 0, 97, 0, 8, 9]

/-- An index record at offset 0 whose filename pointer (20) addresses the bytes
`a`, `b` with no zero byte behind them. -/
def exEntryUnterminated : List Byte :=
  [0, 0, 0, 0, 2, 0, 0, 0, 0, 0, 0, 0, 0, 0, 0, 0, 20, 0, 0, 0, 97, 98]

/-- The result of `ReadPACEntry` on the content `d` with the cursor on the seek
target of slot `j`. -/
def slotEntry (d : List Byte) (hdr : PACHeader) (j : Nat) : PACEntry × Option Err × Stream :=
  ReadPACEntry ⟨d, indexSlot hdr j⟩

/-- An archive of two entries (`indexPtr = 24`, `indexStride = 20`) whose
blocks lie in the reverse of the index order: the filename `b` and payload
`3 4` of entry 1 come first (offsets 64 and 66), the filename `a` and payload
`1 2` of entry 0 after them (offsets 68 and 70). -/
def exArchive : List Byte :=
  [97, 100, 100, 0, 4, 0, 0, 0, 24, 0, 0, 0, 20, 0, 0, 0, 2, 0, 0, 0, 72, 0, 0, 0,
   70, 0, 0, 0, 2, 0, 0, 0, 0, 0, 0, 0, 0, 0, 0, 0, 68, 0, 0, 0,
   66, 0, 0, 0, 2, 0, 0, 0, 0, 0, 0, 0, 0, 0, 0, 0, 64, 0, 0, 0,
   98, 0, 3, 4, 97, 0, 1, 2]

/-- An archive of two entries with `indexPtr = 44` and
`indexStride = 0xFFFFFFEC`: the record of slot 0 is at offset 44 (filename `a`
at 64, payload `5` at 68) and a second record is at offset 24 (filename `b` at
66, payload `6` at 69). -/
def exWrap : List Byte :=
  [97, 100, 100, 0, 4, 0, 0, 0, 44, 0, 0, 0, 236, 255, 255, 255, 2, 0, 0, 0, 70, 0, 0, 0,
   69, 0, 0, 0, 1, 0, 0, 0, 0, 0, 0, 0, 0, 0, 0, 0, 66, 0, 0, 0,
   68, 0, 0, 0, 1, 0, 0, 0, 0, 0, 0, 0, 0, 0, 0, 0, 64, 0, 0, 0,
   97, 0, 98, 0, 5, 6]

/-- An archive of two entries with `indexPtr = 64` and
`indexStride = 0xFFFFFFE0`: the record of slot 0 is at offset 64 (filename `a`
at 84, payload `5` at 88) and a second record is at offset 32 (filename `b` at
86, payload `6` at 89). -/
def exWrapStride : List Byte :=
  [97, 100, 100, 0, 4, 0, 0, 0, 64, 0, 0, 0, 224, 255, 255, 255, 2, 0, 0, 0, 90, 0, 0, 0,
   0, 0, 0, 0, 0, 0, 0, 0,
   89, 0, 0, 0, 1, 0, 0, 0, 0, 0, 0, 0, 0, 0, 0, 0, 86, 0, 0, 0,
   0, 0, 0, 0, 0, 0, 0, 0, 0, 0, 0, 0,
   88, 0, 0, 0, 1, 0, 0, 0, 0, 0, 0, 0, 0, 0, 0, 0, 84, 0, 0, 0,
   97, 0, 98, 0, 5, 6]

/-- The header of the example in the claim about the slot arithmetic:
`indexPtr = 0xFFFFFFF0`, `indexStride = 32`. -/
def exHighIndex : PACHeader :=
  { Magic := ⟨97, 100, 100, 0⟩, Version := 4, IndexPtr := 4294967280, IndexStride := 32,
    Count := 2, FileLen := 0 }

/-- An index record at offset 0 with `dataPtr = 20`, `dataLen = 4` and
`filenamePtr = 24`, in a content that ends after 23 bytes: one byte short of
the declared payload, and the filename lies behind the payload. -/
def exCutBeforeFilename : List Byte :=
  [20, 0, 0, 0, 4, 0, 0, 0, 0, 0, 0, 0, 0, 0, 0, 0, 24, 0, 0, 0, 1, 2, 3]

/-- An index record at offset 0 with filename `a` at offset 20, `dataPtr = 22`
and `dataLen = 4`, in a content that ends after 25 bytes: one byte short of the
declared payload. -/
def exCutPayload : List Byte :=
  [22, 0, 0, 0, 4, 0, 0, 0, 0, 0, 0, 0, 0, 0, 0, 0, 20, 0, 0, 0, 97, 0, 1, 2, 3]

/-- An archive of one entry (`indexPtr = 24`, `indexStride = 20`) with filename
`a` at offset 44, `dataPtr = 46` and `dataLen = 4`, cut off after 49 bytes: one
byte short of the declared payload. -/
def exCutArchive : List Byte :=
  [97, 100, 100, 0, 4, 0, 0, 0, 24, 0, 0, 0, 20, 0, 0, 0, 1, 0, 0, 0, 50, 0, 0, 0,
   46, 0, 0, 0, 4, 0, 0, 0, 0, 0, 0, 0, 0, 0, 0, 0, 44, 0, 0, 0,
   97, 0, 1, 2, 3]


/-- An archive of two entries (`indexPtr = 24`, `indexStride = 20`): entry 0
has filename `a` at offset 64 and payload `1 2` at offset 66; the record of
entry 1 has filename `b` at offset 68 and declares four payload bytes at
offset 70, of which the 72-byte content holds two. -/
def exPartial : List Byte :=
  [97, 100, 100, 0, 4, 0, 0, 0, 24, 0, 0, 0, 20, 0, 0, 0, 2, 0, 0, 0, 74, 0, 0, 0,
   66, 0, 0, 0, 2, 0, 0, 0, 0, 0, 0, 0, 0, 0, 0, 0, 64, 0, 0, 0,
   70, 0, 0, 0, 4, 0, 0, 0, 0, 0, 0, 0, 0, 0, 0, 0, 68, 0, 0, 0,
   97, 0, 1, 2, 98, 0, 3, 4]

/-- An archive that declares two entries (`indexPtr = 24`, `indexStride = 20`)
in a content of 54 bytes: the record of slot 0 points its filename at offset
100, beyond the end, and only 10 bytes of the record of slot 1 are there. -/
def exTwoFailures : List Byte :=
  [97, 100, 100, 0, 4, 0, 0, 0, 24, 0, 0, 0, 20, 0, 0, 0, 2, 0, 0, 0, 54, 0, 0, 0,
   0, 0, 0, 0, 0, 0, 0, 0, 0, 0, 0, 0, 0, 0, 0, 0, 100, 0, 0, 0,
   0, 0, 0, 0, 0, 0, 0, 0, 0, 0]

/-- An archive of two entries (`indexPtr = 24`, `indexStride = 20`) whose
pointers alias and overlap: both records point their filename at offset 64;
entry 0 takes the two bytes at offset 64 as payload (the filename and its
terminator), entry 1 the one byte at offset 65. -/
def exAliased : List Byte :=
  [97, 100, 100, 0, 4, 0, 0, 0, 24, 0, 0, 0, 20, 0, 0, 0, 2, 0, 0, 0, 66, 0, 0, 0,
   64, 0, 0, 0, 2, 0, 0, 0, 0, 0, 0, 0, 0, 0, 0, 0, 64, 0, 0, 0,
   65, 0, 0, 0, 1, 0, 0, 0, 0, 0, 0, 0, 7, 0, 0, 0, 64, 0, 0, 0,
   97, 0]

/-- Whether the byte range `[lo, hi)` holds one of the offsets 20..23, the
bytes of the fileLen field. -/
def touchesFileLen (lo hi : Nat) : Prop :=
  lo < hi ∧ lo < 24 ∧ 20 < hi

instance (lo hi : Nat) : Decidable (touchesFileLen lo hi) := by
  unfold touchesFileLen; infer_instance

/-- The byte ranges `[lo, hi)` of the content `d` whose bytes `ReadPACEntry`
takes in with the cursor at `p`: the record (as far as the content goes); when
the record is complete, the filename from filenamePtr up to and including its
terminator (up to the end of the content when there is none); when the
filename is terminated, the payload range (as far as the content goes). -/
def entryReads (d : List Byte) (p : Nat) : List (Nat × Nat) :=
  if d.length < p + 20 then [(p, d.length)]
  else if (0 : Byte) ∈ d.drop (fieldsAt d p).FilenamePtr then
    [(p, p + 20),
      ((fieldsAt d p).FilenamePtr,
        (fieldsAt d p).FilenamePtr + (filenameAt d (fieldsAt d p).FilenamePtr).length + 1),
      ((fieldsAt d p).DataPtr, min ((fieldsAt d p).DataPtr + (fieldsAt d p).DataLen) d.length)]
  else
    [(p, p + 20), ((fieldsAt d p).FilenamePtr, d.length)]

/-- The archive `exArchive` with the fileLen field set to 0: every filename and
payload lies beyond the declared length. -/
def exArchiveNoLen : List Byte :=
  [97, 100, 100, 0, 4, 0, 0, 0, 24, 0, 0, 0, 20, 0, 0, 0, 2, 0, 0, 0, 0, 0, 0, 0,
   70, 0, 0, 0, 2, 0, 0, 0, 0, 0, 0, 0, 0, 0, 0, 0, 68, 0, 0, 0,
   66, 0, 0, 0, 2, 0, 0, 0, 0, 0, 0, 0, 0, 0, 0, 0, 64, 0, 0, 0,
   98, 0, 3, 4, 97, 0, 1, 2]

/-- The archive of the concrete scenario: the header `61 64 64 00 | 04 00 00 00
| 20 00 00 00 | 20 00 00 00 | 01 00 00 00` with fileLen 73, one index record at
offset 32 (`dataPtr = 70`, `dataLen = 3`, `unknown = 7`, `filenamePtr = 64`),
the bytes `a.txt` and a zero at offset 64, the payload `1 2 3` at offset 70. -/
def exScenario : List Byte :=
  [97, 100, 100, 0, 4, 0, 0, 0, 32, 0, 0, 0, 32, 0, 0, 0, 1, 0, 0, 0, 73, 0, 0, 0,
   0, 0, 0, 0, 0, 0, 0, 0,
   70, 0, 0, 0, 3, 0, 0, 0, 0, 0, 0, 0, 7, 0, 0, 0, 64, 0, 0, 0,
   0, 0, 0, 0, 0, 0, 0, 0, 0, 0, 0, 0,
   97, 46, 116, 120, 116, 0, 1, 2, 3]

/-- An index record at offset 0 with `dataLen = 0` and `dataPtr = 1000`, far
beyond the end of the 22-byte content; the filename `a` is at offset 20. -/
def exDangling : List Byte :=
  [232, 3, 0, 0, 0, 0, 0, 0, 0, 0, 0, 0, 0, 0, 0, 0, 20, 0, 0, 0, 97, 0]

/-! ## The dump file names (`models/util.go`)

`fmt.Sprintf` and `strings.SplitN` are embedded for the one format string and
the one separator the source uses.  A function that can panic returns an
`Option`, `none` standing for the run-time panic. -/

/-- The decimal digits of `u`, least significant first, as `fmt` produces
them: `'0' + u mod 10`, then the digits of `u / 10` as long as `u ≥ 10`.  The
first argument bounds the number of digits. -/
def fmtDigits : Nat → Nat → List Byte
  | 0, _ => []
  | fuel + 1, u =>
    if u < 10 then [⟨48 + u % 10, by omega⟩]
    else ⟨48 + u % 10, by omega⟩ :: fmtDigits fuel (u / 10)

/-- The integer formatting of `fmt` for the verb `%0<prec>d` on an unsigned
value: the decimal digits, most significant first, with zeros in front up to
`prec` digits.  The value is a `uint64` in `fmt`, which has 20 digits at
most. -/
def fmtInteger (prec u : Nat) : List Byte :=
  List.replicate (prec - (fmtDigits 20 u).length) 48 ++ (fmtDigits 20 u).reverse

/-- `ToPACEntryFilename`: `fmt.Sprintf("%03d_%s", i, filename)`; `i` is a
`uint32`, 95 is the underscore. -/
def ToPACEntryFilename (i : Nat) (filename : List Byte) : List Byte :=
  fmtInteger 3 i ++ [95] ++ filename

/-- `strings.SplitN(s, sep, 2)` for a separator of one byte: `s` alone when it
has no separator (also when `s` is empty), otherwise what comes before the
first separator and what comes after it. -/
def SplitN2 (s : List Byte) (sep : Byte) : List (List Byte) :=
  if s.indexOf sep < s.length then [s.take (s.indexOf sep), s.drop (s.indexOf sep + 1)]
  else [s]

/-- `FromPACEntryFilename`: `strings.SplitN(filename, "_", 2)[1]`; indexing
past the end of the slice panics. -/
def FromPACEntryFilename (filename : List Byte) : Option (List Byte) :=
  (SplitN2 filename 95)[1]?

/-- The number that a string of decimal digits denotes, most significant
digit first. -/
def decimalValue (s : List Byte) : Nat :=
  s.foldl (fun a b => 10 * a + (b.val - 48)) 0

/-! ## The archive encoder

The repository's encoder (the `pac repack` path that the dump command refers
to) is not among the source files.  It is modelled here from the
specification: header fields verbatim with the canonical magic, the index
block at `indexPtr` with one record per `indexStride` bytes, then for every
entry its zero-terminated filename followed by its payload, the resulting
addresses recorded in the records, and `fileLen` set to the emitted length. -/

/-- Modelled from the spec: the failures of the missing encoder,
`EntryCountMismatch` and `Non-representableLength`. -/
inductive EncodeErr where
  | EntryCountMismatch : EncodeErr
  | NonRepresentableLength : EncodeErr
  deriving DecidableEq, Repr

/-- Modelled from the spec: the four little-endian bytes of a `uint32` field,
as the missing encoder writes them (the inverse of `Uint32`). -/
def PutUint32 (v : Nat) : List Byte :=
  [⟨v % 256, Nat.mod_lt _ (by decide)⟩, ⟨v / 256 % 256, Nat.mod_lt _ (by decide)⟩,
    ⟨v / 65536 % 256, Nat.mod_lt _ (by decide)⟩, ⟨v / 16777216 % 256, Nat.mod_lt _ (by decide)⟩]

/-- Modelled from the spec: the header encoder that is missing from the
sources.  It emits the canonical magic and then version, indexPtr,
indexStride, count and fileLen verbatim, 24 bytes in all. -/
def encodeHeader (h : PACHeader) : List Byte :=
  [97, 100, 100, 0] ++ PutUint32 h.Version ++ PutUint32 h.IndexPtr ++ PutUint32 h.IndexStride
    ++ PutUint32 h.Count ++ PutUint32 h.FileLen

/-- Modelled from the spec: the block that the missing encoder lays out for
one entry, the filename with its zero terminator followed by the payload. -/
def blobOf (e : PACEntry) : List Byte :=
  e.Filename ++ [0] ++ e.Data

/-- Modelled from the spec: the index record that the missing encoder writes
for an entry whose block starts at `off`: dataPtr (behind the terminated
filename), dataLen (the payload length), unused and unknown verbatim,
filenamePtr, then zeros up to `stride` bytes. -/
def encodeRecord (stride : Nat) (e : PACEntry) (off : Nat) : List Byte :=
  PutUint32 (off + e.Filename.length + 1) ++ PutUint32 e.Data.length
    ++ PutUint32 e.Fields.Unused ++ PutUint32 e.Fields.Unknown ++ PutUint32 off
    ++ List.replicate (stride - 20) 0

/-- Modelled from the spec: the index block of the missing encoder, one record
per entry in order; `off` is the address of the block of the first entry. -/
def encodeIndex (stride : Nat) : Nat → List PACEntry → List Byte
  | _, [] => []
  | off, e :: es => encodeRecord stride e off ++ encodeIndex stride (off + (blobOf e).length) es

/-- Modelled from the spec: the filename and payload blocks of the missing
encoder, in entry order. -/
def encodeBlobs : List PACEntry → List Byte
  | [] => []
  | e :: es => blobOf e ++ encodeBlobs es

/-- Modelled from the spec: the archive encoder that is missing from the
sources.  It fails fast on an entry count that differs from the number of
entries and on a payload whose length does not fit 32 bits; otherwise it emits
the header (with fileLen recomputed as the emitted length), zeros up to
indexPtr, the index block, and the blocks of the entries. -/
def Encode (a : PAC) : Except EncodeErr (List Byte) :=
  if a.Header.Count ≠ a.Entries.length then Except.error EncodeErr.EntryCountMismatch
  else if a.Entries.any (fun e => decide (2 ^ 32 ≤ e.Data.length)) then
    Except.error EncodeErr.NonRepresentableLength
  else
    let body := List.replicate (a.Header.IndexPtr - 24) (0 : Byte)
      ++ encodeIndex a.Header.IndexStride
          (a.Header.IndexPtr + a.Entries.length * a.Header.IndexStride) a.Entries
      ++ encodeBlobs a.Entries
    Except.ok (encodeHeader { a.Header with FileLen := 24 + body.length } ++ body)

/-- Modelled from the spec: a validly constructed archive, the input of the
missing encoder.  The header has the magic `add\0` and version 4, its count is
the number of entries, the index lies behind the 24-byte header and a record
fits its stride, no filename holds a zero byte, the `uint32` members are in
range, and the emitted stream stays below `2^32` bytes so that every address
fits a pointer field. -/
def validArchive (a : PAC) : Prop :=
  a.Header.Magic = ⟨97, 100, 100, 0⟩ ∧ a.Header.Version = 4 ∧
  a.Header.Count = a.Entries.length ∧
  24 ≤ a.Header.IndexPtr ∧ 20 ≤ a.Header.IndexStride ∧ a.Header.IndexStride < 2 ^ 32 ∧
  (∀ e ∈ a.Entries,
    (0 : Byte) ∉ e.Filename ∧ e.Fields.Unused < 2 ^ 32 ∧ e.Fields.Unknown < 2 ^ 32) ∧
  a.Header.IndexPtr + a.Entries.length * a.Header.IndexStride
    + (encodeBlobs a.Entries).length < 2 ^ 32

instance (a : PAC) : Decidable (validArchive a) := by
  unfold validArchive; infer_instance

/-- A hand-built archive of two entries, `a` with payload `1 2` and an entry
with the empty filename and no payload; the pointer members are left at 0 (the
encoder computes them), `unused` and `unknown` of entry 0 are 5 and 7. -/
def exModel : PAC :=
  { Header := { Magic := ⟨97, 100, 100, 0⟩, Version := 4, IndexPtr := 32, IndexStride := 32,
                Count := 2, FileLen := 0 }
    Entries := [⟨⟨0, 0, 5, 7, 0⟩, [97], [1, 2]⟩, ⟨⟨0, 0, 0, 0, 0⟩, [], []⟩] }

/-! ## Reads and memory

What follows serves the claims about which bytes a result depends on, and
about the allocation of the entry slots. -/

/-- Whether the byte range `[lo, hi)` holds one of the offsets `a .. b-1`. -/
def touchesRange (a b lo hi : Nat) : Prop :=
  lo < hi ∧ lo < b ∧ a < hi

instance (a b lo hi : Nat) : Decidable (touchesRange a b lo hi) := by
  unfold touchesRange; infer_instance

/-- Whether two contents hold the same bytes in the range `[lo, hi)`. -/
def agreeOn (d d' : List Byte) (lo hi : Nat) : Prop :=
  (d.drop lo).take (hi - lo) = (d'.drop lo).take (hi - lo)

instance (d d' : List Byte) (lo hi : Nat) : Decidable (agreeOn d d' lo hi) := by
  unfold agreeOn; infer_instance

/-- The byte ranges `[lo, hi)` of the content `d` that `ReadPACEntry` takes in
through the pointers of the record at `p`: the filename from filenamePtr up to
and including its terminator (up to the end of the content when there is
none) and, when the filename is terminated, the payload range (as far as the
content goes).  These are the ranges of `entryReads` without the record. -/
def pointerReads (d : List Byte) (p : Nat) : List (Nat × Nat) :=
  if (0 : Byte) ∈ d.drop (fieldsAt d p).FilenamePtr then
    [((fieldsAt d p).FilenamePtr,
        (fieldsAt d p).FilenamePtr + (filenameAt d (fieldsAt d p).FilenamePtr).length + 1),
      ((fieldsAt d p).DataPtr, min ((fieldsAt d p).DataPtr + (fieldsAt d p).DataLen) d.length)]
  else
    [((fieldsAt d p).FilenamePtr, d.length)]

/-- `ReadPAC` on a machine on which `make([]PACEntry, Count)` can allocate
`limit` entry slots at most.  The allocation comes after the header and before
the first slot is read; when it cannot be served the Go run time ends the
process (`fatal error: out of memory`), which is the `none` here.  Everything
else is `ReadPAC`. -/
def ReadPACAlloc (limit : Nat) (r : Stream) : Option (PAC × Option Err × Stream) :=
  match ReadPACHeader r with
  | (hdr, some err, r1) => some ({ Header := hdr, Entries := [] }, some (Err.Wrap err "Header"), r1)
  | (hdr, none, r1) =>
    if limit < hdr.Count then none
    else
      match ReadPAC.loop hdr hdr.Count 0 r1 (List.replicate hdr.Count default) with
      | (entries, err, r2) => some ({ Header := hdr, Entries := entries }, err, r2)

/-- The 16843001 bytes in front of the record of `exAliasZero` and
`exAliasNonZero`, none of them zero. -/
@[irreducible] def exAliasPad : List Byte := List.replicate 16843001 1

/-- An index record at offset 16843001 whose filenamePtr is `0x01010101` = 16843009, the
address of its own unused field; `dataLen = 0`, `unused = 0`, and no byte
behind the unused field is zero.  The content ends with the record. -/
def exAliasZero : List Byte :=
  exAliasPad ++ [1, 1, 1, 1, 0, 0, 0, 0, 0, 0, 0, 0, 1, 1, 1, 1, 1, 1, 1, 1]

/-- The content `exAliasZero` with the four bytes of the unused field of the
record set to 1 (`unused = 0x01010101`). -/
def exAliasNonZero : List Byte :=
  exAliasPad ++ [1, 1, 1, 1, 0, 0, 0, 0, 1, 1, 1, 1, 1, 1, 1, 1, 1, 1, 1, 1]

/-- The record read at offset 0 of `exEntry` with the unused field set to 0. -/
def exEntryUnusedZero : List Byte :=
  [22, 0, 0, 0, 2, 0, 0, 0, 0, 0, 0, 0, 7, 0, 0, 0, 20, 0, 0, 0, 97, 0, 8, 9]

/-- An archive that declares two entries (`indexPtr = 24`, `indexStride = 20`)
in 64 bytes.  The record of slot 0 has `dataLen = 0` and points its filename
at offset 44, the record of slot 1, whose 20 bytes are all 1: there is no zero
byte from offset 44 on. -/
def exSlotAlias : List Byte :=
  [97, 100, 100, 0, 4, 0, 0, 0, 24, 0, 0, 0, 20, 0, 0, 0, 2, 0, 0, 0, 64, 0, 0, 0,
   0, 0, 0, 0, 0, 0, 0, 0, 0, 0, 0, 0, 0, 0, 0, 0, 44, 0, 0, 0,
   1, 1, 1, 1, 1, 1, 1, 1, 1, 1, 1, 1, 1, 1, 1, 1, 1, 1, 1, 1]

/-- The archive `exSlotAlias` with other bytes in the record of slot 1 only:
`dataPtr = 1`, `dataLen = 0`, `filenamePtr = 45`. -/
def exSlotAliasChanged : List Byte :=
  [97, 100, 100, 0, 4, 0, 0, 0, 24, 0, 0, 0, 20, 0, 0, 0, 2, 0, 0, 0, 64, 0, 0, 0,
   0, 0, 0, 0, 0, 0, 0, 0, 0, 0, 0, 0, 0, 0, 0, 0, 44, 0, 0, 0,
   1, 0, 0, 0, 0, 0, 0, 0, 0, 0, 0, 0, 0, 0, 0, 0, 45, 0, 0, 0]

/-- A header alone, 24 bytes, that declares `0xFFFFFFFF` entries at
`indexPtr = 24`. -/
def exHugeCount : List Byte :=
  [97, 100, 100, 0, 4, 0, 0, 0, 24, 0, 0, 0, 20, 0, 0, 0, 255, 255, 255, 255, 24, 0, 0, 0]

/-- The archive `exTwoFailures` with other bytes in the record of slot 1 only
(of which 10 bytes are in the content). -/
def exTwoFailuresChanged : List Byte :=
  [97, 100, 100, 0, 4, 0, 0, 0, 24, 0, 0, 0, 20, 0, 0, 0, 2, 0, 0, 0, 54, 0, 0, 0,
   0, 0, 0, 0, 0, 0, 0, 0, 0, 0, 0, 0, 0, 0, 0, 0, 100, 0, 0, 0,
   9, 8, 7, 6, 5, 4, 3, 2, 1, 0]

/-! ## The library layer -/

theorem getD_take_drop (d : List Byte) (p n i : Nat) (hi : i < n) :
    ((d.drop p).take n).getD i 0 = d.getD (p + i) 0 := by
  simp [List.getD_eq_getElem?_getD, List.getElem?_take, hi, List.getElem?_drop]

theorem Uint32_take_drop (d : List Byte) (p n off : Nat) (h : off + 3 < n) :
    Uint32 ((d.drop p).take n) off = Uint32 d (p + off) := by
  unfold Uint32
  rw [getD_take_drop d p n off (by omega), getD_take_drop d p n (off + 1) (by omega),
    getD_take_drop d p n (off + 2) (by omega), getD_take_drop d p n (off + 3) (by omega)]
  simp only [Nat.add_assoc]

theorem Uint32_lt (b : List Byte) (off : Nat) : Uint32 b off < 2 ^ 32 := by
  unfold Uint32
  have h0 := (b.getD off 0).isLt
  have h1 := (b.getD (off + 1) 0).isLt
  have h2 := (b.getD (off + 2) 0).isLt
  have h3 := (b.getD (off + 3) 0).isLt
  omega

theorem length_take_drop (d : List Byte) (p n : Nat) :
    ((d.drop p).take n).length = min n (d.length - p) := by
  simp

theorem ReadFull_of_le (r : Stream) (n : Nat) (h : r.pos + n ≤ r.data.length) :
    ReadFull r n = ((r.data.drop r.pos).take n, none, ⟨r.data, r.pos + n⟩) := by
  have hl : ((r.data.drop r.pos).take n).length = n := by
    rw [length_take_drop]; omega
  simp [ReadFull, hl]

theorem ReadFull_zero (r : Stream) : ReadFull r 0 = ([], none, ⟨r.data, r.pos⟩) := by
  simp [ReadFull]

theorem ReadFull_short (r : Stream) (n : Nat) (hn : 0 < n)
    (h : r.data.length < r.pos + n) :
    ReadFull r n =
      ((r.data.drop r.pos) ++ List.replicate (n - (r.data.length - r.pos)) 0,
        some (if r.data.length ≤ r.pos then Err.EOF else Err.ErrUnexpectedEOF),
        ⟨r.data, r.pos + (r.data.length - r.pos)⟩) := by
  have hl : ((r.data.drop r.pos).take n).length = r.data.length - r.pos := by
    rw [length_take_drop]; omega
  have ht : (r.data.drop r.pos).take n = r.data.drop r.pos := by
    apply List.take_of_length_le
    simp; omega
  have hne : r.data.length - r.pos ≠ n := by omega
  by_cases h0 : r.data.length ≤ r.pos
  · have hz : r.data.length - r.pos = 0 := by omega
    have hn0 : ¬ (0 = n) := by omega
    simp [ReadFull, hl, ht, hz, h0, hn0]
  · have hz : r.data.length - r.pos ≠ 0 := by omega
    simp [ReadFull, hl, ht, hne, hz, h0]


/-! ## The header -/

theorem decodePACHeader_take_drop (d : List Byte) (p : Nat) :
    decodePACHeader ((d.drop p).take 24) = headerAt d p := by
  simp only [decodePACHeader, headerAt]
  rw [getD_take_drop d p 24 0 (by omega), getD_take_drop d p 24 1 (by omega),
    getD_take_drop d p 24 2 (by omega), getD_take_drop d p 24 3 (by omega),
    Uint32_take_drop d p 24 4 (by omega), Uint32_take_drop d p 24 8 (by omega),
    Uint32_take_drop d p 24 12 (by omega), Uint32_take_drop d p 24 16 (by omega),
    Uint32_take_drop d p 24 20 (by omega)]
  rfl

theorem ReadPACHeader_of_le (r : Stream) (h : r.pos + 24 ≤ r.data.length) :
    ReadPACHeader r =
      (headerAt r.data r.pos,
        (if ¬ magicOK r.data r.pos then
          some (Err.New "Magic: Mismatch; file is not a valid .pac")
        else if Uint32 r.data (r.pos + 4) ≠ 4 then
          some (Err.Errorf "Version: Mismatch; expected 4, got %d" (Uint32 r.data (r.pos + 4)))
        else none),
        ⟨r.data, r.pos + 24⟩) := by
  unfold ReadPACHeader
  rw [ReadFull_of_le r 24 h]
  simp only [decodePACHeader_take_drop]
  by_cases hm : magicOK r.data r.pos
  · have hc : ¬ ((headerAt r.data r.pos).Magic.m0 ≠ 97 ∨ (headerAt r.data r.pos).Magic.m1 ≠ 100 ∨
        (headerAt r.data r.pos).Magic.m2 ≠ 100 ∨ (headerAt r.data r.pos).Magic.m3 ≠ 0) := by
      obtain ⟨h0, h1, h2, h3⟩ := hm
      simp only [headerAt, h0, h1, h2, h3]
      simp
    rw [if_neg hc, if_neg (not_not.mpr hm)]
    have hV : (headerAt r.data r.pos).Version = Uint32 r.data (r.pos + 4) := rfl
    rw [hV]
    by_cases hv : Uint32 r.data (r.pos + 4) = 4
    · rw [if_neg (not_not.mpr hv), if_neg (not_not.mpr hv)]
    · rw [if_pos hv, if_pos hv]
  · have hm' : (headerAt r.data r.pos).Magic.m0 ≠ 97 ∨ (headerAt r.data r.pos).Magic.m1 ≠ 100 ∨
        (headerAt r.data r.pos).Magic.m2 ≠ 100 ∨ (headerAt r.data r.pos).Magic.m3 ≠ 0 := by
      simp only [headerAt, magicOK] at hm ⊢
      by_contra hc
      push_neg at hc
      exact hm hc
    rw [if_pos hm']
    simp [hm]

theorem ReadPACHeader_short (r : Stream) (h : r.data.length < r.pos + 24) :
    ReadPACHeader r =
      (default,
        some (Err.Wrap (if r.data.length ≤ r.pos then Err.EOF else Err.ErrUnexpectedEOF) "Version"),
        ⟨r.data, r.pos + (r.data.length - r.pos)⟩) := by
  unfold ReadPACHeader
  rw [ReadFull_short r 24 (by omega) h]

/-! ## The entry -/

theorem Seek_ofNat (r : Stream) (n : Nat) : Seek r (Int.ofNat n) = (none, ⟨r.data, n⟩) := by
  have h : ¬ (Int.ofNat n < 0) := by
    simp
  simp [Seek, h]

theorem take_indexOf_eq_takeWhile (a : Byte) (l : List Byte) :
    l.take (l.indexOf a) = l.takeWhile (fun b => decide (b ≠ a)) := by
  induction l with
  | nil => simp
  | cons b t ih =>
    by_cases hb : b = a
    · rw [List.indexOf_cons_eq t hb]
      simp [hb]
    · rw [List.indexOf_cons_ne t hb]
      simp [hb, ih]

theorem decodePACEntryFields_take_drop (d : List Byte) (p : Nat) :
    decodePACEntryFields ((d.drop p).take 20) = fieldsAt d p := by
  simp only [decodePACEntryFields, fieldsAt]
  rw [Uint32_take_drop d p 20 0 (by omega), Uint32_take_drop d p 20 4 (by omega),
    Uint32_take_drop d p 20 8 (by omega), Uint32_take_drop d p 20 12 (by omega),
    Uint32_take_drop d p 20 16 (by omega)]
  rfl

theorem ReadString_of_mem (r : Stream) (a : Byte) (h : a ∈ r.data.drop r.pos) :
    (ReadString r a).2.1 = none ∧
    (ReadString r a).1.take ((ReadString r a).1.length - 1) =
      (r.data.drop r.pos).takeWhile (fun b => decide (b ≠ a)) ∧
    (ReadString r a).2.2.data = r.data := by
  have hk : (r.data.drop r.pos).indexOf a < (r.data.drop r.pos).length :=
    List.indexOf_lt_length.mpr h
  unfold ReadString
  simp only [if_pos hk]
  refine ⟨trivial, ?_, trivial⟩
  rw [List.length_take, Nat.min_eq_left (by omega), Nat.add_sub_cancel, List.take_take,
    Nat.min_eq_left (by omega)]
  exact take_indexOf_eq_takeWhile a _

theorem ReadString_of_not_mem (r : Stream) (a : Byte) (h : a ∉ r.data.drop r.pos) :
    ReadString r a =
      (r.data.drop r.pos, some Err.EOF, ⟨r.data, r.pos + (r.data.drop r.pos).length⟩) := by
  have hk : ¬ ((r.data.drop r.pos).indexOf a < (r.data.drop r.pos).length) := by
    rw [List.indexOf_lt_length]; exact h
  unfold ReadString
  simp only [if_neg hk]

theorem ReadPACEntry_of_short (r : Stream) (h : r.data.length < r.pos + 20) :
    ReadPACEntry r =
      (default,
        some (Err.Wrap (if r.data.length ≤ r.pos then Err.EOF else Err.ErrUnexpectedEOF) "Fields"),
        ⟨r.data, r.pos + (r.data.length - r.pos)⟩) := by
  unfold ReadPACEntry
  rw [ReadFull_short r 20 (by omega) h]

theorem ReadPACEntry_of_not_terminated (r : Stream) (h : r.pos + 20 ≤ r.data.length)
    (hz : (0 : Byte) ∉ r.data.drop (fieldsAt r.data r.pos).FilenamePtr) :
    ReadPACEntry r =
      (⟨fieldsAt r.data r.pos, [], []⟩, some (Err.Wrap Err.EOF "Ptr.Filename"),
        ⟨r.data, (fieldsAt r.data r.pos).FilenamePtr +
          (r.data.drop (fieldsAt r.data r.pos).FilenamePtr).length⟩) := by
  unfold ReadPACEntry
  rw [ReadFull_of_le r 20 h]
  simp only [decodePACEntryFields_take_drop, Seek_ofNat]
  rw [ReadString_of_not_mem ⟨r.data, (fieldsAt r.data r.pos).FilenamePtr⟩ 0 hz]

theorem ReadPACEntry_of_terminated (r : Stream) (h : r.pos + 20 ≤ r.data.length)
    (hz : (0 : Byte) ∈ r.data.drop (fieldsAt r.data r.pos).FilenamePtr) :
    ReadPACEntry r =
      (⟨fieldsAt r.data r.pos, filenameAt r.data (fieldsAt r.data r.pos).FilenamePtr,
          (ReadFull ⟨r.data, (fieldsAt r.data r.pos).DataPtr⟩ (fieldsAt r.data r.pos).DataLen).1⟩,
        Option.map (fun e => Err.Wrap e "Ptr.Data")
          (ReadFull ⟨r.data, (fieldsAt r.data r.pos).DataPtr⟩ (fieldsAt r.data r.pos).DataLen).2.1,
        (ReadFull ⟨r.data, (fieldsAt r.data r.pos).DataPtr⟩
          (fieldsAt r.data r.pos).DataLen).2.2) := by
  obtain ⟨h1, h2, h3⟩ := ReadString_of_mem ⟨r.data, (fieldsAt r.data r.pos).FilenamePtr⟩ 0 hz
  unfold ReadPACEntry
  rw [ReadFull_of_le r 20 h]
  simp only [decodePACEntryFields_take_drop, Seek_ofNat]
  generalize hrs : ReadString ⟨r.data, (fieldsAt r.data r.pos).FilenamePtr⟩ 0 = rs at h1 h2 h3
  obtain ⟨fn, e, r3⟩ := rs
  simp only at h1 h2 h3
  subst h1
  simp only [h2, h3, filenameAt]
  generalize hrf : ReadFull ⟨r.data, (fieldsAt r.data r.pos).DataPtr⟩
    (fieldsAt r.data r.pos).DataLen = rf
  obtain ⟨buf, e, r5⟩ := rf
  cases e <;> rfl

theorem takeWhile_ne_spec (a : Byte) (l : List Byte) (h : a ∈ l) :
    l.takeWhile (fun b => decide (b ≠ a)) = l.take (l.takeWhile (fun b => decide (b ≠ a))).length ∧
    l[(l.takeWhile (fun b => decide (b ≠ a))).length]? = some a ∧
    a ∉ l.takeWhile (fun b => decide (b ≠ a)) := by
  induction l with
  | nil => simp at h
  | cons b t ih =>
    by_cases hb : b = a
    · simp [hb]
    · have ht : a ∈ t := by
        rcases List.mem_cons.mp h with h' | h'
        · exact absurd h'.symm hb
        · exact h'
      obtain ⟨h1, h2, h3⟩ := ih ht
      have hcons : (b :: t).takeWhile (fun b => decide (b ≠ a)) =
          b :: t.takeWhile (fun b => decide (b ≠ a)) := by
        simp [hb]
      rw [hcons]
      refine ⟨?_, ?_, ?_⟩
      · simp only [List.length_cons, List.take_succ_cons]
        rw [← h1]
      · simpa using h2
      · intro hm
        rcases List.mem_cons.mp hm with h' | h'
        · exact hb h'.symm
        · exact h3 h'

theorem mem_drop_iff (a : Byte) (d : List Byte) (p : Nat) :
    a ∈ d.drop p ↔ ∃ j, p ≤ j ∧ d[j]? = some a := by
  rw [List.mem_iff_getElem?]
  constructor
  · rintro ⟨n, hn⟩
    rw [List.getElem?_drop] at hn
    exact ⟨p + n, by omega, hn⟩
  · rintro ⟨j, hj, hja⟩
    refine ⟨j - p, ?_⟩
    rw [List.getElem?_drop]
    have : p + (j - p) = j := by omega
    rw [this]
    exact hja

theorem ReadFull_none_iff (r : Stream) (n : Nat) :
    (ReadFull r n).2.1 = none ↔ n = 0 ∨ r.pos + n ≤ r.data.length := by
  by_cases h : r.pos + n ≤ r.data.length
  · rw [ReadFull_of_le r n h]
    simp [h]
  · by_cases hn : n = 0
    · subst hn
      rw [ReadFull_zero]
      simp
    · rw [ReadFull_short r n (by omega) (by omega)]
      simp [h, hn]

theorem ReadFull_length (r : Stream) (n : Nat) : (ReadFull r n).1.length = n := by
  have hl : ((r.data.drop r.pos).take n).length ≤ n := by
    rw [length_take_drop]; omega
  unfold ReadFull
  simp only
  split
  · simp only [List.length_append, List.length_replicate]; omega
  · split
    · simp only [List.length_append, List.length_replicate]; omega
    · simp only [List.length_append, List.length_replicate]; omega

theorem ReadFull_data (r : Stream) (n : Nat) : (ReadFull r n).2.2.data = r.data := by
  unfold ReadFull
  simp only
  split
  · rfl
  · split <;> rfl

theorem ReadFull_value_of_none (r : Stream) (n : Nat) (h : (ReadFull r n).2.1 = none) :
    (ReadFull r n).1 = (r.data.drop r.pos).take n := by
  rcases (ReadFull_none_iff r n).mp h with h0 | hle
  · subst h0
    rw [ReadFull_zero]
    simp
  · rw [ReadFull_of_le r n hle]

theorem ReadPACEntry_data (r : Stream) : (ReadPACEntry r).2.2.data = r.data := by
  by_cases h : r.pos + 20 ≤ r.data.length
  · by_cases hz : (0 : Byte) ∈ r.data.drop (fieldsAt r.data r.pos).FilenamePtr
    · rw [ReadPACEntry_of_terminated r h hz]
      exact ReadFull_data _ _
    · rw [ReadPACEntry_of_not_terminated r h hz]
  · rw [ReadPACEntry_of_short r (by omega)]

theorem ReadPACEntry_none_iff (r : Stream) :
    (ReadPACEntry r).2.1 = none ↔
      r.pos + 20 ≤ r.data.length ∧
      (0 : Byte) ∈ r.data.drop (fieldsAt r.data r.pos).FilenamePtr ∧
      ((fieldsAt r.data r.pos).DataLen = 0 ∨
        (fieldsAt r.data r.pos).DataPtr + (fieldsAt r.data r.pos).DataLen ≤ r.data.length) := by
  by_cases h : r.pos + 20 ≤ r.data.length
  · by_cases hz : (0 : Byte) ∈ r.data.drop (fieldsAt r.data r.pos).FilenamePtr
    · rw [ReadPACEntry_of_terminated r h hz]
      simp only [Option.map_eq_none', ReadFull_none_iff]
      simp [h, hz]
    · rw [ReadPACEntry_of_not_terminated r h hz]
      simp [hz]
  · rw [ReadPACEntry_of_short r (by omega)]
    simp [h]

/-! ## The archive loop -/

theorem indexSlot_eq (hdr : PACHeader) (i : Nat) :
    indexSlot hdr i = (hdr.IndexPtr + i * hdr.IndexStride) % 2 ^ 32 := by
  unfold indexSlot
  exact Nat.add_mod_mod _ _ _

theorem loop_step (hdr : PACHeader) (fuel i : Nat) (r : Stream) (es : List PACEntry)
    (hi : i < hdr.Count) :
    ReadPAC.loop hdr (fuel + 1) i r es =
      match slotEntry r.data hdr i with
      | (_, some err, r2) => (es, some (Err.Wrapf err "Entry %d" i), r2)
      | (entry, none, r2) => ReadPAC.loop hdr fuel ((i + 1) % 2 ^ 32) r2 (es.set i entry) := by
  rw [ReadPAC.loop]
  simp only [if_pos hi, Seek_ofNat, slotEntry]

theorem loop_done (hdr : PACHeader) (fuel i : Nat) (r : Stream) (es : List PACEntry)
    (hi : hdr.Count ≤ i) : ReadPAC.loop hdr fuel i r es = (es, none, r) := by
  cases fuel with
  | zero => rfl
  | succ n =>
    rw [ReadPAC.loop]
    simp only [if_neg (Nat.not_lt.mpr hi)]

/-- What the loop of `ReadPAC` does from counter `i` on, with the fuel that
`ReadPAC` gives it: either every slot from `i` on decodes and is stored, or
there is a first failing slot `k`, the loop stops there with the error of that
slot, and the slots from `k` on are left as they were. -/
theorem loop_spec (hdr : PACHeader) (hC : hdr.Count < 2 ^ 32) :
    ∀ (fuel i : Nat) (r : Stream) (es : List PACEntry),
      i + fuel = hdr.Count → es.length = hdr.Count →
      (ReadPAC.loop hdr fuel i r es).2.2.data = r.data ∧
      (ReadPAC.loop hdr fuel i r es).1.length = hdr.Count ∧
      (∀ j, j < i → (ReadPAC.loop hdr fuel i r es).1[j]? = es[j]?) ∧
      (((ReadPAC.loop hdr fuel i r es).2.1 = none ∧
          ∀ j, i ≤ j → j < hdr.Count →
            (slotEntry r.data hdr j).2.1 = none ∧
            (ReadPAC.loop hdr fuel i r es).1[j]? = some (slotEntry r.data hdr j).1) ∨
        (∃ k e, i ≤ k ∧ k < hdr.Count ∧ (slotEntry r.data hdr k).2.1 = some e ∧
          (ReadPAC.loop hdr fuel i r es).2.1 = some (Err.Wrapf e "Entry %d" k) ∧
          (∀ j, i ≤ j → j < k →
            (slotEntry r.data hdr j).2.1 = none ∧
            (ReadPAC.loop hdr fuel i r es).1[j]? = some (slotEntry r.data hdr j).1) ∧
          (∀ j, k ≤ j → (ReadPAC.loop hdr fuel i r es).1[j]? = es[j]?))) := by
  intro fuel
  induction fuel with
  | zero =>
    intro i r es hi hes
    rw [loop_done hdr 0 i r es (by omega)]
    refine ⟨rfl, hes, fun _ _ => rfl, Or.inl ⟨rfl, ?_⟩⟩
    intro j h1 h2
    omega
  | succ n ih =>
    intro i r es hi hes
    have hlt : i < hdr.Count := by omega
    rw [loop_step hdr n i r es hlt]
    have hdata : (slotEntry r.data hdr i).2.2.data = r.data := ReadPACEntry_data _
    generalize hse : slotEntry r.data hdr i = se at hdata
    obtain ⟨entry, e, r2⟩ := se
    simp only at hdata
    cases e with
    | some err =>
      refine ⟨hdata, hes, fun _ _ => rfl, Or.inr ⟨i, err, le_refl _, hlt, ?_, rfl, ?_, fun _ _ => rfl⟩⟩
      · rw [hse]
      · intro j h1 h2
        omega
    | none =>
      have hmod : (i + 1) % 2 ^ 32 = i + 1 := Nat.mod_eq_of_lt (by omega)
      simp only [hmod]
      have hset : (es.set i entry).length = hdr.Count := by
        rw [List.length_set]; exact hes
      obtain ⟨h1, h2, h3, h4⟩ := ih (i + 1) r2 (es.set i entry) (by omega) hset
      rw [hdata] at h1 h4
      have hother : ∀ j, j ≠ i → (es.set i entry)[j]? = es[j]? := by
        intro j hj
        rw [List.getElem?_set_ne (Ne.symm hj)]
      have hself : (es.set i entry)[i]? = some entry := by
        rw [List.getElem?_set_self (by omega)]
      have hi_res : (ReadPAC.loop hdr n (i + 1) r2 (es.set i entry)).1[i]? =
          some (slotEntry r.data hdr i).1 := by
        rw [h3 i (by omega), hself, hse]
      have hi_ok : (slotEntry r.data hdr i).2.1 = none := by
        rw [hse]
      refine ⟨h1, h2, ?_, ?_⟩
      · intro j hj
        rw [h3 j (by omega), hother j (by omega)]
      · rcases h4 with ⟨hn, hall⟩ | ⟨k, e, hk1, hk2, hk3, hk4, hk5, hk6⟩
        · refine Or.inl ⟨hn, ?_⟩
          intro j hj1 hj2
          by_cases hji : j = i
          · subst hji
            exact ⟨hi_ok, hi_res⟩
          · exact hall j (by omega) hj2
        · refine Or.inr ⟨k, e, by omega, hk2, hk3, hk4, ?_, ?_⟩
          · intro j hj1 hj2
            by_cases hji : j = i
            · subst hji
              exact ⟨hi_ok, hi_res⟩
            · exact hk5 j (by omega) hj2
          · intro j hj
            rw [hk6 j hj, hother j (by omega)]

/-! ## The archive -/

theorem ReadPACHeader_data (r : Stream) : (ReadPACHeader r).2.2.data = r.data := by
  by_cases h : r.pos + 24 ≤ r.data.length
  · rw [ReadPACHeader_of_le r h]
  · rw [ReadPACHeader_short r (by omega)]

theorem ReadPACHeader_count_lt (r : Stream) : (ReadPACHeader r).1.Count < 2 ^ 32 := by
  by_cases h : r.pos + 24 ≤ r.data.length
  · rw [ReadPACHeader_of_le r h]
    exact Uint32_lt _ _
  · rw [ReadPACHeader_short r (by omega)]
    show (0 : Nat) < 2 ^ 32
    omega

theorem ReadPAC_of_header_err (r : Stream) (e : Err) (h : (ReadPACHeader r).2.1 = some e) :
    ReadPAC r =
      ({ Header := (ReadPACHeader r).1, Entries := [] }, some (Err.Wrap e "Header"),
        (ReadPACHeader r).2.2) := by
  unfold ReadPAC
  generalize ReadPACHeader r = rh at h
  obtain ⟨hdr, e', r1⟩ := rh
  simp only at h
  subst h
  rfl

theorem ReadPAC_of_header_ok (r : Stream) (h : (ReadPACHeader r).2.1 = none) :
    ReadPAC r =
      ({ Header := (ReadPACHeader r).1
         Entries := (ReadPAC.loop (ReadPACHeader r).1 (ReadPACHeader r).1.Count 0
            (ReadPACHeader r).2.2 (List.replicate (ReadPACHeader r).1.Count default)).1 },
        (ReadPAC.loop (ReadPACHeader r).1 (ReadPACHeader r).1.Count 0
            (ReadPACHeader r).2.2 (List.replicate (ReadPACHeader r).1.Count default)).2.1,
        (ReadPAC.loop (ReadPACHeader r).1 (ReadPACHeader r).1.Count 0
            (ReadPACHeader r).2.2 (List.replicate (ReadPACHeader r).1.Count default)).2.2) := by
  unfold ReadPAC
  generalize ReadPACHeader r = rh at h
  obtain ⟨hdr, e', r1⟩ := rh
  simp only at h
  subst h
  rfl

/-- The outcome of `ReadPAC` on a stream whose header decodes: the header is
the decoded one, there are `Count` entries, and either all slots decode and are
stored in order, or the call stops at the first failing slot `k` with the
error of that slot annotated with `k`, the slots before `k` being stored and
the slots from `k` on being left at the zero entry. -/
theorem ReadPAC_spec (r : Stream) (h : (ReadPACHeader r).2.1 = none) :
    (ReadPAC r).1.Header = (ReadPACHeader r).1 ∧
    (ReadPAC r).1.Entries.length = (ReadPACHeader r).1.Count ∧
    (((ReadPAC r).2.1 = none ∧
        ∀ j, j < (ReadPACHeader r).1.Count →
          (slotEntry r.data (ReadPACHeader r).1 j).2.1 = none ∧
          (ReadPAC r).1.Entries[j]? = some (slotEntry r.data (ReadPACHeader r).1 j).1) ∨
      (∃ k e, k < (ReadPACHeader r).1.Count ∧
        (slotEntry r.data (ReadPACHeader r).1 k).2.1 = some e ∧
        (ReadPAC r).2.1 = some (Err.Wrapf e "Entry %d" k) ∧
        (∀ j, j < k →
          (slotEntry r.data (ReadPACHeader r).1 j).2.1 = none ∧
          (ReadPAC r).1.Entries[j]? = some (slotEntry r.data (ReadPACHeader r).1 j).1) ∧
        (∀ j, k ≤ j → j < (ReadPACHeader r).1.Count →
          (ReadPAC r).1.Entries[j]? = some default))) := by
  rw [ReadPAC_of_header_ok r h]
  obtain ⟨h1, h2, _, h4⟩ := loop_spec (ReadPACHeader r).1 (ReadPACHeader_count_lt r)
    (ReadPACHeader r).1.Count 0 (ReadPACHeader r).2.2
    (List.replicate (ReadPACHeader r).1.Count default) (by omega) (by simp)
  rw [ReadPACHeader_data] at h4
  refine ⟨rfl, h2, ?_⟩
  rcases h4 with ⟨hn, hall⟩ | ⟨k, e, _, hk2, hk3, hk4, hk5, hk6⟩
  · exact Or.inl ⟨hn, fun j hj => hall j (Nat.zero_le _) hj⟩
  · refine Or.inr ⟨k, e, hk2, hk3, hk4, fun j hj => hk5 j (Nat.zero_le _) hj, ?_⟩
    intro j hj1 hj2
    simp only at hk6 ⊢
    rw [hk6 j hj1]
    simp [hj2]

theorem ReadPAC_header_ok_of_ok (r : Stream) (h : (ReadPAC r).2.1 = none) :
    (ReadPACHeader r).2.1 = none := by
  cases hh : (ReadPACHeader r).2.1 with
  | none => rfl
  | some e =>
    rw [ReadPAC_of_header_err r e hh] at h
    exact Option.noConfusion h

/-! ## Claims about the header -/

/-- C2: on a content of at least 24 bytes that starts with `a`, `d`, `d`, 0 and
whose bytes 4..7 decode to 4, `ReadPACHeader` with the cursor at 0 reports no
error and returns the header whose magic is bytes 0..3 and whose version,
indexPtr, indexStride, count and fileLen are the little-endian `uint32` values
at offsets 4, 8, 12, 16 and 20: the fields are adjacent, without padding. -/
theorem ReadPACHeader_layout (d : List Byte) (hlen : 24 ≤ d.length)
    (hmagic : d.getD 0 0 = 97 ∧ d.getD 1 0 = 100 ∧ d.getD 2 0 = 100 ∧ d.getD 3 0 = 0)
    (hver : Uint32 d 4 = 4) :
    (ReadPACHeader ⟨d, 0⟩).2.1 = none ∧
    (ReadPACHeader ⟨d, 0⟩).1 =
      { Magic := ⟨d.getD 0 0, d.getD 1 0, d.getD 2 0, d.getD 3 0⟩
        Version := Uint32 d 4
        IndexPtr := Uint32 d 8
        IndexStride := Uint32 d 12
        Count := Uint32 d 16
        FileLen := Uint32 d 20 } := by
  have hm : magicOK d 0 := hmagic
  have h := ReadPACHeader_of_le ⟨d, 0⟩ (by simpa using hlen)
  simp only [Nat.zero_add] at h
  rw [h]
  refine ⟨?_, rfl⟩
  simp [hm, hver]

/-- Witness of C2 on `exHeader`. -/
theorem ReadPACHeader_layout_witness :
    (ReadPACHeader ⟨exHeader, 0⟩).2.1 = none ∧
    (ReadPACHeader ⟨exHeader, 0⟩).1 =
      { Magic := ⟨97, 100, 100, 0⟩, Version := 4, IndexPtr := 32, IndexStride := 32,
        Count := 1, FileLen := 73 } :=
  ReadPACHeader_layout exHeader (by decide) (by decide) (by decide)

/-- C3: with the cursor at 0, `ReadPACHeader` reports no error exactly when the
content has at least 24 bytes, bytes 0..3 are `a`, `d`, `d`, 0 and the version
field is 4.  The condition does not mention indexPtr, indexStride, count or
fileLen: no value of them makes header decoding fail. -/
theorem ReadPACHeader_ok_iff (d : List Byte) :
    (ReadPACHeader ⟨d, 0⟩).2.1 = none ↔
      24 ≤ d.length ∧
      (d.getD 0 0 = 97 ∧ d.getD 1 0 = 100 ∧ d.getD 2 0 = 100 ∧ d.getD 3 0 = 0) ∧
      Uint32 d 4 = 4 := by
  by_cases hlen : 24 ≤ d.length
  · have h := ReadPACHeader_of_le ⟨d, 0⟩ (by simpa using hlen)
    simp only [Nat.zero_add] at h
    rw [h]
    by_cases hm : magicOK d 0
    · by_cases hv : Uint32 d 4 = 4
      · rw [if_neg (not_not.mpr hm), if_neg (not_not.mpr hv)]
        exact ⟨fun _ => ⟨hlen, hm, hv⟩, fun _ => rfl⟩
      · simp [hm, hv]
    · have hm' : ¬ (d.getD 0 0 = 97 ∧ d.getD 1 0 = 100 ∧ d.getD 2 0 = 100 ∧ d.getD 3 0 = 0) := hm
      simp only [hm, hm']
      simp
  · have h := ReadPACHeader_short ⟨d, 0⟩ (by simp; omega)
    rw [h]
    simp [hlen]

/-- C4: header validation is ordered.  A content shorter than 24 bytes fails
with the read error (`io.EOF` when empty, `io.ErrUnexpectedEOF` otherwise,
wrapped by `ReadPACHeader`) whatever its bytes are, and nothing is decoded; a
content of 24 bytes or more whose magic is not `a`, `d`, `d`, 0 fails with the
magic-mismatch error whatever its version is; one with the right magic and a
version `v ≠ 4` fails with the version-mismatch error carrying `v`.  The three
errors are pairwise different values. -/
theorem ReadPACHeader_validation_order (d : List Byte) :
    (d.length < 24 →
      ReadPACHeader ⟨d, 0⟩ =
        (default, some (Err.Wrap (if d = [] then Err.EOF else Err.ErrUnexpectedEOF) "Version"),
          ⟨d, d.length⟩)) ∧
    (24 ≤ d.length →
      ¬ (d.getD 0 0 = 97 ∧ d.getD 1 0 = 100 ∧ d.getD 2 0 = 100 ∧ d.getD 3 0 = 0) →
      (ReadPACHeader ⟨d, 0⟩).2.1 =
        some (Err.New "Magic: Mismatch; file is not a valid .pac")) ∧
    (24 ≤ d.length →
      (d.getD 0 0 = 97 ∧ d.getD 1 0 = 100 ∧ d.getD 2 0 = 100 ∧ d.getD 3 0 = 0) →
      Uint32 d 4 ≠ 4 →
      (ReadPACHeader ⟨d, 0⟩).2.1 =
        some (Err.Errorf "Version: Mismatch; expected 4, got %d" (Uint32 d 4))) ∧
    (∀ (e : Err) (v w : Nat),
      Err.Wrap e "Version" ≠ Err.New "Magic: Mismatch; file is not a valid .pac" ∧
      Err.Wrap e "Version" ≠ Err.Errorf "Version: Mismatch; expected 4, got %d" v ∧
      Err.New "Magic: Mismatch; file is not a valid .pac" ≠
        Err.Errorf "Version: Mismatch; expected 4, got %d" v ∧
      (Err.Errorf "Version: Mismatch; expected 4, got %d" v =
        Err.Errorf "Version: Mismatch; expected 4, got %d" w → v = w)) := by
  refine ⟨?_, ?_, ?_, ?_⟩
  · intro hlen
    have h := ReadPACHeader_short ⟨d, 0⟩ (by simp; omega)
    rw [h]
    have he : (d.length ≤ 0) = (d = []) := by
      simp [List.length_eq_zero]
    simp [he]
  · intro hlen hm
    have h := ReadPACHeader_of_le ⟨d, 0⟩ (by simpa using hlen)
    simp only [Nat.zero_add] at h
    rw [h]
    have hm' : ¬ magicOK d 0 := hm
    simp [hm']
  · intro hlen hm hv
    have h := ReadPACHeader_of_le ⟨d, 0⟩ (by simpa using hlen)
    simp only [Nat.zero_add] at h
    rw [h]
    have hm' : magicOK d 0 := hm
    simp [hm', hv]
  · intro e v w
    refine ⟨by simp, by simp, by simp, ?_⟩
    intro h
    injection h

/-- Witness of C4: a 23-byte header, a 24-byte header with a wrong magic and a
wrong version, and a 24-byte header with the right magic and version 5. -/
theorem ReadPACHeader_validation_order_witness :
    ReadPACHeader ⟨exHeaderShort, 0⟩ =
      (default, some (Err.Wrap Err.ErrUnexpectedEOF "Version"), ⟨exHeaderShort, 23⟩) ∧
    (ReadPACHeader ⟨exHeaderBadMagic, 0⟩).2.1 =
      some (Err.New "Magic: Mismatch; file is not a valid .pac") ∧
    (ReadPACHeader ⟨exHeaderBadVersion, 0⟩).2.1 =
      some (Err.Errorf "Version: Mismatch; expected 4, got %d" 5) :=
  ⟨(ReadPACHeader_validation_order exHeaderShort).1 (by decide),
    (ReadPACHeader_validation_order exHeaderBadMagic).2.1 (by decide) (by decide),
    (ReadPACHeader_validation_order exHeaderBadVersion).2.2.1 (by decide) (by decide) (by decide)⟩

/-! ## Claims about one entry -/

/-- C6: when `ReadPACEntry` succeeds, the filename it returns is the run of
content bytes that starts at filenamePtr and stops right before the first zero
byte at or after filenamePtr: it is the `n` bytes from filenamePtr on, the byte
at `filenamePtr + n` is zero, and none of the `n` bytes is zero.  It is empty
when the byte at filenamePtr is zero. -/
theorem ReadPACEntry_filename (r : Stream) (hok : (ReadPACEntry r).2.1 = none) :
    (ReadPACEntry r).1.Filename =
      (r.data.drop (ReadPACEntry r).1.Fields.FilenamePtr).take
        (ReadPACEntry r).1.Filename.length ∧
    r.data[(ReadPACEntry r).1.Fields.FilenamePtr + (ReadPACEntry r).1.Filename.length]? =
      some 0 ∧
    (0 : Byte) ∉ (ReadPACEntry r).1.Filename ∧
    (r.data[(ReadPACEntry r).1.Fields.FilenamePtr]? = some 0 →
      (ReadPACEntry r).1.Filename = []) := by
  obtain ⟨h, hz, _⟩ := (ReadPACEntry_none_iff r).mp hok
  rw [ReadPACEntry_of_terminated r h hz]
  simp only [filenameAt]
  obtain ⟨h1, h2, h3⟩ := takeWhile_ne_spec 0 _ hz
  refine ⟨h1, ?_, h3, ?_⟩
  · rw [List.getElem?_drop] at h2
    exact h2
  · intro h0
    have hd : (r.data.drop (fieldsAt r.data r.pos).FilenamePtr)[0]? = some 0 := by
      rw [List.getElem?_drop]
      exact h0
    cases hl : r.data.drop (fieldsAt r.data r.pos).FilenamePtr with
    | nil => simp
    | cons b t =>
      rw [hl] at hd
      simp only [List.getElem?_cons_zero, Option.some.injEq] at hd
      simp [hd]

/-- Witness of C6 on `exEntry`: the filename is the single byte `a`. -/
theorem ReadPACEntry_filename_witness :
    (ReadPACEntry ⟨exEntry, 0⟩).1.Filename = [97] ∧
    (0 : Byte) ∉ (ReadPACEntry ⟨exEntry, 0⟩).1.Filename :=
  ⟨by
    have h := (ReadPACEntry_filename ⟨exEntry, 0⟩ (by decide)).1
    exact h.trans (by decide),
   (ReadPACEntry_filename ⟨exEntry, 0⟩ (by decide)).2.2.1⟩

/-- C7: when `ReadPACEntry` succeeds, the data it returns has exactly dataLen
bytes and is the content in the range `[dataPtr, dataPtr + dataLen)`; when
dataLen is positive that range lies inside the content.  The payload step run
from any cursor `c` yields the same bytes: the cursor left behind by the
filename read plays no part. -/
theorem ReadPACEntry_payload (r : Stream) (hok : (ReadPACEntry r).2.1 = none) :
    (ReadPACEntry r).1.Data.length = (ReadPACEntry r).1.Fields.DataLen ∧
    (ReadPACEntry r).1.Data =
      (r.data.drop (ReadPACEntry r).1.Fields.DataPtr).take (ReadPACEntry r).1.Fields.DataLen ∧
    (0 < (ReadPACEntry r).1.Fields.DataLen →
      (ReadPACEntry r).1.Fields.DataPtr + (ReadPACEntry r).1.Fields.DataLen ≤ r.data.length) ∧
    (∀ c : Nat,
      (ReadFull (Seek ⟨r.data, c⟩ (Int.ofNat (ReadPACEntry r).1.Fields.DataPtr)).2
        (ReadPACEntry r).1.Fields.DataLen).1 = (ReadPACEntry r).1.Data) := by
  obtain ⟨h, hz, hd⟩ := (ReadPACEntry_none_iff r).mp hok
  have hrf : (ReadFull ⟨r.data, (fieldsAt r.data r.pos).DataPtr⟩
      (fieldsAt r.data r.pos).DataLen).2.1 = none :=
    (ReadFull_none_iff _ _).mpr hd
  rw [ReadPACEntry_of_terminated r h hz]
  refine ⟨ReadFull_length _ _, ReadFull_value_of_none _ _ hrf, ?_, ?_⟩
  · intro hpos
    rcases hd with h0 | hle
    · simp only at hpos
      omega
    · exact hle
  · intro c
    rw [Seek_ofNat]

/-- Witness of C7 on `exEntry`: two payload bytes from offset 22. -/
theorem ReadPACEntry_payload_witness :
    (ReadPACEntry ⟨exEntry, 0⟩).1.Data.length = 2 ∧
    (ReadPACEntry ⟨exEntry, 0⟩).1.Data = [8, 9] :=
  ⟨(ReadPACEntry_payload ⟨exEntry, 0⟩ (by decide)).1.trans (by decide),
    (ReadPACEntry_payload ⟨exEntry, 0⟩ (by decide)).2.1.trans (by decide)⟩

/-- C8: for an index record at the cursor (20 bytes are available there) whose
filenamePtr has no zero byte at or after it in the content, also when
filenamePtr lies at or beyond the end of the content, `ReadPACEntry` fails
with `io.EOF` wrapped as `Ptr.Filename`, and the entry it hands back has an
empty filename: the unterminated bytes are not returned. -/
theorem ReadPACEntry_unterminated_filename (r : Stream) (h : r.pos + 20 ≤ r.data.length)
    (hz : ∀ j, j < r.data.length → Uint32 r.data (r.pos + 16) ≤ j → r.data[j]? ≠ some 0) :
    (ReadPACEntry r).2.1 = some (Err.Wrap Err.EOF "Ptr.Filename") ∧
    (ReadPACEntry r).1.Filename = [] := by
  have hz' : (0 : Byte) ∉ r.data.drop (fieldsAt r.data r.pos).FilenamePtr := by
    rw [mem_drop_iff]
    rintro ⟨j, hj, hj0⟩
    have hlt : j < r.data.length := by
      by_contra hge
      rw [List.getElem?_eq_none (by omega)] at hj0
      exact Option.noConfusion hj0
    exact hz j hlt hj hj0
  rw [ReadPACEntry_of_not_terminated r h hz']
  exact ⟨rfl, rfl⟩

/-- Witness of C8 on `exEntryUnterminated`: the bytes `a`, `b` at the filename
pointer run into the end of the content. -/
theorem ReadPACEntry_unterminated_filename_witness :
    (ReadPACEntry ⟨exEntryUnterminated, 0⟩).2.1 = some (Err.Wrap Err.EOF "Ptr.Filename") ∧
    (ReadPACEntry ⟨exEntryUnterminated, 0⟩).1.Filename = [] :=
  ReadPACEntry_unterminated_filename ⟨exEntryUnterminated, 0⟩ (by decide) (by decide)

/-! ## Claims about the archive -/

/-- C1, as stated, fails on `exWrap`: `ReadPAC` succeeds with two entries, but
`indexPtr + 1 * indexStride` is 4294967320, `ReadPACEntry` fails at that
offset, and entry 1 is not what it hands back there (entry 1 was read at
offset 24). -/
theorem ReadPAC_entries_counterexample :
    (ReadPAC ⟨exWrap, 0⟩).2.1 = none ∧
    (ReadPAC ⟨exWrap, 0⟩).1.Header.Count = 2 ∧
    (ReadPAC ⟨exWrap, 0⟩).1.Header.IndexPtr + 1 * (ReadPAC ⟨exWrap, 0⟩).1.Header.IndexStride =
      4294967320 ∧
    (ReadPACEntry ⟨exWrap, 4294967320⟩).2.1 = some (Err.Wrap Err.EOF "Fields") ∧
    (ReadPAC ⟨exWrap, 0⟩).1.Entries[1]? ≠ some (ReadPACEntry ⟨exWrap, 4294967320⟩).1 ∧
    (ReadPAC ⟨exWrap, 0⟩).1.Entries[1]? = some (ReadPACEntry ⟨exWrap, 24⟩).1 := by
  decide

/-- C1 (amended): when `ReadPAC` succeeds, the archive has exactly `Count`
entries, and for every `i < Count` entry `i` is the result of `ReadPACEntry`
with the cursor on the index slot for `i`, whose offset is
`(indexPtr + i * indexStride) mod 2^32` (the sum itself whenever it is below
`2^32`); that call succeeded.  So the entries come back in index order,
wherever their filename and payload bytes lie in the content. -/
theorem ReadPAC_entries (r : Stream) (hok : (ReadPAC r).2.1 = none) :
    (ReadPAC r).1.Entries.length = (ReadPAC r).1.Header.Count ∧
    (∀ i, i < (ReadPAC r).1.Header.Count →
      (ReadPACEntry ⟨r.data, ((ReadPAC r).1.Header.IndexPtr +
          i * (ReadPAC r).1.Header.IndexStride) % 2 ^ 32⟩).2.1 = none ∧
      (ReadPAC r).1.Entries[i]? =
        some (ReadPACEntry ⟨r.data, ((ReadPAC r).1.Header.IndexPtr +
          i * (ReadPAC r).1.Header.IndexStride) % 2 ^ 32⟩).1) ∧
    (∀ i, i < (ReadPAC r).1.Header.Count →
      (ReadPAC r).1.Header.IndexPtr + i * (ReadPAC r).1.Header.IndexStride < 2 ^ 32 →
      (ReadPAC r).1.Entries[i]? =
        some (ReadPACEntry ⟨r.data, (ReadPAC r).1.Header.IndexPtr +
          i * (ReadPAC r).1.Header.IndexStride⟩).1) := by
  have hh := ReadPAC_header_ok_of_ok r hok
  obtain ⟨h1, h2, h3⟩ := ReadPAC_spec r hh
  have hall : ∀ i, i < (ReadPAC r).1.Header.Count →
      (ReadPACEntry ⟨r.data, ((ReadPAC r).1.Header.IndexPtr +
          i * (ReadPAC r).1.Header.IndexStride) % 2 ^ 32⟩).2.1 = none ∧
      (ReadPAC r).1.Entries[i]? =
        some (ReadPACEntry ⟨r.data, ((ReadPAC r).1.Header.IndexPtr +
          i * (ReadPAC r).1.Header.IndexStride) % 2 ^ 32⟩).1 := by
    intro i hi
    rcases h3 with ⟨_, hs⟩ | ⟨k, e, _, _, hk, _⟩
    · have := hs i (by rw [← h1]; exact hi)
      simp only [slotEntry, indexSlot_eq, ← h1] at this
      exact this
    · rw [hk] at hok
      exact Option.noConfusion hok
  refine ⟨by rw [h2, h1], hall, ?_⟩
  intro i hi hlt
  have := (hall i hi).2
  rw [Nat.mod_eq_of_lt hlt] at this
  exact this

/-- Witness of C1 (amended) on `exArchive`, whose blocks lie in the reverse of
the index order: entry 0 is `a` with payload `1 2`, entry 1 is `b` with payload
`3 4`. -/
theorem ReadPAC_entries_witness :
    (ReadPAC ⟨exArchive, 0⟩).1.Entries.length = 2 ∧
    (ReadPAC ⟨exArchive, 0⟩).1.Entries[0]? = some ⟨⟨70, 2, 0, 0, 68⟩, [97], [1, 2]⟩ ∧
    (ReadPAC ⟨exArchive, 0⟩).1.Entries[1]? = some ⟨⟨66, 2, 0, 0, 64⟩, [98], [3, 4]⟩ :=
  ⟨(ReadPAC_entries ⟨exArchive, 0⟩ (by decide)).1.trans (by decide),
    ((ReadPAC_entries ⟨exArchive, 0⟩ (by decide)).2.1 0 (by decide)).2.trans (by decide),
    ((ReadPAC_entries ⟨exArchive, 0⟩ (by decide)).2.1 1 (by decide)).2.trans (by decide)⟩

/-- C9, as stated, fails on `exCutBeforeFilename`: the record has
`dataLen = 4`, its payload range `[20, 24)` ends one byte past the end of the
23-byte content, and `ReadPACEntry` fails with the filename error, not with
the payload error: the filename pointer (24) is followed first and finds no
terminator. -/
theorem ReadPAC_truncated_payload_counterexample :
    exCutBeforeFilename.length = 23 ∧
    (ReadPACEntry ⟨exCutBeforeFilename, 0⟩).1.Fields.DataPtr = 20 ∧
    (ReadPACEntry ⟨exCutBeforeFilename, 0⟩).1.Fields.DataLen = 4 ∧
    (ReadPACEntry ⟨exCutBeforeFilename, 0⟩).2.1 = some (Err.Wrap Err.EOF "Ptr.Filename") ∧
    (ReadPACEntry ⟨exCutBeforeFilename, 0⟩).2.1 ≠
      some (Err.Wrap Err.ErrUnexpectedEOF "Ptr.Data") ∧
    (ReadPACEntry ⟨exCutBeforeFilename, 0⟩).2.1 ≠ some (Err.Wrap Err.EOF "Ptr.Data") := by
  decide

/-- C9 (amended): the payload error needs the filename to resolve first.  For
an index record at the cursor whose filenamePtr has a zero byte at or after it,
with `dataLen > 0` and a range `[dataPtr, dataPtr + dataLen)` that extends
past the end of the content, `ReadPACEntry` fails with the read error wrapped
as `Ptr.Data` (`io.EOF` when dataPtr is at or beyond the end,
`io.ErrUnexpectedEOF` otherwise); the buffer it hands back next to the error
has the full length dataLen.  When slot `i` of an archive with a valid header
fails with a payload error, `ReadPAC` fails; when moreover the slots before `i`
decode, its error is that payload error annotated with `i`, and slot `i` of the
entries is left at the zero entry. -/
theorem ReadPAC_truncated_payload :
    (∀ r : Stream, r.pos + 20 ≤ r.data.length →
      (0 : Byte) ∈ r.data.drop (Uint32 r.data (r.pos + 16)) →
      0 < Uint32 r.data (r.pos + 4) →
      r.data.length < Uint32 r.data r.pos + Uint32 r.data (r.pos + 4) →
      (ReadPACEntry r).2.1 =
        some (Err.Wrap (if r.data.length ≤ Uint32 r.data r.pos then Err.EOF
          else Err.ErrUnexpectedEOF) "Ptr.Data") ∧
      (ReadPACEntry r).1.Data.length = Uint32 r.data (r.pos + 4)) ∧
    (∀ (r : Stream) (i : Nat) (e : Err), (ReadPACHeader r).2.1 = none →
      i < (ReadPACHeader r).1.Count →
      (ReadPACEntry ⟨r.data, ((ReadPACHeader r).1.IndexPtr +
          i * (ReadPACHeader r).1.IndexStride) % 2 ^ 32⟩).2.1 = some (Err.Wrap e "Ptr.Data") →
      (ReadPAC r).2.1 ≠ none ∧
      ((∀ j, j < i →
          (ReadPACEntry ⟨r.data, ((ReadPACHeader r).1.IndexPtr +
            j * (ReadPACHeader r).1.IndexStride) % 2 ^ 32⟩).2.1 = none) →
        (ReadPAC r).2.1 = some (Err.Wrapf (Err.Wrap e "Ptr.Data") "Entry %d" i) ∧
        (ReadPAC r).1.Entries[i]? = some default)) := by
  constructor
  · intro r h hz hpos hlong
    have hz' : (0 : Byte) ∈ r.data.drop (fieldsAt r.data r.pos).FilenamePtr := hz
    rw [ReadPACEntry_of_terminated r h hz']
    have hrf := ReadFull_short ⟨r.data, (fieldsAt r.data r.pos).DataPtr⟩
      (fieldsAt r.data r.pos).DataLen hpos hlong
    refine ⟨?_, ReadFull_length _ _⟩
    simp only
    rw [hrf]
    rfl
  · intro r i e hh hi hfail
    obtain ⟨_, _, h3⟩ := ReadPAC_spec r hh
    rw [← indexSlot_eq] at hfail
    have hfail' : (slotEntry r.data (ReadPACHeader r).1 i).2.1 = some (Err.Wrap e "Ptr.Data") :=
      hfail
    rcases h3 with ⟨_, hs⟩ | ⟨k, e', hk1, hk2, hk3, hk4, hk5⟩
    · rw [(hs i hi).1] at hfail'
      exact Option.noConfusion hfail'
    · refine ⟨by rw [hk3]; exact Option.noConfusion, ?_⟩
      intro hprior
      have hki : k = i := by
        rcases Nat.lt_trichotomy k i with hlt | heq | hgt
        · have := hprior k hlt
          rw [← indexSlot_eq] at this
          have hk2' : (ReadPACEntry ⟨r.data, indexSlot (ReadPACHeader r).1 k⟩).2.1 = some e' :=
            hk2
          rw [this] at hk2'
          exact Option.noConfusion hk2'
        · exact heq
        · rw [(hk4 i hgt).1] at hfail'
          exact Option.noConfusion hfail'
      subst hki
      rw [hfail'] at hk2
      have he : e' = Err.Wrap e "Ptr.Data" := (Option.some.inj hk2).symm
      subst he
      exact ⟨hk3, hk5 k (le_refl _) hk1⟩

/-- Witness of C9 (amended): `exCutPayload` for a single record, `exCutArchive`
for a whole archive; both end one byte short of the declared payload. -/
theorem ReadPAC_truncated_payload_witness :
    (ReadPACEntry ⟨exCutPayload, 0⟩).2.1 = some (Err.Wrap Err.ErrUnexpectedEOF "Ptr.Data") ∧
    (ReadPAC ⟨exCutArchive, 0⟩).2.1 =
      some (Err.Wrapf (Err.Wrap Err.ErrUnexpectedEOF "Ptr.Data") "Entry %d" 0) ∧
    (ReadPAC ⟨exCutArchive, 0⟩).1.Entries[0]? = some default :=
  ⟨(ReadPAC_truncated_payload.1 ⟨exCutPayload, 0⟩ (by decide) (by decide) (by decide)
      (by decide)).1.trans (by decide),
    (ReadPAC_truncated_payload.2 ⟨exCutArchive, 0⟩ 0 Err.ErrUnexpectedEOF (by decide) (by decide)
      (by decide)).2 (by decide)⟩

/-- C10, as stated, fails.  For the header of the claim's own example
(`indexPtr = 0xFFFFFFF0`, `indexStride = 32`) the seek target of slot 1 is
`0x10`, not `0x100000010`.  On `exWrapStride` the sum `indexPtr + 1 *
indexStride` is 4294967328, the seek for slot 1 puts the cursor at 32, and
entry 1 of the decoded archive is the record read at offset 32. -/
theorem ReadPAC_slot_offset_counterexample :
    exHighIndex.IndexPtr + 1 * exHighIndex.IndexStride = 4294967312 ∧
    Seek ⟨[], 0⟩ (Int.ofNat (indexSlot exHighIndex 1)) = (none, ⟨[], 16⟩) ∧
    (ReadPAC ⟨exWrapStride, 0⟩).2.1 = none ∧
    (ReadPAC ⟨exWrapStride, 0⟩).1.Header.IndexPtr +
      1 * (ReadPAC ⟨exWrapStride, 0⟩).1.Header.IndexStride = 4294967328 ∧
    Seek ⟨exWrapStride, 24⟩ (Int.ofNat (indexSlot (ReadPAC ⟨exWrapStride, 0⟩).1.Header 1)) =
      (none, ⟨exWrapStride, 32⟩) ∧
    (ReadPAC ⟨exWrapStride, 0⟩).1.Entries[1]? = some (ReadPACEntry ⟨exWrapStride, 32⟩).1 := by
  decide

/-- C10 (amended): the slot offset is computed on `uint32` operands and wraps
at `2^32`.  In iteration `i < Count` the loop of `ReadPAC` seeks to
`(indexPtr + i * indexStride) mod 2^32`, the seek succeeds, and the entry is
read there; that offset is the mathematical `indexPtr + i * indexStride`
exactly when the latter is below `2^32`. -/
theorem ReadPAC_slot_offset (hdr : PACHeader) (fuel i : Nat) (r : Stream)
    (es : List PACEntry) (hi : i < hdr.Count) :
    Seek r (Int.ofNat (indexSlot hdr i)) =
      (none, ⟨r.data, (hdr.IndexPtr + i * hdr.IndexStride) % 2 ^ 32⟩) ∧
    ReadPAC.loop hdr (fuel + 1) i r es =
      (match ReadPACEntry ⟨r.data, (hdr.IndexPtr + i * hdr.IndexStride) % 2 ^ 32⟩ with
      | (_, some err, r2) => (es, some (Err.Wrapf err "Entry %d" i), r2)
      | (entry, none, r2) => ReadPAC.loop hdr fuel ((i + 1) % 2 ^ 32) r2 (es.set i entry)) ∧
    ((hdr.IndexPtr + i * hdr.IndexStride) % 2 ^ 32 = hdr.IndexPtr + i * hdr.IndexStride ↔
      hdr.IndexPtr + i * hdr.IndexStride < 2 ^ 32) := by
  refine ⟨?_, ?_, ?_⟩
  · rw [Seek_ofNat, indexSlot_eq]
  · rw [loop_step hdr fuel i r es hi]
    simp only [slotEntry, indexSlot_eq]
  · constructor
    · intro h
      rw [← h]
      exact Nat.mod_lt _ (by decide)
    · intro h
      exact Nat.mod_eq_of_lt h

/-- Witness of C10 (amended) on the header of `exWrapStride`: the seek for slot
1 goes to offset 32. -/
theorem ReadPAC_slot_offset_witness :
    Seek ⟨exWrapStride, 24⟩ (Int.ofNat (indexSlot (headerAt exWrapStride 0) 1)) =
      (none, ⟨exWrapStride, 32⟩) :=
  (ReadPAC_slot_offset (headerAt exWrapStride 0) 0 1 ⟨exWrapStride, 24⟩ [] (by decide)).1.trans
    (by decide)

/-! ## Claims about failures of the archive reader -/

/-- C11, as stated, fails on `exPartial`: `ReadPAC` returns an error for entry
1, and the archive handed back next to it is not the zero archive: it carries
the decoded header (`indexPtr = 24`, `count = 2`) and the decoded entry 0. -/
theorem ReadPAC_partial_on_error_counterexample :
    (ReadPAC ⟨exPartial, 0⟩).2.1 =
      some (Err.Wrapf (Err.Wrap Err.ErrUnexpectedEOF "Ptr.Data") "Entry %d" 1) ∧
    (ReadPAC ⟨exPartial, 0⟩).1 ≠ default ∧
    (ReadPAC ⟨exPartial, 0⟩).1.Header.IndexPtr = 24 ∧
    (ReadPAC ⟨exPartial, 0⟩).1.Header.Count = 2 ∧
    (ReadPAC ⟨exPartial, 0⟩).1.Entries[0]? = some ⟨⟨66, 2, 0, 0, 64⟩, [97], [1, 2]⟩ := by
  decide

/-- C11 (amended): when `ReadPAC` returns an error, the archive handed back
next to it holds what was decoded before the failure.  After a header failure
it is the header as `ReadPACHeader` returned it with no entries (the zero
archive when the header read was short).  After an entry failure it is the
decoded header with `Count` entry slots: there is a first failing slot `k`, the
error is the one of slot `k` annotated with `k`, the slots before `k` hold the
decoded entries and the slots from `k` on hold the zero entry. -/
theorem ReadPAC_partial_on_error (r : Stream) (herr : (ReadPAC r).2.1 ≠ none) :
    ((ReadPACHeader r).2.1 ≠ none ∧
      (ReadPAC r).1 = { Header := (ReadPACHeader r).1, Entries := [] } ∧
      (r.data.length < r.pos + 24 → (ReadPAC r).1 = default)) ∨
    ((ReadPACHeader r).2.1 = none ∧
      (ReadPAC r).1.Header = (ReadPACHeader r).1 ∧
      (ReadPAC r).1.Entries.length = (ReadPACHeader r).1.Count ∧
      ∃ k e, k < (ReadPACHeader r).1.Count ∧
        (ReadPACEntry ⟨r.data, ((ReadPACHeader r).1.IndexPtr +
          k * (ReadPACHeader r).1.IndexStride) % 2 ^ 32⟩).2.1 = some e ∧
        (ReadPAC r).2.1 = some (Err.Wrapf e "Entry %d" k) ∧
        (∀ j, j < k →
          (ReadPAC r).1.Entries[j]? =
            some (ReadPACEntry ⟨r.data, ((ReadPACHeader r).1.IndexPtr +
              j * (ReadPACHeader r).1.IndexStride) % 2 ^ 32⟩).1) ∧
        (∀ j, k ≤ j → j < (ReadPACHeader r).1.Count →
          (ReadPAC r).1.Entries[j]? = some default)) := by
  cases hh : (ReadPACHeader r).2.1 with
  | some e =>
    left
    refine ⟨Option.noConfusion, ?_, ?_⟩
    · rw [ReadPAC_of_header_err r e hh]
    · intro hshort
      rw [ReadPAC_of_header_err r e hh, ReadPACHeader_short r hshort]
      rfl
  | none =>
    right
    obtain ⟨h1, h2, h3⟩ := ReadPAC_spec r hh
    refine ⟨rfl, h1, h2, ?_⟩
    rcases h3 with ⟨hn, _⟩ | ⟨k, e, hk1, hk2, hk3, hk4, hk5⟩
    · exact absurd hn herr
    · refine ⟨k, e, hk1, ?_, hk3, ?_, hk5⟩
      · rw [← indexSlot_eq]
        exact hk2
      · intro j hj
        rw [← indexSlot_eq]
        exact (hk4 j hj).2

/-- Witness of C11 (amended) on `exPartial`: the call fails, the header went
through, and the archive handed back has the two entry slots. -/
theorem ReadPAC_partial_on_error_witness :
    (ReadPACHeader ⟨exPartial, 0⟩).2.1 = none ∧
    (ReadPAC ⟨exPartial, 0⟩).1.Entries.length = 2 := by
  rcases ReadPAC_partial_on_error ⟨exPartial, 0⟩ (by decide) with h | h
  · exact absurd (by decide) h.1
  · exact ⟨h.1, h.2.2.1.trans (by decide)⟩

/-- The three ways `ReadPACEntry` can fail, by step: the fixed fields (fewer
than 20 bytes at the cursor), the filename (no zero byte at or after
filenamePtr), the payload (dataLen positive and the range past the end). -/
theorem ReadPACEntry_error_cases (r : Stream) (e : Err) (h : (ReadPACEntry r).2.1 = some e) :
    (r.data.length < r.pos + 20 ∧
      e = Err.Wrap (if r.data.length ≤ r.pos then Err.EOF else Err.ErrUnexpectedEOF) "Fields") ∨
    (r.pos + 20 ≤ r.data.length ∧
      (0 : Byte) ∉ r.data.drop (fieldsAt r.data r.pos).FilenamePtr ∧
      e = Err.Wrap Err.EOF "Ptr.Filename") ∨
    (r.pos + 20 ≤ r.data.length ∧
      (0 : Byte) ∈ r.data.drop (fieldsAt r.data r.pos).FilenamePtr ∧
      0 < (fieldsAt r.data r.pos).DataLen ∧
      r.data.length < (fieldsAt r.data r.pos).DataPtr + (fieldsAt r.data r.pos).DataLen ∧
      e = Err.Wrap (if r.data.length ≤ (fieldsAt r.data r.pos).DataPtr then Err.EOF
        else Err.ErrUnexpectedEOF) "Ptr.Data") := by
  by_cases h20 : r.pos + 20 ≤ r.data.length
  · by_cases hz : (0 : Byte) ∈ r.data.drop (fieldsAt r.data r.pos).FilenamePtr
    · right; right
      have hnot : ¬ ((fieldsAt r.data r.pos).DataLen = 0 ∨
          (fieldsAt r.data r.pos).DataPtr + (fieldsAt r.data r.pos).DataLen ≤ r.data.length) := by
        intro hc
        have := (ReadPACEntry_none_iff r).mpr ⟨h20, hz, hc⟩
        rw [this] at h
        exact Option.noConfusion h
      have hpos : 0 < (fieldsAt r.data r.pos).DataLen := by omega
      have hlong : r.data.length <
          (fieldsAt r.data r.pos).DataPtr + (fieldsAt r.data r.pos).DataLen := by omega
      refine ⟨h20, hz, hpos, hlong, ?_⟩
      rw [ReadPACEntry_of_terminated r h20 hz,
        ReadFull_short ⟨r.data, (fieldsAt r.data r.pos).DataPtr⟩ _ hpos hlong] at h
      exact (Option.some.inj h).symm
    · right; left
      rw [ReadPACEntry_of_not_terminated r h20 hz] at h
      exact ⟨h20, hz, (Option.some.inj h).symm⟩
  · left
    rw [ReadPACEntry_of_short r (by omega)] at h
    exact ⟨by omega, (Option.some.inj h).symm⟩

/-- The error and the entries of `ReadPAC` are decided by the results of the
slots that are read: two streams whose headers decode, with the same count,
and whose slots agree as long as all earlier slots decode, yield the same
error and the same entries. -/
theorem ReadPAC_congr (r r' : Stream) (hh : (ReadPACHeader r).2.1 = none)
    (hh' : (ReadPACHeader r').2.1 = none)
    (hc : (ReadPACHeader r).1.Count = (ReadPACHeader r').1.Count)
    (hs : ∀ j, j < (ReadPACHeader r).1.Count →
      (∀ i, i < j → (slotEntry r.data (ReadPACHeader r).1 i).2.1 = none) →
      (slotEntry r.data (ReadPACHeader r).1 j).2.1 =
        (slotEntry r'.data (ReadPACHeader r').1 j).2.1 ∧
      ((slotEntry r.data (ReadPACHeader r).1 j).2.1 = none →
        (slotEntry r.data (ReadPACHeader r).1 j).1 =
          (slotEntry r'.data (ReadPACHeader r').1 j).1)) :
    (ReadPAC r).2.1 = (ReadPAC r').2.1 ∧ (ReadPAC r).1.Entries = (ReadPAC r').1.Entries := by
  obtain ⟨_, hl, h3⟩ := ReadPAC_spec r hh
  obtain ⟨_, hl', h3'⟩ := ReadPAC_spec r' hh'
  have hnone : ∀ j, (ReadPACHeader r).1.Count ≤ j →
      (ReadPAC r).1.Entries[j]? = (ReadPAC r').1.Entries[j]? := by
    intro j hj
    rw [List.getElem?_eq_none (by omega), List.getElem?_eq_none (by omega)]
  rcases h3 with ⟨hn, hall⟩ | ⟨k, e, hk1, hk2, hk3, hk4, hk5⟩
  · have hboth : ∀ j, j < (ReadPACHeader r).1.Count →
        (slotEntry r'.data (ReadPACHeader r').1 j).2.1 = none ∧
        (slotEntry r.data (ReadPACHeader r).1 j).1 =
          (slotEntry r'.data (ReadPACHeader r').1 j).1 := by
      intro j hj
      obtain ⟨a, b⟩ := hs j hj (fun i hi => (hall i (by omega)).1)
      exact ⟨a ▸ (hall j hj).1, b (hall j hj).1⟩
    rcases h3' with ⟨hn', hall'⟩ | ⟨k', e', hk1', hk2', _⟩
    · refine ⟨hn.trans hn'.symm, List.ext_getElem? ?_⟩
      intro j
      by_cases hj : j < (ReadPACHeader r).1.Count
      · rw [(hall j hj).2, (hall' j (by omega)).2, (hboth j hj).2]
      · exact hnone j (by omega)
    · rw [(hboth k' (by omega)).1] at hk2'
      exact Option.noConfusion hk2'
  · have hprev : ∀ j, j ≤ k → ∀ i, i < j →
        (slotEntry r.data (ReadPACHeader r).1 i).2.1 = none :=
      fun j hj i hi => (hk4 i (by omega)).1
    have hk' : (slotEntry r'.data (ReadPACHeader r').1 k).2.1 = some e := by
      rw [← (hs k hk1 (hprev k (le_refl _))).1]
      exact hk2
    have hbefore : ∀ j, j < k →
        (slotEntry r'.data (ReadPACHeader r').1 j).2.1 = none ∧
        (slotEntry r.data (ReadPACHeader r).1 j).1 =
          (slotEntry r'.data (ReadPACHeader r').1 j).1 := by
      intro j hj
      obtain ⟨a, b⟩ := hs j (by omega) (hprev j (by omega))
      exact ⟨a ▸ (hk4 j hj).1, b (hk4 j hj).1⟩
    rcases h3' with ⟨_, hall'⟩ | ⟨k', e', hk1', hk2', hk3', hk4', hk5'⟩
    · rw [(hall' k (by omega)).1] at hk'
      exact Option.noConfusion hk'
    · have hkk : k' = k := by
        rcases Nat.lt_trichotomy k' k with hlt | heq | hgt
        · rw [(hbefore k' hlt).1] at hk2'
          exact Option.noConfusion hk2'
        · exact heq
        · rw [(hk4' k hgt).1] at hk'
          exact Option.noConfusion hk'
      subst hkk
      rw [hk'] at hk2'
      have hee : e' = e := (Option.some.inj hk2').symm
      subst hee
      refine ⟨hk3.trans hk3'.symm, List.ext_getElem? ?_⟩
      intro j
      by_cases hj : j < (ReadPACHeader r).1.Count
      · by_cases hjk : j < k'
        · rw [(hk4 j hjk).2, (hk4' j hjk).2, (hbefore j hjk).2]
        · rw [hk5 j (by omega) hj, hk5' j (by omega) (by omega)]
      · exact hnone j (by omega)

theorem PAC_eq_of (a b : PAC) (h1 : a.Header = b.Header) (h2 : a.Entries = b.Entries) :
    a = b := by
  cases a
  cases b
  simp only at h1 h2
  rw [h1, h2]

/-! ## Claims about pointers -/

theorem ReadPACEntry_value_of_ok (r : Stream) (h : (ReadPACEntry r).2.1 = none) :
    (ReadPACEntry r).1 =
      ⟨fieldsAt r.data r.pos, filenameAt r.data (fieldsAt r.data r.pos).FilenamePtr,
        (r.data.drop (fieldsAt r.data r.pos).DataPtr).take (fieldsAt r.data r.pos).DataLen⟩ := by
  obtain ⟨h20, hz, hd⟩ := (ReadPACEntry_none_iff r).mp h
  have hrf : (ReadFull ⟨r.data, (fieldsAt r.data r.pos).DataPtr⟩
      (fieldsAt r.data r.pos).DataLen).2.1 = none :=
    (ReadFull_none_iff _ _).mpr hd
  rw [ReadPACEntry_of_terminated r h20 hz]
  simp only
  rw [ReadFull_value_of_none _ _ hrf]

/-- Every entry of a successfully decoded archive is resolved from its own
pointers: the filename is the run up to the first zero byte at filenamePtr, the
data is the range `[dataPtr, dataPtr + dataLen)`. -/
theorem ReadPAC_entry_resolved (r : Stream) (hok : (ReadPAC r).2.1 = none) (i : Nat)
    (e : PACEntry) (he : (ReadPAC r).1.Entries[i]? = some e) :
    e.Filename = filenameAt r.data e.Fields.FilenamePtr ∧
    e.Data = (r.data.drop e.Fields.DataPtr).take e.Fields.DataLen := by
  have hh := ReadPAC_header_ok_of_ok r hok
  obtain ⟨_, h2, h3⟩ := ReadPAC_spec r hh
  have hi : i < (ReadPACHeader r).1.Count := by
    rw [← h2]
    by_contra hge
    rw [List.getElem?_eq_none (by omega)] at he
    exact Option.noConfusion he
  rcases h3 with ⟨_, hall⟩ | ⟨k, e', _, _, hk, _⟩
  · obtain ⟨h5, h6⟩ := hall i hi
    rw [h6] at he
    have hv := ReadPACEntry_value_of_ok ⟨r.data, indexSlot (ReadPACHeader r).1 i⟩ h5
    have he' : e = (ReadPACEntry ⟨r.data, indexSlot (ReadPACHeader r).1 i⟩).1 :=
      (Option.some.inj he).symm
    rw [hv] at he'
    subst he'
    exact ⟨rfl, rfl⟩
  · rw [hk] at hok
    exact Option.noConfusion hok

/-- C13: pointer independence.  In a successfully decoded archive two entries
with equal filenamePtr have equal filenames, and two entries with equal
dataPtr and equal dataLen have equal data.  Whether `ReadPAC` succeeds is
decided slot by slot, each slot by its own record (20 bytes at the slot, a zero
byte at or after its filenamePtr, its payload range inside the content or
dataLen zero): no condition relates the pointers of two entries, so aliased or
overlapping pointers do not make the call fail. -/
theorem ReadPAC_pointer_independence (r : Stream) :
    ((ReadPAC r).2.1 = none →
      ∀ (i j : Nat) (ei ej : PACEntry),
        (ReadPAC r).1.Entries[i]? = some ei → (ReadPAC r).1.Entries[j]? = some ej →
        (ei.Fields.FilenamePtr = ej.Fields.FilenamePtr → ei.Filename = ej.Filename) ∧
        (ei.Fields.DataPtr = ej.Fields.DataPtr → ei.Fields.DataLen = ej.Fields.DataLen →
          ei.Data = ej.Data)) ∧
    ((ReadPAC r).2.1 = none ↔
      (ReadPACHeader r).2.1 = none ∧
      ∀ j, j < (ReadPACHeader r).1.Count →
        indexSlot (ReadPACHeader r).1 j + 20 ≤ r.data.length ∧
        (0 : Byte) ∈ r.data.drop
          (fieldsAt r.data (indexSlot (ReadPACHeader r).1 j)).FilenamePtr ∧
        ((fieldsAt r.data (indexSlot (ReadPACHeader r).1 j)).DataLen = 0 ∨
          (fieldsAt r.data (indexSlot (ReadPACHeader r).1 j)).DataPtr +
            (fieldsAt r.data (indexSlot (ReadPACHeader r).1 j)).DataLen ≤ r.data.length)) := by
  constructor
  · intro hok i j ei ej hi hj
    obtain ⟨a1, a2⟩ := ReadPAC_entry_resolved r hok i ei hi
    obtain ⟨b1, b2⟩ := ReadPAC_entry_resolved r hok j ej hj
    constructor
    · intro hp
      rw [a1, b1, hp]
    · intro hp hl
      rw [a2, b2, hp, hl]
  · constructor
    · intro hok
      have hh := ReadPAC_header_ok_of_ok r hok
      refine ⟨hh, ?_⟩
      obtain ⟨_, _, h3⟩ := ReadPAC_spec r hh
      rcases h3 with ⟨_, hall⟩ | ⟨k, e', _, _, hk, _⟩
      · intro j hj
        exact (ReadPACEntry_none_iff ⟨r.data, indexSlot (ReadPACHeader r).1 j⟩).mp (hall j hj).1
      · rw [hk] at hok
        exact Option.noConfusion hok
    · rintro ⟨hh, hall⟩
      obtain ⟨_, _, h3⟩ := ReadPAC_spec r hh
      rcases h3 with ⟨hn, _⟩ | ⟨k, e', hk1, hk2, _⟩
      · exact hn
      · have := (ReadPACEntry_none_iff ⟨r.data, indexSlot (ReadPACHeader r).1 k⟩).mpr (hall k hk1)
        have hk2' : (ReadPACEntry ⟨r.data, indexSlot (ReadPACHeader r).1 k⟩).2.1 = some e' := hk2
        rw [this] at hk2'
        exact Option.noConfusion hk2'

/-- Witness of C13 on `exAliased`: the archive decodes, and its two entries,
which share the filename pointer and whose payloads overlap it, have the same
filename. -/
theorem ReadPAC_pointer_independence_witness :
    (ReadPAC ⟨exAliased, 0⟩).2.1 = none ∧
    (ReadPAC ⟨exAliased, 0⟩).1.Entries[0]? = some ⟨⟨64, 2, 0, 0, 64⟩, [97], [97, 0]⟩ ∧
    (ReadPAC ⟨exAliased, 0⟩).1.Entries[1]? = some ⟨⟨65, 1, 0, 7, 64⟩, [97], [0]⟩ ∧
    (⟨⟨64, 2, 0, 0, 64⟩, [97], [97, 0]⟩ : PACEntry).Filename =
      (⟨⟨65, 1, 0, 7, 64⟩, [97], [0]⟩ : PACEntry).Filename :=
  ⟨by decide, by decide, by decide,
    ((ReadPAC_pointer_independence ⟨exAliased, 0⟩).1 (by decide) 0 1
      ⟨⟨64, 2, 0, 0, 64⟩, [97], [97, 0]⟩ ⟨⟨65, 1, 0, 7, 64⟩, [97], [0]⟩
      (by decide) (by decide)).1 rfl⟩

/-! ## Claims about fileLen -/

theorem getElem?_eq_of_outside (d d' : List Byte) (hpre : d.take 20 = d'.take 20)
    (hpost : d.drop 24 = d'.drop 24) (x : Nat) (hx : x < 20 ∨ 24 ≤ x) : d[x]? = d'[x]? := by
  rcases hx with hx | hx
  · have h1 : (d.take 20)[x]? = d[x]? := by
      rw [List.getElem?_take, if_pos hx]
    have h2 : (d'.take 20)[x]? = d'[x]? := by
      rw [List.getElem?_take, if_pos hx]
    rw [← h1, ← h2, hpre]
  · have h1 : (d.drop 24)[x - 24]? = d[x]? := by
      rw [List.getElem?_drop]
      congr 1
      omega
    have h2 : (d'.drop 24)[x - 24]? = d'[x]? := by
      rw [List.getElem?_drop]
      congr 1
      omega
    rw [← h1, ← h2, hpost]

theorem range_eq_of_outside (d d' : List Byte) (hpre : d.take 20 = d'.take 20)
    (hpost : d.drop 24 = d'.drop 24) (lo n : Nat) (h : ¬ touchesFileLen lo (lo + n)) :
    (d.drop lo).take n = (d'.drop lo).take n := by
  apply List.ext_getElem?
  intro i
  by_cases hi : i < n
  · rw [List.getElem?_take, List.getElem?_take, if_pos hi, if_pos hi, List.getElem?_drop,
      List.getElem?_drop]
    apply getElem?_eq_of_outside d d' hpre hpost
    unfold touchesFileLen at h
    omega
  · rw [List.getElem?_eq_none (by rw [List.length_take]; omega),
      List.getElem?_eq_none (by rw [List.length_take]; omega)]

theorem drop_eq_of_outside (d d' : List Byte) (hlen : d.length = d'.length)
    (hpre : d.take 20 = d'.take 20) (hpost : d.drop 24 = d'.drop 24) (lo : Nat)
    (h : ¬ touchesFileLen lo d.length) : d.drop lo = d'.drop lo := by
  have h1 : (d.drop lo).take (d.length - lo) = d.drop lo :=
    List.take_of_length_le (by simp)
  have h2 : (d'.drop lo).take (d.length - lo) = d'.drop lo :=
    List.take_of_length_le (by simp; omega)
  rw [← h1, ← h2]
  apply range_eq_of_outside d d' hpre hpost
  unfold touchesFileLen at h ⊢
  omega

theorem getD_eq_of_outside (d d' : List Byte) (hpre : d.take 20 = d'.take 20)
    (hpost : d.drop 24 = d'.drop 24) (x : Nat) (hx : x < 20 ∨ 24 ≤ x) :
    d.getD x 0 = d'.getD x 0 := by
  rw [List.getD_eq_getElem?_getD, List.getD_eq_getElem?_getD,
    getElem?_eq_of_outside d d' hpre hpost x hx]

theorem Uint32_eq_of_outside (d d' : List Byte) (hpre : d.take 20 = d'.take 20)
    (hpost : d.drop 24 = d'.drop 24) (x : Nat) (hx : x + 4 ≤ 20 ∨ 24 ≤ x) :
    Uint32 d x = Uint32 d' x := by
  unfold Uint32
  rw [getD_eq_of_outside d d' hpre hpost x (by omega),
    getD_eq_of_outside d d' hpre hpost (x + 1) (by omega),
    getD_eq_of_outside d d' hpre hpost (x + 2) (by omega),
    getD_eq_of_outside d d' hpre hpost (x + 3) (by omega)]

theorem fieldsAt_eq_of_outside (d d' : List Byte) (hpre : d.take 20 = d'.take 20)
    (hpost : d.drop 24 = d'.drop 24) (p : Nat) (h : ¬ touchesFileLen p (p + 20)) :
    fieldsAt d p = fieldsAt d' p := by
  unfold touchesFileLen at h
  unfold fieldsAt
  rw [Uint32_eq_of_outside d d' hpre hpost p (by omega),
    Uint32_eq_of_outside d d' hpre hpost (p + 4) (by omega),
    Uint32_eq_of_outside d d' hpre hpost (p + 8) (by omega),
    Uint32_eq_of_outside d d' hpre hpost (p + 12) (by omega),
    Uint32_eq_of_outside d d' hpre hpost (p + 16) (by omega)]

/-- A terminated run read off one list is read off every list with the same
front up to and including the terminator. -/
theorem takeWhile_eq_of_take_eq (a : Byte) (l l' : List Byte) (h : a ∈ l)
    (ht : l.take ((l.takeWhile (fun b => decide (b ≠ a))).length + 1) =
      l'.take ((l.takeWhile (fun b => decide (b ≠ a))).length + 1)) :
    a ∈ l' ∧ l'.takeWhile (fun b => decide (b ≠ a)) = l.takeWhile (fun b => decide (b ≠ a)) := by
  obtain ⟨h1, h2, h3⟩ := takeWhile_ne_spec a l h
  generalize htw : l.takeWhile (fun b => decide (b ≠ a)) = tw at h1 h2 h3 ht
  have hfront : l.take (tw.length + 1) = tw ++ [a] := by
    rw [List.take_succ, ← h1, h2]
    rfl
  have hl' : l' = (tw ++ [a]) ++ l'.drop (tw.length + 1) := by
    rw [← hfront, ht, List.take_append_drop]
  constructor
  · rw [hl']
    simp
  · rw [hl', List.append_assoc]
    rw [List.takeWhile_append_of_pos]
    · simp
    · intro b hb
      have : b ≠ a := fun hba => h3 (hba ▸ hb)
      simpa using this

theorem ReadFull_err_eq_of_length (d d' : List Byte) (hlen : d.length = d'.length)
    (p n : Nat) : (ReadFull ⟨d, p⟩ n).2.1 = (ReadFull ⟨d', p⟩ n).2.1 := by
  by_cases hn : n = 0
  · subst hn
    rw [ReadFull_zero, ReadFull_zero]
  · by_cases h : p + n ≤ d.length
    · rw [ReadFull_of_le ⟨d, p⟩ n h, ReadFull_of_le ⟨d', p⟩ n (by simpa [← hlen] using h)]
    · have h' : d'.length < p + n := by omega
      rw [ReadFull_short ⟨d, p⟩ n (by omega) (by simpa using Nat.lt_of_not_le h),
        ReadFull_short ⟨d', p⟩ n (by omega) (by simpa using h')]
      simp only [hlen]

/-- Two contents of the same length that agree outside the offsets 20..23 give
the same result at a cursor `p` from which no read takes in one of these
offsets: the same error, and on success the same entry. -/
theorem ReadPACEntry_eq_of_outside (d d' : List Byte) (hlen : d.length = d'.length)
    (hpre : d.take 20 = d'.take 20) (hpost : d.drop 24 = d'.drop 24) (p : Nat)
    (hr : ∀ rg ∈ entryReads d p, ¬ touchesFileLen rg.1 rg.2) :
    (ReadPACEntry ⟨d, p⟩).2.1 = (ReadPACEntry ⟨d', p⟩).2.1 ∧
    ((ReadPACEntry ⟨d, p⟩).2.1 = none → (ReadPACEntry ⟨d, p⟩).1 = (ReadPACEntry ⟨d', p⟩).1) := by
  by_cases h20 : p + 20 ≤ d.length
  · have h20' : p + 20 ≤ d'.length := by omega
    have hnlt : ¬ d.length < p + 20 := by omega
    by_cases hz : (0 : Byte) ∈ d.drop (fieldsAt d p).FilenamePtr
    · unfold entryReads at hr
      rw [if_neg hnlt, if_pos hz] at hr
      have hr1 := hr _ (List.mem_cons_self _ _)
      have hr2 := hr _ (List.mem_cons_of_mem _ (List.mem_cons_self _ _))
      have hr3 := hr _ (List.mem_cons_of_mem _ (List.mem_cons_of_mem _ (List.mem_cons_self _ _)))
      simp only at hr1 hr2 hr3
      have hf := fieldsAt_eq_of_outside d d' hpre hpost p hr1
      have hrange := range_eq_of_outside d d' hpre hpost (fieldsAt d p).FilenamePtr
        ((filenameAt d (fieldsAt d p).FilenamePtr).length + 1) (by rw [← Nat.add_assoc]; exact hr2)
      obtain ⟨hz', hname⟩ := takeWhile_eq_of_take_eq 0 _ _ hz hrange
      have hname' : filenameAt d' (fieldsAt d p).FilenamePtr =
          filenameAt d (fieldsAt d p).FilenamePtr := hname
      have herr : (ReadPACEntry ⟨d, p⟩).2.1 = (ReadPACEntry ⟨d', p⟩).2.1 := by
        rw [ReadPACEntry_of_terminated ⟨d, p⟩ h20 hz,
          ReadPACEntry_of_terminated ⟨d', p⟩ h20' (by rw [← hf]; exact hz')]
        simp only [← hf]
        rw [ReadFull_err_eq_of_length d d' hlen]
      refine ⟨herr, ?_⟩
      intro hok
      have hok' : (ReadPACEntry ⟨d', p⟩).2.1 = none := by rw [← herr]; exact hok
      rw [ReadPACEntry_value_of_ok ⟨d, p⟩ hok, ReadPACEntry_value_of_ok ⟨d', p⟩ hok']
      simp only [← hf, hname']
      obtain ⟨_, _, hd⟩ := (ReadPACEntry_none_iff ⟨d, p⟩).mp hok
      simp only at hd
      have hdata := range_eq_of_outside d d' hpre hpost (fieldsAt d p).DataPtr
        (fieldsAt d p).DataLen (by
          unfold touchesFileLen at hr3 ⊢
          rcases hd with h0 | hle
          · omega
          · rw [Nat.min_eq_left hle] at hr3
            exact hr3)
      rw [hdata]
    · unfold entryReads at hr
      rw [if_neg hnlt, if_neg hz] at hr
      have hr1 := hr _ (List.mem_cons_self _ _)
      have hr2 := hr _ (List.mem_cons_of_mem _ (List.mem_cons_self _ _))
      simp only at hr1 hr2
      have hf := fieldsAt_eq_of_outside d d' hpre hpost p hr1
      have hdrop := drop_eq_of_outside d d' hlen hpre hpost (fieldsAt d p).FilenamePtr hr2
      have hz' : (0 : Byte) ∉ d'.drop (fieldsAt d' p).FilenamePtr := by
        rw [← hf, ← hdrop]; exact hz
      rw [ReadPACEntry_of_not_terminated ⟨d, p⟩ h20 hz,
        ReadPACEntry_of_not_terminated ⟨d', p⟩ h20' hz']
      exact ⟨rfl, fun h => Option.noConfusion h⟩
  · rw [ReadPACEntry_of_short ⟨d, p⟩ (by simpa using Nat.lt_of_not_le h20),
      ReadPACEntry_of_short ⟨d', p⟩ (by simp only; omega)]
    simp only [hlen]
    exact ⟨trivial, fun h => Option.noConfusion h⟩

theorem ReadPACHeader_eq_of_outside (d d' : List Byte) (hlen : d.length = d'.length)
    (hpre : d.take 20 = d'.take 20) (hpost : d.drop 24 = d'.drop 24) :
    (ReadPACHeader ⟨d, 0⟩).2.1 = (ReadPACHeader ⟨d', 0⟩).2.1 ∧
    (ReadPACHeader ⟨d, 0⟩).1.Magic = (ReadPACHeader ⟨d', 0⟩).1.Magic ∧
    (ReadPACHeader ⟨d, 0⟩).1.Version = (ReadPACHeader ⟨d', 0⟩).1.Version ∧
    (ReadPACHeader ⟨d, 0⟩).1.IndexPtr = (ReadPACHeader ⟨d', 0⟩).1.IndexPtr ∧
    (ReadPACHeader ⟨d, 0⟩).1.IndexStride = (ReadPACHeader ⟨d', 0⟩).1.IndexStride ∧
    (ReadPACHeader ⟨d, 0⟩).1.Count = (ReadPACHeader ⟨d', 0⟩).1.Count := by
  by_cases h24 : 24 ≤ d.length
  · have h := ReadPACHeader_of_le ⟨d, 0⟩ (by simpa using h24)
    have h' := ReadPACHeader_of_le ⟨d', 0⟩ (by simp only; omega)
    simp only [Nat.zero_add] at h h'
    rw [h, h']
    have g0 := getD_eq_of_outside d d' hpre hpost 0 (by omega)
    have g1 := getD_eq_of_outside d d' hpre hpost 1 (by omega)
    have g2 := getD_eq_of_outside d d' hpre hpost 2 (by omega)
    have g3 := getD_eq_of_outside d d' hpre hpost 3 (by omega)
    have u4 := Uint32_eq_of_outside d d' hpre hpost 4 (by omega)
    have u8 := Uint32_eq_of_outside d d' hpre hpost 8 (by omega)
    have u12 := Uint32_eq_of_outside d d' hpre hpost 12 (by omega)
    have u16 := Uint32_eq_of_outside d d' hpre hpost 16 (by omega)
    have hm : magicOK d 0 = magicOK d' 0 := by
      unfold magicOK
      simp only [Nat.zero_add]
      rw [g0, g1, g2, g3]
    refine ⟨?_, ?_, u4, u8, u12, u16⟩
    · simp only [hm, u4]
    · simp only [headerAt, Nat.zero_add]
      rw [g0, g1, g2, g3]
  · rw [ReadPACHeader_short ⟨d, 0⟩ (by simp only; omega),
      ReadPACHeader_short ⟨d', 0⟩ (by simp only; omega)]
    simp only [hlen]
    exact ⟨trivial, trivial, trivial, trivial, trivial, trivial⟩

/-- C14: fileLen is informational only.  For two contents of the same length
that are identical except in bytes 20..23, such that on the first one no
record, filename or payload read of a slot that `ReadPAC` gets to (all earlier
slots decode) takes in one of the bytes 20..23, `ReadPAC` returns the same
error (so it fails on both or succeeds on both), the same entries, and headers
that agree in magic, version, indexPtr, indexStride and count. -/
theorem ReadPAC_fileLen_irrelevant (d d' : List Byte) (hlen : d.length = d'.length)
    (hpre : d.take 20 = d'.take 20) (hpost : d.drop 24 = d'.drop 24)
    (hreads : ∀ j, j < (ReadPACHeader ⟨d, 0⟩).1.Count →
      (∀ i, i < j → (ReadPACEntry ⟨d, indexSlot (ReadPACHeader ⟨d, 0⟩).1 i⟩).2.1 = none) →
      ∀ rg ∈ entryReads d (indexSlot (ReadPACHeader ⟨d, 0⟩).1 j), ¬ touchesFileLen rg.1 rg.2) :
    (ReadPAC ⟨d, 0⟩).2.1 = (ReadPAC ⟨d', 0⟩).2.1 ∧
    (ReadPAC ⟨d, 0⟩).1.Entries = (ReadPAC ⟨d', 0⟩).1.Entries ∧
    (ReadPAC ⟨d, 0⟩).1.Header.Magic = (ReadPAC ⟨d', 0⟩).1.Header.Magic ∧
    (ReadPAC ⟨d, 0⟩).1.Header.Version = (ReadPAC ⟨d', 0⟩).1.Header.Version ∧
    (ReadPAC ⟨d, 0⟩).1.Header.IndexPtr = (ReadPAC ⟨d', 0⟩).1.Header.IndexPtr ∧
    (ReadPAC ⟨d, 0⟩).1.Header.IndexStride = (ReadPAC ⟨d', 0⟩).1.Header.IndexStride ∧
    (ReadPAC ⟨d, 0⟩).1.Header.Count = (ReadPAC ⟨d', 0⟩).1.Header.Count := by
  obtain ⟨he, hm, hv, hp, hs, hc⟩ := ReadPACHeader_eq_of_outside d d' hlen hpre hpost
  cases hh : (ReadPACHeader ⟨d, 0⟩).2.1 with
  | some e =>
    have hh' : (ReadPACHeader ⟨d', 0⟩).2.1 = some e := by rw [← he]; exact hh
    rw [ReadPAC_of_header_err _ e hh, ReadPAC_of_header_err _ e hh']
    exact ⟨rfl, rfl, hm, hv, hp, hs, hc⟩
  | none =>
    have hh' : (ReadPACHeader ⟨d', 0⟩).2.1 = none := by rw [← he]; exact hh
    have hslot : ∀ j, indexSlot (ReadPACHeader ⟨d', 0⟩).1 j =
        indexSlot (ReadPACHeader ⟨d, 0⟩).1 j := by
      intro j
      unfold indexSlot
      rw [hp, hs]
    have hcongr := ReadPAC_congr ⟨d, 0⟩ ⟨d', 0⟩ hh hh' hc (by
      intro j hj hprev
      have hsl : ∀ (c : List Byte) (h : PACHeader) (j : Nat),
          slotEntry c h j = ReadPACEntry ⟨c, indexSlot h j⟩ := fun _ _ _ => rfl
      simp only [hsl, hslot] at hprev ⊢
      exact ReadPACEntry_eq_of_outside d d' hlen hpre hpost _ (hreads j hj hprev))
    obtain ⟨h1, _, _⟩ := ReadPAC_spec ⟨d, 0⟩ hh
    obtain ⟨h1', _, _⟩ := ReadPAC_spec ⟨d', 0⟩ hh'
    rw [h1, h1']
    exact ⟨hcongr.1, hcongr.2, hm, hv, hp, hs, hc⟩

/-- Witness of C14 on `exArchive` (fileLen 72) and `exArchiveNoLen` (fileLen
0): the same entries come back, although with fileLen 0 every payload lies
beyond the declared length. -/
theorem ReadPAC_fileLen_irrelevant_witness :
    (ReadPAC ⟨exArchiveNoLen, 0⟩).1.Header.FileLen = 0 ∧
    (ReadPAC ⟨exArchive, 0⟩).2.1 = (ReadPAC ⟨exArchiveNoLen, 0⟩).2.1 ∧
    (ReadPAC ⟨exArchive, 0⟩).1.Entries = (ReadPAC ⟨exArchiveNoLen, 0⟩).1.Entries ∧
    (ReadPAC ⟨exArchiveNoLen, 0⟩).1.Entries[0]? = some ⟨⟨70, 2, 0, 0, 68⟩, [97], [1, 2]⟩ :=
  ⟨by decide,
    (ReadPAC_fileLen_irrelevant exArchive exArchiveNoLen (by decide) (by decide) (by decide)
      (by decide)).1,
    (ReadPAC_fileLen_irrelevant exArchive exArchiveNoLen (by decide) (by decide) (by decide)
      (by decide)).2.1,
    by decide⟩

/-! ## The concrete scenario -/

theorem getD_take (d : List Byte) (n i : Nat) (h : i < n) :
    (d.take n).getD i 0 = d.getD i 0 := by
  rw [List.getD_eq_getElem?_getD, List.getD_eq_getElem?_getD, List.getElem?_take, if_pos h]

theorem Uint32_take (d : List Byte) (n x : Nat) (h : x + 4 ≤ n) :
    Uint32 (d.take n) x = Uint32 d x := by
  unfold Uint32
  rw [getD_take d n x (by omega), getD_take d n (x + 1) (by omega),
    getD_take d n (x + 2) (by omega), getD_take d n (x + 3) (by omega)]

/-- C15: the concrete scenario.  A content that starts with the header bytes
`61 64 64 00 | 04 00 00 00 | 20 00 00 00 | 20 00 00 00 | 01 00 00 00` (any
fileLen), holds an index record at offset 32 whose filenamePtr addresses the
bytes `a.txt` followed by a zero and whose dataLen is 3 with three bytes
available at dataPtr, decodes without error to an archive with indexPtr 32,
indexStride 32, count 1 and exactly one entry, whose filename is `a.txt` and
whose data are the three bytes at dataPtr. -/
theorem ReadPAC_scenario (d : List Byte)
    (hhdr : d.take 20 =
      [97, 100, 100, 0, 4, 0, 0, 0, 32, 0, 0, 0, 32, 0, 0, 0, 1, 0, 0, 0])
    (hrec : 52 ≤ d.length)
    (hname : (d.drop (Uint32 d 48)).take 6 = [97, 46, 116, 120, 116, 0])
    (hlen : Uint32 d 36 = 3) (hdata : Uint32 d 32 + 3 ≤ d.length) :
    (ReadPAC ⟨d, 0⟩).2.1 = none ∧
    (ReadPAC ⟨d, 0⟩).1.Header.IndexPtr = 32 ∧
    (ReadPAC ⟨d, 0⟩).1.Header.IndexStride = 32 ∧
    (ReadPAC ⟨d, 0⟩).1.Header.Count = 1 ∧
    (ReadPAC ⟨d, 0⟩).1.Entries =
      [⟨⟨Uint32 d 32, 3, Uint32 d 40, Uint32 d 44, Uint32 d 48⟩, [97, 46, 116, 120, 116],
        (d.drop (Uint32 d 32)).take 3⟩] := by
  have g : ∀ i, i < 20 → d.getD i 0 =
      ([97, 100, 100, 0, 4, 0, 0, 0, 32, 0, 0, 0, 32, 0, 0, 0, 1, 0, 0, 0] : List Byte).getD i 0 := by
    intro i hi
    rw [← hhdr, getD_take d 20 i hi]
  have u : ∀ x, x + 4 ≤ 20 → Uint32 d x =
      Uint32 [97, 100, 100, 0, 4, 0, 0, 0, 32, 0, 0, 0, 32, 0, 0, 0, 1, 0, 0, 0] x := by
    intro x hx
    rw [← hhdr, Uint32_take d 20 x hx]
  have hmagic : magicOK d 0 := by
    unfold magicOK
    simp only [Nat.zero_add]
    rw [g 0 (by omega), g 1 (by omega), g 2 (by omega), g 3 (by omega)]
    decide
  have hver : Uint32 d 4 = 4 := by rw [u 4 (by omega)]; decide
  have hptr : Uint32 d 8 = 32 := by rw [u 8 (by omega)]; decide
  have hstr : Uint32 d 12 = 32 := by rw [u 12 (by omega)]; decide
  have hcnt : Uint32 d 16 = 1 := by rw [u 16 (by omega)]; decide
  have hH := ReadPACHeader_of_le ⟨d, 0⟩ (by simp only; omega)
  simp only [Nat.zero_add] at hH
  rw [if_neg (not_not.mpr hmagic), if_neg (not_not.mpr hver)] at hH
  have hh : (ReadPACHeader ⟨d, 0⟩).2.1 = none := by rw [hH]
  have hhv : (ReadPACHeader ⟨d, 0⟩).1 = headerAt d 0 := by rw [hH]
  obtain ⟨h1, h2, h3⟩ := ReadPAC_spec ⟨d, 0⟩ hh
  rw [hhv] at h1 h2 h3
  have hIP : (headerAt d 0).IndexPtr = 32 := hptr
  have hIS : (headerAt d 0).IndexStride = 32 := hstr
  have hC : (headerAt d 0).Count = 1 := hcnt
  have hslot : indexSlot (headerAt d 0) 0 = 32 := by
    unfold indexSlot
    rw [hIP, hIS]
    decide
  have hz : (0 : Byte) ∈ d.drop (fieldsAt d 32).FilenamePtr := by
    have h0 : (0 : Byte) ∈ (d.drop (Uint32 d 48)).take 6 := by
      rw [hname]; decide
    exact List.mem_of_mem_take h0
  have hok : (ReadPACEntry ⟨d, 32⟩).2.1 = none :=
    (ReadPACEntry_none_iff ⟨d, 32⟩).mpr ⟨hrec, hz, Or.inr (by
      show Uint32 d 32 + Uint32 d (32 + 4) ≤ d.length
      rw [hlen]; exact hdata)⟩
  have hfn : filenameAt d (Uint32 d 48) = [97, 46, 116, 120, 116] := by
    unfold filenameAt
    rw [← List.take_append_drop 6 (d.drop (Uint32 d 48)), hname]
    simp [List.takeWhile]
  have hval := ReadPACEntry_value_of_ok ⟨d, 32⟩ hok
  have hfields : fieldsAt d 32 = ⟨Uint32 d 32, 3, Uint32 d 40, Uint32 d 44, Uint32 d 48⟩ := by
    unfold fieldsAt
    rw [hlen]
  simp only [hfields, hfn] at hval
  rw [h1]
  refine ⟨?_, hIP, hIS, hC, ?_⟩
  · rcases h3 with ⟨hn, _⟩ | ⟨k, e, hk1, hk2, _⟩
    · exact hn
    · have hk0 : k = 0 := by omega
      subst hk0
      have hk2' : (ReadPACEntry ⟨d, indexSlot (headerAt d 0) 0⟩).2.1 = some e := hk2
      rw [hslot, hok] at hk2'
      exact Option.noConfusion hk2'
  · rcases h3 with ⟨_, hall⟩ | ⟨k, e, hk1, hk2, _⟩
    · have h0 := (hall 0 (by omega)).2
      have h0' : (ReadPAC ⟨d, 0⟩).1.Entries[0]? =
          some (ReadPACEntry ⟨d, indexSlot (headerAt d 0) 0⟩).1 := h0
      rw [hslot, hval] at h0'
      rw [hC] at h2
      match hE : (ReadPAC ⟨d, 0⟩).1.Entries, h2, h0' with
      | [x], _, h0'' =>
        simp only [hE, List.getElem?_cons_zero, Option.some.injEq] at h0''
        rw [h0'']
    · have hk0 : k = 0 := by omega
      subst hk0
      have hk2' : (ReadPACEntry ⟨d, indexSlot (headerAt d 0) 0⟩).2.1 = some e := hk2
      rw [hslot, hok] at hk2'
      exact Option.noConfusion hk2'

/-- Witness of C15 on `exScenario`: one entry `a.txt` with the payload
`1 2 3`. -/
theorem ReadPAC_scenario_witness :
    (ReadPAC ⟨exScenario, 0⟩).2.1 = none ∧
    (ReadPAC ⟨exScenario, 0⟩).1.Entries =
      [⟨⟨70, 3, 0, 7, 64⟩, [97, 46, 116, 120, 116], [1, 2, 3]⟩] :=
  ⟨(ReadPAC_scenario exScenario (by decide) (by decide) (by decide) (by decide) (by decide)).1,
    (ReadPAC_scenario exScenario (by decide) (by decide) (by decide) (by decide)
      (by decide)).2.2.2.2.trans (by decide)⟩

/-! ## The empty payload -/

/-- C18: for an index record at the cursor with `dataLen = 0` (and a filename
that resolves, so that the payload step is reached) `ReadPACEntry` succeeds
with empty data whatever dataPtr is, also beyond the end of the content: the
payload step on zero bytes succeeds from every seek target.  A payload error
only arises with `dataLen > 0`. -/
theorem ReadPACEntry_empty_payload (r : Stream) (h20 : r.pos + 20 ≤ r.data.length)
    (hz : (0 : Byte) ∈ r.data.drop (Uint32 r.data (r.pos + 16)))
    (hdl : Uint32 r.data (r.pos + 4) = 0) :
    (ReadPACEntry r).2.1 = none ∧
    (ReadPACEntry r).1.Data = [] ∧
    (ReadPACEntry r).1.Fields.DataPtr = Uint32 r.data r.pos ∧
    (∀ (c : Stream) (dataPtr : Nat),
      ReadFull (Seek c (Int.ofNat dataPtr)).2 0 = ([], none, ⟨c.data, dataPtr⟩)) ∧
    (∀ (c : Stream) (e : Err), (ReadPACEntry c).2.1 = some (Err.Wrap e "Ptr.Data") →
      0 < Uint32 c.data (c.pos + 4)) := by
  have hok : (ReadPACEntry r).2.1 = none :=
    (ReadPACEntry_none_iff r).mpr ⟨h20, hz, Or.inl hdl⟩
  have hv := ReadPACEntry_value_of_ok r hok
  have hdl' : (fieldsAt r.data r.pos).DataLen = 0 := hdl
  refine ⟨hok, ?_, ?_, ?_, ?_⟩
  · rw [hv]
    simp only [hdl', List.take_zero]
  · rw [hv]
    rfl
  · intro c dataPtr
    rw [Seek_ofNat, ReadFull_zero]
  · intro c e he
    rcases ReadPACEntry_error_cases c _ he with ⟨_, h⟩ | ⟨_, _, h⟩ | ⟨_, _, h, _⟩
    · injection h with _ hs
      exact absurd hs (by decide)
    · injection h with _ hs
      exact absurd hs (by decide)
    · exact h

/-- Witness of C18 on `exDangling`: `dataPtr = 1000` in a content of 22 bytes,
`dataLen = 0`, and the entry decodes with empty data. -/
theorem ReadPACEntry_empty_payload_witness :
    (ReadPACEntry ⟨exDangling, 0⟩).2.1 = none ∧
    (ReadPACEntry ⟨exDangling, 0⟩).1.Data = [] ∧
    (ReadPACEntry ⟨exDangling, 0⟩).1.Fields.DataPtr = 1000 :=
  ⟨(ReadPACEntry_empty_payload ⟨exDangling, 0⟩ (by decide) (by decide) (by decide)).1,
    (ReadPACEntry_empty_payload ⟨exDangling, 0⟩ (by decide) (by decide) (by decide)).2.1,
    (ReadPACEntry_empty_payload ⟨exDangling, 0⟩ (by decide) (by decide)
      (by decide)).2.2.1.trans (by decide)⟩

/-! ## The dump file names -/

theorem fmtDigits_digit (fuel u : Nat) :
    ∀ b ∈ fmtDigits fuel u, 48 ≤ b.val ∧ b.val ≤ 57 := by
  induction fuel generalizing u with
  | zero => intro b hb; simp [fmtDigits] at hb
  | succ n ih =>
    intro b hb
    unfold fmtDigits at hb
    split at hb
    · rw [List.mem_singleton] at hb
      subst hb
      simp only
      omega
    · rcases List.mem_cons.mp hb with h | h
      · subst h
        simp only
        omega
      · exact ih _ b h

theorem fmtDigits_value (fuel u : Nat) (h : u < 10 ^ fuel) :
    (fmtDigits fuel u).foldr (fun b a => 10 * a + (b.val - 48)) 0 = u := by
  induction fuel generalizing u with
  | zero =>
    simp only [pow_zero, Nat.lt_one_iff] at h
    subst h
    rfl
  | succ n ih =>
    unfold fmtDigits
    split
    · simp only [List.foldr_cons, List.foldr_nil]
      omega
    · have hdiv : u / 10 < 10 ^ n := by
        rw [pow_succ] at h
        exact Nat.div_lt_of_lt_mul (by omega)
      simp only [List.foldr_cons]
      rw [ih _ hdiv]
      omega

theorem fmtDigits_length_pos (fuel u : Nat) : 0 < (fmtDigits (fuel + 1) u).length := by
  unfold fmtDigits
  split <;> simp

theorem fmtDigits_last (fuel u : Nat) (h1 : 1 ≤ u) (h : u < 10 ^ fuel) :
    ∀ b, (fmtDigits fuel u).getLast? = some b → b.val ≠ 48 := by
  induction fuel generalizing u with
  | zero =>
    simp only [pow_zero, Nat.lt_one_iff] at h
    omega
  | succ n ih =>
    intro b hb
    unfold fmtDigits at hb
    split at hb
    · simp only [List.getLast?_singleton, Option.some.injEq] at hb
      subst hb
      simp only
      omega
    · have hdiv : u / 10 < 10 ^ n := by
        rw [pow_succ] at h
        exact Nat.div_lt_of_lt_mul (by omega)
      have hge : 1 ≤ u / 10 := by omega
      cases n with
      | zero =>
        simp only [pow_zero, Nat.lt_one_iff] at hdiv
        omega
      | succ m =>
        have hne : fmtDigits (m + 1) (u / 10) ≠ [] :=
          List.ne_nil_of_length_pos (fmtDigits_length_pos m (u / 10))
        obtain ⟨x, xs, hx⟩ := List.exists_cons_of_ne_nil hne
        rw [hx, List.getLast?_cons_cons, ← hx] at hb
        exact ih _ hge hdiv b hb

theorem decimalValue_reverse (l : List Byte) :
    decimalValue l.reverse = l.foldr (fun b a => 10 * a + (b.val - 48)) 0 := by
  unfold decimalValue
  rw [List.foldl_reverse]

theorem decimalValue_zeros (k : Nat) (l : List Byte) :
    decimalValue (List.replicate k 48 ++ l) = decimalValue l := by
  unfold decimalValue
  rw [List.foldl_append]
  congr 1
  induction k with
  | zero => rfl
  | succ n ih =>
    rw [List.replicate_succ, List.foldl_cons]
    exact ih

/-- The number part of a dump file name: decimal digits only, denoting `u`, at
least three of them, without a leading zero when there are more than three. -/
theorem fmtInteger_spec (u : Nat) (hu : u < 2 ^ 32) :
    (∀ b ∈ fmtInteger 3 u, 48 ≤ b.val ∧ b.val ≤ 57) ∧
    decimalValue (fmtInteger 3 u) = u ∧
    3 ≤ (fmtInteger 3 u).length ∧
    (3 < (fmtInteger 3 u).length → (fmtInteger 3 u).head? ≠ some 48) := by
  have hlt : u < 10 ^ 20 := by
    have : (2 : Nat) ^ 32 < 10 ^ 20 := by decide
    omega
  refine ⟨?_, ?_, ?_, ?_⟩
  · intro b hb
    unfold fmtInteger at hb
    rcases List.mem_append.mp hb with h | h
    · have := (List.mem_replicate.mp h).2
      subst this
      decide
    · exact fmtDigits_digit 20 u b (List.mem_reverse.mp h)
  · unfold fmtInteger
    rw [decimalValue_zeros, decimalValue_reverse]
    exact fmtDigits_value 20 u hlt
  · unfold fmtInteger
    rw [List.length_append, List.length_replicate, List.length_reverse]
    omega
  · unfold fmtInteger
    rw [List.length_append, List.length_replicate, List.length_reverse]
    intro hlen
    have hn : 3 < (fmtDigits 20 u).length := by omega
    have hpad : 3 - (fmtDigits 20 u).length = 0 := by omega
    rw [hpad, List.replicate_zero, List.nil_append, List.head?_reverse]
    have h1 : 1 ≤ u := by
      by_contra h0
      have hu0 : u = 0 := by omega
      subst hu0
      have : (fmtDigits 20 0).length = 1 := by decide
      omega
    intro hb
    exact fmtDigits_last 20 u h1 hlt 48 hb rfl

theorem fmtInteger_no_underscore (u : Nat) (hu : u < 2 ^ 32) :
    (95 : Byte) ∉ fmtInteger 3 u := by
  intro h
  have := ((fmtInteger_spec u hu).1 95 h).2
  exact absurd this (by decide)

theorem SplitN2_of_mem (pre post : List Byte) (sep : Byte) (h : sep ∉ pre) :
    SplitN2 (pre ++ sep :: post) sep = [pre, post] := by
  have hidx : (pre ++ sep :: post).indexOf sep = pre.length := by
    rw [List.indexOf_append_of_not_mem h, List.indexOf_cons_self, Nat.add_zero]
  unfold SplitN2
  rw [hidx, if_pos (by rw [List.length_append, List.length_cons]; omega)]
  have hd : (pre ++ sep :: post).drop (pre.length + 1) = post := by
    rw [List.drop_append]
    rfl
  rw [List.take_left, hd]

theorem SplitN2_of_not_mem (s : List Byte) (sep : Byte) (h : sep ∉ s) :
    SplitN2 s sep = [s] := by
  unfold SplitN2
  rw [if_neg]
  rw [List.indexOf_lt_length]
  exact h

theorem FromPACEntryFilename_of_mem (pre post : List Byte) (h : (95 : Byte) ∉ pre) :
    FromPACEntryFilename (pre ++ 95 :: post) = some post := by
  unfold FromPACEntryFilename
  rw [SplitN2_of_mem pre post 95 h]
  rfl

theorem FromPACEntryFilename_of_not_mem (s : List Byte) (h : (95 : Byte) ∉ s) :
    FromPACEntryFilename s = none := by
  unfold FromPACEntryFilename
  rw [SplitN2_of_not_mem s 95 h]
  rfl

theorem split_at_first (a : Byte) (s : List Byte) (h : a ∈ s) :
    s = s.take (s.indexOf a) ++ a :: s.drop (s.indexOf a + 1) ∧ a ∉ s.take (s.indexOf a) := by
  induction s with
  | nil => simp at h
  | cons b t ih =>
    by_cases hb : b = a
    · rw [List.indexOf_cons_eq t hb]
      simp [hb]
    · have ht : a ∈ t := by
        rcases List.mem_cons.mp h with h' | h'
        · exact absurd h'.symm hb
        · exact h'
      obtain ⟨h1, h2⟩ := ih ht
      rw [List.indexOf_cons_ne t hb]
      constructor
      · simp only [List.take_succ_cons, List.drop_succ_cons, List.cons_append]
        rw [← h1]
      · simp only [List.take_succ_cons, List.mem_cons, not_or]
        exact ⟨fun hab => hb hab.symm, h2⟩

theorem append_sep_inj (a : Byte) (p q f g : List Byte) (hp : a ∉ p) (hq : a ∉ q)
    (h : p ++ a :: f = q ++ a :: g) : p = q ∧ f = g := by
  have hlen : p.length = q.length := by
    have h1 : (p ++ a :: f).indexOf a = p.length := by
      rw [List.indexOf_append_of_not_mem hp, List.indexOf_cons_self, Nat.add_zero]
    have h2 : (q ++ a :: g).indexOf a = q.length := by
      rw [List.indexOf_append_of_not_mem hq, List.indexOf_cons_self, Nat.add_zero]
    rw [← h1, ← h2, h]
  obtain ⟨h1, h2⟩ := List.append_inj h hlen
  exact ⟨h1, (List.cons.inj h2).2⟩

/-- C17: the dump-name round trip.  For every sequence number `i` below `2^32`
and every base filename `f` (empty, with underscores, or any other),
`FromPACEntryFilename` applied to `ToPACEntryFilename i f` returns `f`.  The
name is a number part, an underscore and `f`; the number part consists of
decimal digits, denotes `i`, has at least three digits and, when it has more
than three, no leading zero: it is the decimal of `i` zero-padded to three
digits. -/
theorem ToPACEntryFilename_roundtrip (i : Nat) (hi : i < 2 ^ 32) (f : List Byte) :
    FromPACEntryFilename (ToPACEntryFilename i f) = some f ∧
    ∃ num : List Byte,
      ToPACEntryFilename i f = num ++ [95] ++ f ∧
      (∀ b ∈ num, 48 ≤ b.val ∧ b.val ≤ 57) ∧
      decimalValue num = i ∧
      3 ≤ num.length ∧
      (3 < num.length → num.head? ≠ some 48) := by
  obtain ⟨h1, h2, h3, h4⟩ := fmtInteger_spec i hi
  constructor
  · unfold ToPACEntryFilename
    rw [List.append_assoc]
    exact FromPACEntryFilename_of_mem _ _ (fmtInteger_no_underscore i hi)
  · exact ⟨fmtInteger 3 i, rfl, h1, h2, h3, h4⟩

/-- Witness of C17: sequence number 7 with the base filename `_a_`, and
sequence number 1234 with the empty base filename. -/
theorem ToPACEntryFilename_roundtrip_witness :
    FromPACEntryFilename (ToPACEntryFilename 7 [95, 97, 95]) = some [95, 97, 95] ∧
    ToPACEntryFilename 7 [95, 97, 95] = [48, 48, 55, 95, 95, 97, 95] ∧
    FromPACEntryFilename (ToPACEntryFilename 1234 []) = some [] ∧
    ToPACEntryFilename 1234 [] = [49, 50, 51, 52, 95] :=
  ⟨(ToPACEntryFilename_roundtrip 7 (by decide) [95, 97, 95]).1, by decide,
    (ToPACEntryFilename_roundtrip 1234 (by decide) []).1, by decide⟩

/-- C19: `FromPACEntryFilename` returns a value exactly on the strings that
contain an underscore, and the value is everything after the first underscore.
On a string without underscore the split has a single element, the index 1 is
out of range, and the function panics (no value, no error). -/
theorem FromPACEntryFilename_spec (s : List Byte) :
    (FromPACEntryFilename s ≠ none ↔ (95 : Byte) ∈ s) ∧
    (∀ pre post : List Byte, s = pre ++ 95 :: post → (95 : Byte) ∉ pre →
      FromPACEntryFilename s = some post) ∧
    ((95 : Byte) ∈ s → FromPACEntryFilename s = some (s.drop (s.indexOf 95 + 1))) ∧
    ((95 : Byte) ∉ s →
      SplitN2 s 95 = [s] ∧ (SplitN2 s 95).length = 1 ∧ FromPACEntryFilename s = none) := by
  have hmem : (95 : Byte) ∈ s → FromPACEntryFilename s = some (s.drop (s.indexOf 95 + 1)) := by
    intro h
    obtain ⟨h1, h2⟩ := split_at_first 95 s h
    have := FromPACEntryFilename_of_mem _ (s.drop (s.indexOf 95 + 1)) h2
    rw [← h1] at this
    exact this
  refine ⟨?_, ?_, hmem, ?_⟩
  · constructor
    · intro hne
      by_contra hno
      exact hne (FromPACEntryFilename_of_not_mem s hno)
    · intro h
      rw [hmem h]
      exact Option.noConfusion
  · intro pre post hs hpre
    rw [hs]
    exact FromPACEntryFilename_of_mem pre post hpre
  · intro hno
    have h1 := SplitN2_of_not_mem s 95 hno
    refine ⟨h1, ?_, FromPACEntryFilename_of_not_mem s hno⟩
    rw [h1]
    rfl

/-- Witness of C19: `007_a_b` gives `a_b`; `abc` has no underscore and gives
no value. -/
theorem FromPACEntryFilename_spec_witness :
    FromPACEntryFilename [48, 48, 55, 95, 97, 95, 98] = some [97, 95, 98] ∧
    FromPACEntryFilename [97, 98, 99] = none :=
  ⟨(FromPACEntryFilename_spec [48, 48, 55, 95, 97, 95, 98]).2.1 [48, 48, 55] [97, 95, 98] rfl
      (by decide),
    ((FromPACEntryFilename_spec [97, 98, 99]).2.2.2 (by decide)).2.2⟩

/-- C20: `ToPACEntryFilename` is injective: for sequence numbers `i`, `j`
below `2^32` and base filenames `f`, `g`, equal dump file names force `i = j`
and `f = g`. -/
theorem ToPACEntryFilename_injective (i j : Nat) (hi : i < 2 ^ 32) (hj : j < 2 ^ 32)
    (f g : List Byte) (h : ToPACEntryFilename i f = ToPACEntryFilename j g) :
    i = j ∧ f = g := by
  unfold ToPACEntryFilename at h
  rw [List.append_assoc, List.append_assoc] at h
  obtain ⟨hnum, hfg⟩ := append_sep_inj 95 _ _ f g (fmtInteger_no_underscore i hi)
    (fmtInteger_no_underscore j hj) h
  refine ⟨?_, hfg⟩
  rw [← (fmtInteger_spec i hi).2.1, ← (fmtInteger_spec j hj).2.1, hnum]

/-- Witness of C20: the dump file name `007_a` comes from sequence number 7
and base filename `a` only. -/
theorem ToPACEntryFilename_injective_witness :
    ToPACEntryFilename 7 [97] = ToPACEntryFilename 7 [97] ∧ (7 = 7 ∧ ([97] : List Byte) = [97]) :=
  ⟨rfl, ToPACEntryFilename_injective 7 7 (by decide) (by decide) [97] [97] rfl⟩

/-! ## The round trip through the modelled encoder -/

theorem Uint32_PutUint32 (a b c d e : Nat) (ha : a < 2 ^ 32) (hb : b < 2 ^ 32)
    (hc : c < 2 ^ 32) (hd : d < 2 ^ 32) (he : e < 2 ^ 32) :
    decodePACEntryFields
      (PutUint32 a ++ PutUint32 b ++ PutUint32 c ++ PutUint32 d ++ PutUint32 e) =
      ⟨a, b, c, d, e⟩ := by
  simp only [decodePACEntryFields, Uint32, PutUint32, List.cons_append, List.nil_append,
    List.getD_cons_zero, List.getD_cons_succ, PACEntryFields.mk.injEq]
  refine ⟨?_, ?_, ?_, ?_, ?_⟩ <;> omega

theorem encodeRecord_take (stride : Nat) (e : PACEntry) (off : Nat) (rest : List Byte) :
    (encodeRecord stride e off ++ rest).take 20 =
      PutUint32 (off + e.Filename.length + 1) ++ PutUint32 e.Data.length
        ++ PutUint32 e.Fields.Unused ++ PutUint32 e.Fields.Unknown ++ PutUint32 off := by
  unfold encodeRecord
  rw [List.append_assoc]
  exact List.take_left' (by simp [PutUint32])

theorem encodeRecord_length (stride : Nat) (e : PACEntry) (off : Nat) (h : 20 ≤ stride) :
    (encodeRecord stride e off).length = stride := by
  simp [encodeRecord, PutUint32]
  omega

theorem encodeIndex_length (stride : Nat) (h : 20 ≤ stride) (es : List PACEntry) :
    ∀ off, (encodeIndex stride off es).length = es.length * stride := by
  induction es with
  | nil => intro off; simp [encodeIndex]
  | cons e t ih =>
    intro off
    rw [encodeIndex, List.length_append, encodeRecord_length stride e off h, ih,
      List.length_cons, Nat.succ_mul]
    omega

theorem encodeIndex_append (stride : Nat) (l1 : List PACEntry) (e : PACEntry)
    (l2 : List PACEntry) :
    ∀ off, encodeIndex stride off (l1 ++ e :: l2) =
      encodeIndex stride off l1 ++
        (encodeRecord stride e (off + (encodeBlobs l1).length) ++
          encodeIndex stride (off + (encodeBlobs l1).length + (blobOf e).length) l2) := by
  induction l1 with
  | nil => intro off; simp [encodeIndex, encodeBlobs]
  | cons a t ih =>
    intro off
    rw [List.cons_append, encodeIndex, ih, encodeIndex, encodeBlobs, List.length_append,
      List.append_assoc]
    simp only [Nat.add_assoc]

theorem encodeBlobs_append (l1 : List PACEntry) (e : PACEntry) (l2 : List PACEntry) :
    encodeBlobs (l1 ++ e :: l2) = encodeBlobs l1 ++ (blobOf e ++ encodeBlobs l2) := by
  induction l1 with
  | nil => simp [encodeBlobs]
  | cons a t ih => rw [List.cons_append, encodeBlobs, ih, encodeBlobs, List.append_assoc]

/-- What `ReadPACEntry` returns on a content in which a record written by the
modelled encoder sits at the cursor and the block of its entry sits at the
address the record names. -/
theorem ReadPACEntry_of_layout (d X Y X' Y' : List Byte) (stride p off : Nat) (e : PACEntry)
    (h1 : d = X ++ (encodeRecord stride e off ++ Y)) (hX : X.length = p)
    (h2 : d = X' ++ (blobOf e ++ Y')) (hX' : X'.length = off) (hS : 20 ≤ stride)
    (hz : (0 : Byte) ∉ e.Filename) (hoff : off + e.Filename.length + 1 < 2 ^ 32)
    (hlen : e.Data.length < 2 ^ 32) (hun : e.Fields.Unused < 2 ^ 32)
    (huk : e.Fields.Unknown < 2 ^ 32) :
    (ReadPACEntry ⟨d, p⟩).2.1 = none ∧
    (ReadPACEntry ⟨d, p⟩).1 =
      ⟨⟨off + e.Filename.length + 1, e.Data.length, e.Fields.Unused, e.Fields.Unknown, off⟩,
        e.Filename, e.Data⟩ := by
  have hfields : fieldsAt d p =
      ⟨off + e.Filename.length + 1, e.Data.length, e.Fields.Unused, e.Fields.Unknown, off⟩ := by
    rw [← decodePACEntryFields_take_drop, h1, List.drop_left' hX, encodeRecord_take]
    exact Uint32_PutUint32 _ _ _ _ _ hoff hlen hun huk (by omega)
  have h20 : p + 20 ≤ d.length := by
    rw [h1, List.length_append, List.length_append, encodeRecord_length stride e off hS, hX]
    omega
  have hdropf : d.drop off = e.Filename ++ (0 :: (e.Data ++ Y')) := by
    rw [h2, List.drop_left' hX']
    simp [blobOf]
  have hdropd : d.drop (off + e.Filename.length + 1) = e.Data ++ Y' := by
    have : off + e.Filename.length + 1 = (X' ++ (e.Filename ++ [0])).length := by
      simp [hX']
      omega
    rw [this, h2]
    have hsplit : X' ++ (blobOf e ++ Y') = (X' ++ (e.Filename ++ [0])) ++ (e.Data ++ Y') := by
      simp [blobOf]
    rw [hsplit, List.drop_left]
  have hdlen : off + e.Filename.length + 1 + e.Data.length ≤ d.length := by
    rw [h2]
    simp [blobOf, hX']
    omega
  have hzmem : (0 : Byte) ∈ d.drop (fieldsAt d p).FilenamePtr := by
    rw [hfields]
    simp only
    rw [hdropf]
    simp
  have hok : (ReadPACEntry ⟨d, p⟩).2.1 = none :=
    (ReadPACEntry_none_iff ⟨d, p⟩).mpr ⟨h20, hzmem, Or.inr (by rw [hfields]; exact hdlen)⟩
  refine ⟨hok, ?_⟩
  rw [ReadPACEntry_value_of_ok ⟨d, p⟩ hok]
  simp only [hfields]
  have hname : filenameAt d off = e.Filename := by
    unfold filenameAt
    rw [hdropf, List.takeWhile_append_of_pos]
    · simp
    · intro b hb
      have : b ≠ 0 := fun hb0 => hz (hb0 ▸ hb)
      simpa using this
  rw [hname, hdropd, List.take_left]

theorem blobOf_length_le (es : List PACEntry) (e : PACEntry) (h : e ∈ es) :
    (blobOf e).length ≤ (encodeBlobs es).length := by
  induction es with
  | nil => simp at h
  | cons a t ih =>
    rw [encodeBlobs, List.length_append]
    rcases List.mem_cons.mp h with h' | h'
    · subst h'
      omega
    · have := ih h'
      omega

/-- The entry that `ReadPACEntry` reads at the slot of `e` in the stream laid
out by the modelled encoder for the entries `l1 ++ e :: l2`. -/
theorem ReadPACEntry_encoded (P S : Nat) (hdr : List Byte) (l1 l2 : List PACEntry)
    (e : PACEntry) (hhdr : hdr.length = 24) (hP : 24 ≤ P) (hS : 20 ≤ S)
    (hz : (0 : Byte) ∉ e.Filename) (hun : e.Fields.Unused < 2 ^ 32)
    (huk : e.Fields.Unknown < 2 ^ 32)
    (htotal : P + (l1 ++ e :: l2).length * S + (encodeBlobs (l1 ++ e :: l2)).length < 2 ^ 32) :
    (ReadPACEntry ⟨hdr ++ (List.replicate (P - 24) (0 : Byte)
        ++ encodeIndex S (P + (l1 ++ e :: l2).length * S) (l1 ++ e :: l2)
        ++ encodeBlobs (l1 ++ e :: l2)), P + l1.length * S⟩).2.1 = none ∧
    (ReadPACEntry ⟨hdr ++ (List.replicate (P - 24) (0 : Byte)
        ++ encodeIndex S (P + (l1 ++ e :: l2).length * S) (l1 ++ e :: l2)
        ++ encodeBlobs (l1 ++ e :: l2)), P + l1.length * S⟩).1 =
      ⟨⟨P + (l1 ++ e :: l2).length * S + (encodeBlobs l1).length + e.Filename.length + 1,
          e.Data.length, e.Fields.Unused, e.Fields.Unknown,
          P + (l1 ++ e :: l2).length * S + (encodeBlobs l1).length⟩,
        e.Filename, e.Data⟩ := by
  have hb := encodeBlobs_append l1 e l2
  have hbl : (encodeBlobs (l1 ++ e :: l2)).length =
      (encodeBlobs l1).length + ((blobOf e).length + (encodeBlobs l2).length) := by
    rw [hb, List.length_append, List.length_append]
  have hblob : (blobOf e).length = e.Filename.length + 1 + e.Data.length := by
    simp only [blobOf, List.length_append, List.length_singleton]
  apply ReadPACEntry_of_layout _
    (hdr ++ (List.replicate (P - 24) (0 : Byte)
      ++ encodeIndex S (P + (l1 ++ e :: l2).length * S) l1))
    (encodeIndex S (P + (l1 ++ e :: l2).length * S + (encodeBlobs l1).length
      + (blobOf e).length) l2 ++ encodeBlobs (l1 ++ e :: l2))
    (hdr ++ (List.replicate (P - 24) (0 : Byte)
      ++ encodeIndex S (P + (l1 ++ e :: l2).length * S) (l1 ++ e :: l2) ++ encodeBlobs l1))
    (encodeBlobs l2) S
  · rw [encodeIndex_append]
    simp only [List.append_assoc]
  · rw [List.length_append, List.length_append, List.length_replicate,
      encodeIndex_length S hS, hhdr]
    omega
  · rw [hb]
    simp only [List.append_assoc]
  · rw [List.length_append, List.length_append, List.length_append, List.length_replicate,
      encodeIndex_length S hS, hhdr]
    omega
  · exact hS
  · exact hz
  · omega
  · omega
  · exact hun
  · exact huk

theorem decodePACHeader_encodeHeader (h : PACHeader) (hv : h.Version < 2 ^ 32)
    (hp : h.IndexPtr < 2 ^ 32) (hs : h.IndexStride < 2 ^ 32) (hc : h.Count < 2 ^ 32)
    (hl : h.FileLen < 2 ^ 32) :
    decodePACHeader (encodeHeader h) =
      { Magic := ⟨97, 100, 100, 0⟩, Version := h.Version, IndexPtr := h.IndexPtr,
        IndexStride := h.IndexStride, Count := h.Count, FileLen := h.FileLen } := by
  simp only [decodePACHeader, encodeHeader, Uint32, PutUint32, List.cons_append,
    List.nil_append, List.getD_cons_zero, List.getD_cons_succ, PACHeader.mk.injEq,
    true_and]
  refine ⟨?_, ?_, ?_, ?_, ?_⟩ <;> omega

theorem ReadPACHeader_encoded (h : PACHeader) (body : List Byte) (hv : h.Version = 4)
    (hp : h.IndexPtr < 2 ^ 32) (hs : h.IndexStride < 2 ^ 32) (hc : h.Count < 2 ^ 32)
    (hl : h.FileLen < 2 ^ 32) :
    (ReadPACHeader ⟨encodeHeader h ++ body, 0⟩).2.1 = none ∧
    (ReadPACHeader ⟨encodeHeader h ++ body, 0⟩).1 =
      { Magic := ⟨97, 100, 100, 0⟩, Version := h.Version, IndexPtr := h.IndexPtr,
        IndexStride := h.IndexStride, Count := h.Count, FileLen := h.FileLen } := by
  have hlen : (encodeHeader h).length = 24 := by simp [encodeHeader, PutUint32]
  have hat : headerAt (encodeHeader h ++ body) 0 =
      { Magic := ⟨97, 100, 100, 0⟩, Version := h.Version, IndexPtr := h.IndexPtr,
        IndexStride := h.IndexStride, Count := h.Count, FileLen := h.FileLen } := by
    rw [← decodePACHeader_take_drop, List.drop_zero, List.take_left' hlen]
    exact decodePACHeader_encodeHeader h (by omega) hp hs hc hl
  have hm : magicOK (encodeHeader h ++ body) 0 := by
    have := congrArg PACHeader.Magic hat
    simp only [headerAt, PACHeaderMagic.mk.injEq] at this
    exact this
  have hver : Uint32 (encodeHeader h ++ body) (0 + 4) = 4 := by
    have := congrArg PACHeader.Version hat
    simp only [headerAt] at this
    rw [this, hv]
  have hH := ReadPACHeader_of_le ⟨encodeHeader h ++ body, 0⟩ (by
    simp only [List.length_append, hlen]; omega)
  simp only at hH
  rw [if_neg (not_not.mpr hm), if_neg (not_not.mpr hver)] at hH
  rw [hH]
  exact ⟨rfl, hat⟩

theorem split_at_index (es : List PACEntry) (i : Nat) (e : PACEntry) (h : es[i]? = some e) :
    ∃ l1 l2, es = l1 ++ e :: l2 ∧ l1.length = i := by
  induction es generalizing i with
  | nil => simp at h
  | cons a t ih =>
    cases i with
    | zero =>
      simp only [List.getElem?_cons_zero, Option.some.injEq] at h
      exact ⟨[], t, by rw [h]; rfl, rfl⟩
    | succ n =>
      simp only [List.getElem?_cons_succ] at h
      obtain ⟨l1, l2, h1, h2⟩ := ih n h
      exact ⟨a :: l1, l2, by rw [h1]; rfl, by simp [h2]⟩

/-- The modelled encoder succeeds on a valid archive, with the stream spelled
out. -/
theorem Encode_of_valid (a : PAC) (hv : validArchive a) :
    Encode a = Except.ok
      (encodeHeader { a.Header with
          FileLen := 24 + (List.replicate (a.Header.IndexPtr - 24) (0 : Byte)
            ++ encodeIndex a.Header.IndexStride
                (a.Header.IndexPtr + a.Entries.length * a.Header.IndexStride) a.Entries
            ++ encodeBlobs a.Entries).length }
        ++ (List.replicate (a.Header.IndexPtr - 24) (0 : Byte)
            ++ encodeIndex a.Header.IndexStride
                (a.Header.IndexPtr + a.Entries.length * a.Header.IndexStride) a.Entries
            ++ encodeBlobs a.Entries)) := by
  obtain ⟨_, _, hcnt, _, _, _, _, htot⟩ := hv
  have hany : ¬ (a.Entries.any (fun e => decide (2 ^ 32 ≤ e.Data.length)) = true) := by
    rw [List.any_eq_true]
    rintro ⟨e, he, hbig⟩
    have h1 := blobOf_length_le a.Entries e he
    have h2 : e.Data.length ≤ (blobOf e).length := by
      simp only [blobOf, List.length_append]
      omega
    have h3 : 2 ^ 32 ≤ e.Data.length := by simpa using hbig
    omega
  unfold Encode
  rw [if_neg (not_not.mpr hcnt), if_neg hany]

/-- When every slot of a stream decodes to the data of the entry with the same
index in a list `es`, `ReadPAC` succeeds and hands back those data in the
order of `es`. -/
theorem ReadPAC_of_slots (d : List Byte) (es : List PACEntry)
    (hh : (ReadPACHeader ⟨d, 0⟩).2.1 = none)
    (hc : (ReadPACHeader ⟨d, 0⟩).1.Count = es.length)
    (hslot : ∀ (i : Nat) (e : PACEntry), es[i]? = some e →
      (slotEntry d (ReadPACHeader ⟨d, 0⟩).1 i).2.1 = none ∧
      (slotEntry d (ReadPACHeader ⟨d, 0⟩).1 i).1.Filename = e.Filename ∧
      (slotEntry d (ReadPACHeader ⟨d, 0⟩).1 i).1.Data = e.Data ∧
      (slotEntry d (ReadPACHeader ⟨d, 0⟩).1 i).1.Fields.Unused = e.Fields.Unused ∧
      (slotEntry d (ReadPACHeader ⟨d, 0⟩).1 i).1.Fields.Unknown = e.Fields.Unknown ∧
      (slotEntry d (ReadPACHeader ⟨d, 0⟩).1 i).1.Fields.DataLen = e.Data.length) :
    (ReadPAC ⟨d, 0⟩).2.1 = none ∧
    (ReadPAC ⟨d, 0⟩).1.Header = (ReadPACHeader ⟨d, 0⟩).1 ∧
    (ReadPAC ⟨d, 0⟩).1.Entries.length = es.length ∧
    ∀ (i : Nat) (e : PACEntry), es[i]? = some e →
      ∃ e', (ReadPAC ⟨d, 0⟩).1.Entries[i]? = some e' ∧
        e'.Filename = e.Filename ∧ e'.Data = e.Data ∧
        e'.Fields.Unused = e.Fields.Unused ∧ e'.Fields.Unknown = e.Fields.Unknown ∧
        e'.Fields.DataLen = e.Data.length := by
  obtain ⟨h1, h2, h3⟩ := ReadPAC_spec ⟨d, 0⟩ hh
  rcases h3 with ⟨hn, hs⟩ | ⟨k, e, hk1, hk2, _⟩
  · refine ⟨hn, h1, by rw [h2, hc], ?_⟩
    intro i e hie
    have hi : i < (ReadPACHeader ⟨d, 0⟩).1.Count := by
      rw [hc]
      by_contra hge
      rw [List.getElem?_eq_none (by omega)] at hie
      exact Option.noConfusion hie
    obtain ⟨_, hfn, hdata, hun, huk, hdl⟩ := hslot i e hie
    exact ⟨(slotEntry d (ReadPACHeader ⟨d, 0⟩).1 i).1, (hs i hi).2, hfn, hdata, hun, huk, hdl⟩
  · exfalso
    have hk : k < es.length := by rw [← hc]; exact hk1
    have hok := (hslot k es[k] (List.getElem?_eq_getElem hk)).1
    have hk2' : (slotEntry d (ReadPACHeader ⟨d, 0⟩).1 k).2.1 = some e := hk2
    rw [hok] at hk2'
    exact Option.noConfusion hk2'

/-- C16 (against the encoder modelled from the spec): the round trip.  For
every validly constructed archive `a` the encoder succeeds, and `ReadPAC` on
the emitted stream succeeds with the magic, version, indexPtr, indexStride and
count of `a` (fileLen is the emitted length), with as many entries as `a`, and
with, at every index, the filename, the payload bytes, `unused` and `unknown`
of the entry of `a` at that index. -/
theorem Encode_roundtrip (a : PAC) (hv : validArchive a) :
    ∃ bytes, Encode a = Except.ok bytes ∧
      (ReadPAC ⟨bytes, 0⟩).2.1 = none ∧
      (ReadPAC ⟨bytes, 0⟩).1.Header.Magic = a.Header.Magic ∧
      (ReadPAC ⟨bytes, 0⟩).1.Header.Version = a.Header.Version ∧
      (ReadPAC ⟨bytes, 0⟩).1.Header.IndexPtr = a.Header.IndexPtr ∧
      (ReadPAC ⟨bytes, 0⟩).1.Header.IndexStride = a.Header.IndexStride ∧
      (ReadPAC ⟨bytes, 0⟩).1.Header.Count = a.Header.Count ∧
      (ReadPAC ⟨bytes, 0⟩).1.Header.FileLen = bytes.length ∧
      (ReadPAC ⟨bytes, 0⟩).1.Entries.length = a.Entries.length ∧
      ∀ (i : Nat) (e : PACEntry), a.Entries[i]? = some e →
        ∃ e', (ReadPAC ⟨bytes, 0⟩).1.Entries[i]? = some e' ∧
          e'.Filename = e.Filename ∧ e'.Data = e.Data ∧
          e'.Fields.Unused = e.Fields.Unused ∧ e'.Fields.Unknown = e.Fields.Unknown ∧
          e'.Fields.DataLen = e.Data.length := by
  have hE := Encode_of_valid a hv
  obtain ⟨hmag, hver, hcnt, hP, hS, hS32, hent, htot⟩ := hv
  obtain ⟨body, hbodydef⟩ : ∃ body, body =
      List.replicate (a.Header.IndexPtr - 24) (0 : Byte)
        ++ encodeIndex a.Header.IndexStride
            (a.Header.IndexPtr + a.Entries.length * a.Header.IndexStride) a.Entries
        ++ encodeBlobs a.Entries := ⟨_, rfl⟩
  rw [← hbodydef] at hE
  have hbodylen : body.length = a.Header.IndexPtr - 24
      + a.Entries.length * a.Header.IndexStride + (encodeBlobs a.Entries).length := by
    rw [hbodydef, List.length_append, List.length_append, List.length_replicate,
      encodeIndex_length _ hS]
  obtain ⟨L, hLdef⟩ : ∃ L, L = 24 + body.length := ⟨_, rfl⟩
  rw [← hLdef] at hE
  have hLlt : L < 2 ^ 32 := by omega
  have h20 : a.Entries.length * 20 ≤ a.Entries.length * a.Header.IndexStride :=
    Nat.mul_le_mul_left _ hS
  have hhdrlen : (encodeHeader { a.Header with FileLen := L }).length = 24 := by
    simp [encodeHeader, PutUint32]
  obtain ⟨hh, hhv⟩ := ReadPACHeader_encoded { a.Header with FileLen := L } body hver
    (by simp only; omega) hS32 (by simp only; omega) hLlt
  simp only at hhv
  obtain ⟨d, hd⟩ : ∃ d, d = encodeHeader { a.Header with FileLen := L } ++ body := ⟨_, rfl⟩
  rw [← hd] at hE hh hhv
  have hdlen : d.length = L := by
    rw [hd, List.length_append, hhdrlen, hLdef]
  have hIP : (ReadPACHeader ⟨d, 0⟩).1.IndexPtr = a.Header.IndexPtr := by rw [hhv]
  have hIS : (ReadPACHeader ⟨d, 0⟩).1.IndexStride = a.Header.IndexStride := by rw [hhv]
  have hC : (ReadPACHeader ⟨d, 0⟩).1.Count = a.Header.Count := by rw [hhv]
  have hV : (ReadPACHeader ⟨d, 0⟩).1.Version = a.Header.Version := by rw [hhv]
  have hM : (ReadPACHeader ⟨d, 0⟩).1.Magic = a.Header.Magic := by rw [hhv, hmag]
  have hFL : (ReadPACHeader ⟨d, 0⟩).1.FileLen = L := by rw [hhv]
  have hslot : ∀ (i : Nat) (e : PACEntry), a.Entries[i]? = some e →
      (slotEntry d (ReadPACHeader ⟨d, 0⟩).1 i).2.1 = none ∧
      (slotEntry d (ReadPACHeader ⟨d, 0⟩).1 i).1.Filename = e.Filename ∧
      (slotEntry d (ReadPACHeader ⟨d, 0⟩).1 i).1.Data = e.Data ∧
      (slotEntry d (ReadPACHeader ⟨d, 0⟩).1 i).1.Fields.Unused = e.Fields.Unused ∧
      (slotEntry d (ReadPACHeader ⟨d, 0⟩).1 i).1.Fields.Unknown = e.Fields.Unknown ∧
      (slotEntry d (ReadPACHeader ⟨d, 0⟩).1 i).1.Fields.DataLen = e.Data.length := by
    intro i e hie
    obtain ⟨l1, l2, hes, hl1⟩ := split_at_index a.Entries i e hie
    have hmem : e ∈ a.Entries := by rw [hes]; simp
    obtain ⟨hz, hun, huk⟩ := hent e hmem
    have hi : i < a.Entries.length := by
      rw [hes, List.length_append, List.length_cons]; omega
    have hle : i * a.Header.IndexStride + a.Header.IndexStride ≤
        a.Entries.length * a.Header.IndexStride := by
      calc i * a.Header.IndexStride + a.Header.IndexStride
          = (i + 1) * a.Header.IndexStride := by rw [Nat.succ_mul]
        _ ≤ a.Entries.length * a.Header.IndexStride := Nat.mul_le_mul_right _ hi
    have hidx : indexSlot (ReadPACHeader ⟨d, 0⟩).1 i =
        a.Header.IndexPtr + l1.length * a.Header.IndexStride := by
      rw [indexSlot_eq, hIP, hIS, hl1]
      exact Nat.mod_eq_of_lt (by omega)
    have henc := ReadPACEntry_encoded a.Header.IndexPtr a.Header.IndexStride
      (encodeHeader { a.Header with FileLen := L }) l1 l2 e hhdrlen hP hS hz hun huk
      (by rw [← hes]; exact htot)
    rw [← hes, ← hbodydef, ← hd] at henc
    obtain ⟨hok, hval⟩ := henc
    have hsl : slotEntry d (ReadPACHeader ⟨d, 0⟩).1 i =
        ReadPACEntry ⟨d, a.Header.IndexPtr + l1.length * a.Header.IndexStride⟩ := by
      unfold slotEntry
      rw [hidx]
    rw [hsl, hval]
    exact ⟨hok, rfl, rfl, rfl, rfl, rfl⟩
  obtain ⟨r1, r2, r3, r4⟩ := ReadPAC_of_slots d a.Entries hh (by rw [hC, hcnt]) hslot
  refine ⟨d, hE, r1, ?_, ?_, ?_, ?_, ?_, ?_, r3, r4⟩
  · rw [r2, hM]
  · rw [r2, hV]
  · rw [r2, hIP]
  · rw [r2, hIS]
  · rw [r2, hC]
  · rw [r2, hFL, hdlen]

/-- Witness of C16 on `exModel`: the encoder emits a stream, and the stream
decodes to two entries, the first one `a` with the payload `1 2`. -/
theorem Encode_roundtrip_witness :
    ∃ bytes, Encode exModel = Except.ok bytes ∧
      (ReadPAC ⟨bytes, 0⟩).2.1 = none ∧
      (ReadPAC ⟨bytes, 0⟩).1.Entries.length = 2 ∧
      ∃ e', (ReadPAC ⟨bytes, 0⟩).1.Entries[0]? = some e' ∧
        e'.Filename = [97] ∧ e'.Data = [1, 2] := by
  obtain ⟨bytes, h1, h2, _, _, _, _, _, _, h3, h4⟩ := Encode_roundtrip exModel (by decide)
  obtain ⟨e', h5, h6, h7, _⟩ := h4 0 ⟨⟨0, 0, 5, 7, 0⟩, [97], [1, 2]⟩ rfl
  exact ⟨bytes, h1, h2, h3, e', h5, h6, h7⟩

/-! ## Which bytes a result depends on -/

/-- The result of `ReadPACEntry` at a complete record is decided by the three
pointer fields, by the bytes of the filename up to and including its
terminator (all bytes from filenamePtr on when there is none), and, when the
payload range lies inside the content, by the bytes of that range. -/
theorem ReadPACEntry_congr (d d' : List Byte) (p : Nat) (hlen : d.length = d'.length)
    (h20 : p + 20 ≤ d.length)
    (hfp : (fieldsAt d' p).FilenamePtr = (fieldsAt d p).FilenamePtr)
    (hdp : (fieldsAt d' p).DataPtr = (fieldsAt d p).DataPtr)
    (hdl : (fieldsAt d' p).DataLen = (fieldsAt d p).DataLen)
    (hname : if (0 : Byte) ∈ d.drop (fieldsAt d p).FilenamePtr then
        (d.drop (fieldsAt d p).FilenamePtr).take
            ((filenameAt d (fieldsAt d p).FilenamePtr).length + 1) =
          (d'.drop (fieldsAt d p).FilenamePtr).take
            ((filenameAt d (fieldsAt d p).FilenamePtr).length + 1)
      else d.drop (fieldsAt d p).FilenamePtr = d'.drop (fieldsAt d p).FilenamePtr)
    (hdata : (0 : Byte) ∈ d.drop (fieldsAt d p).FilenamePtr →
      (fieldsAt d p).DataPtr + (fieldsAt d p).DataLen ≤ d.length →
      (d.drop (fieldsAt d p).DataPtr).take (fieldsAt d p).DataLen =
        (d'.drop (fieldsAt d p).DataPtr).take (fieldsAt d p).DataLen) :
    (ReadPACEntry ⟨d, p⟩).2.1 = (ReadPACEntry ⟨d', p⟩).2.1 ∧
    ((ReadPACEntry ⟨d, p⟩).2.1 = none →
      (ReadPACEntry ⟨d, p⟩).1.Filename = (ReadPACEntry ⟨d', p⟩).1.Filename ∧
      (ReadPACEntry ⟨d, p⟩).1.Data = (ReadPACEntry ⟨d', p⟩).1.Data) := by
  have h20' : p + 20 ≤ d'.length := by omega
  by_cases hz : (0 : Byte) ∈ d.drop (fieldsAt d p).FilenamePtr
  · rw [if_pos hz] at hname
    obtain ⟨hz', hnm⟩ := takeWhile_eq_of_take_eq 0 _ _ hz hname
    have hnm' : filenameAt d' (fieldsAt d p).FilenamePtr =
        filenameAt d (fieldsAt d p).FilenamePtr := hnm
    have herr : (ReadPACEntry ⟨d, p⟩).2.1 = (ReadPACEntry ⟨d', p⟩).2.1 := by
      rw [ReadPACEntry_of_terminated ⟨d, p⟩ h20 hz,
        ReadPACEntry_of_terminated ⟨d', p⟩ h20' (by simp only; rw [hfp]; exact hz')]
      simp only [hdp, hdl]
      rw [ReadFull_err_eq_of_length d d' hlen]
    refine ⟨herr, ?_⟩
    intro hok
    have hok' : (ReadPACEntry ⟨d', p⟩).2.1 = none := by rw [← herr]; exact hok
    rw [ReadPACEntry_value_of_ok ⟨d, p⟩ hok, ReadPACEntry_value_of_ok ⟨d', p⟩ hok']
    simp only [hfp, hdp, hdl, hnm']
    refine ⟨trivial, ?_⟩
    obtain ⟨_, _, hd⟩ := (ReadPACEntry_none_iff ⟨d, p⟩).mp hok
    simp only at hd
    rcases hd with h0 | hle
    · rw [h0, List.take_zero, List.take_zero]
    · exact hdata hz hle
  · rw [if_neg hz] at hname
    have hz' : (0 : Byte) ∉ d'.drop (fieldsAt d' p).FilenamePtr := by
      rw [hfp, ← hname]; exact hz
    rw [ReadPACEntry_of_not_terminated ⟨d, p⟩ h20 hz,
      ReadPACEntry_of_not_terminated ⟨d', p⟩ h20' hz']
    exact ⟨rfl, fun h => Option.noConfusion h⟩

theorem getElem?_eq_of_region (d d' : List Byte) (a b : Nat) (hpre : d.take a = d'.take a)
    (hpost : d.drop b = d'.drop b) (x : Nat) (hx : x < a ∨ b ≤ x) : d[x]? = d'[x]? := by
  rcases hx with hx | hx
  · have h1 : (d.take a)[x]? = d[x]? := by
      rw [List.getElem?_take, if_pos hx]
    have h2 : (d'.take a)[x]? = d'[x]? := by
      rw [List.getElem?_take, if_pos hx]
    rw [← h1, ← h2, hpre]
  · have h1 : (d.drop b)[x - b]? = d[x]? := by
      rw [List.getElem?_drop]
      congr 1
      omega
    have h2 : (d'.drop b)[x - b]? = d'[x]? := by
      rw [List.getElem?_drop]
      congr 1
      omega
    rw [← h1, ← h2, hpost]

theorem range_eq_of_region (d d' : List Byte) (a b : Nat) (hpre : d.take a = d'.take a)
    (hpost : d.drop b = d'.drop b) (lo n : Nat) (h : ¬ touchesRange a b lo (lo + n)) :
    (d.drop lo).take n = (d'.drop lo).take n := by
  apply List.ext_getElem?
  intro i
  by_cases hi : i < n
  · rw [List.getElem?_take, List.getElem?_take, if_pos hi, if_pos hi, List.getElem?_drop,
      List.getElem?_drop]
    apply getElem?_eq_of_region d d' a b hpre hpost
    unfold touchesRange at h
    omega
  · rw [List.getElem?_eq_none (by rw [List.length_take]; omega),
      List.getElem?_eq_none (by rw [List.length_take]; omega)]

theorem drop_eq_of_region (d d' : List Byte) (a b : Nat) (hlen : d.length = d'.length)
    (hpre : d.take a = d'.take a) (hpost : d.drop b = d'.drop b) (lo : Nat)
    (h : ¬ touchesRange a b lo d.length) : d.drop lo = d'.drop lo := by
  have h1 : (d.drop lo).take (d.length - lo) = d.drop lo :=
    List.take_of_length_le (by simp)
  have h2 : (d'.drop lo).take (d.length - lo) = d'.drop lo :=
    List.take_of_length_le (by simp; omega)
  rw [← h1, ← h2]
  apply range_eq_of_region d d' a b hpre hpost
  unfold touchesRange at h ⊢
  omega

theorem Uint32_eq_of_region (d d' : List Byte) (a b : Nat) (hpre : d.take a = d'.take a)
    (hpost : d.drop b = d'.drop b) (x : Nat) (hx : x + 4 ≤ a ∨ b ≤ x) :
    Uint32 d x = Uint32 d' x := by
  unfold Uint32
  rw [List.getD_eq_getElem?_getD, List.getD_eq_getElem?_getD, List.getD_eq_getElem?_getD,
    List.getD_eq_getElem?_getD, List.getD_eq_getElem?_getD, List.getD_eq_getElem?_getD,
    List.getD_eq_getElem?_getD, List.getD_eq_getElem?_getD,
    getElem?_eq_of_region d d' a b hpre hpost x (by omega),
    getElem?_eq_of_region d d' a b hpre hpost (x + 1) (by omega),
    getElem?_eq_of_region d d' a b hpre hpost (x + 2) (by omega),
    getElem?_eq_of_region d d' a b hpre hpost (x + 3) (by omega)]

theorem fieldsAt_of_ReadPACEntry (r : Stream) (h : r.pos + 20 ≤ r.data.length) :
    (ReadPACEntry r).1.Fields = fieldsAt r.data r.pos := by
  by_cases hz : (0 : Byte) ∈ r.data.drop (fieldsAt r.data r.pos).FilenamePtr
  · rw [ReadPACEntry_of_terminated r h hz]
  · rw [ReadPACEntry_of_not_terminated r h hz]

theorem fieldsAt_padded (pre record : List Byte) (h : record.length = 20) :
    fieldsAt (pre ++ record) pre.length = decodePACEntryFields record := by
  rw [← decodePACEntryFields_take_drop, List.drop_left, List.take_of_length_le (by omega)]

/-! ## Claims about one entry, continued -/

/-- C5, as stated, fails on the pair `exAliasZero`, `exAliasNonZero`: two
contents of the same length that differ only in the four bytes of the unused
field of the record at offset 16843001, whose filenamePtr is the address of
that field.  With `unused = 0` the call succeeds; with the non-zero
`unused = 0x01010101` it fails with the filename error. -/
theorem ReadPACEntry_fields_counterexample :
    exAliasZero.length = exAliasNonZero.length ∧
    exAliasZero.take (16843001 + 8) = exAliasNonZero.take (16843001 + 8) ∧
    exAliasZero.drop (16843001 + 12) = exAliasNonZero.drop (16843001 + 12) ∧
    16843001 + 20 ≤ exAliasZero.length ∧
    (ReadPACEntry ⟨exAliasZero, 16843001⟩).1.Fields = ⟨16843009, 0, 0, 16843009, 16843009⟩ ∧
    (ReadPACEntry ⟨exAliasZero, 16843001⟩).2.1 = none ∧
    (ReadPACEntry ⟨exAliasNonZero, 16843001⟩).1.Fields =
      ⟨16843009, 0, 16843009, 16843009, 16843009⟩ ∧
    (ReadPACEntry ⟨exAliasNonZero, 16843001⟩).2.1 = some (Err.Wrap Err.EOF "Ptr.Filename") := by
  have hp : exAliasPad.length = 16843001 := by
    unfold exAliasPad
    exact List.length_replicate _ _
  have hlz : exAliasZero.length = 16843001 + 20 := by
    unfold exAliasZero
    rw [List.length_append, hp]
    rfl
  have hln : exAliasNonZero.length = 16843001 + 20 := by
    unfold exAliasNonZero
    rw [List.length_append, hp]
    rfl
  have hfz : fieldsAt exAliasZero 16843001 = ⟨16843009, 0, 0, 16843009, 16843009⟩ := by
    have h := fieldsAt_padded exAliasPad
      [1, 1, 1, 1, 0, 0, 0, 0, 0, 0, 0, 0, 1, 1, 1, 1, 1, 1, 1, 1] rfl
    rw [hp] at h
    unfold exAliasZero
    rw [h]
    decide
  have hfn : fieldsAt exAliasNonZero 16843001 = ⟨16843009, 0, 16843009, 16843009, 16843009⟩ := by
    have h := fieldsAt_padded exAliasPad
      [1, 1, 1, 1, 0, 0, 0, 0, 1, 1, 1, 1, 1, 1, 1, 1, 1, 1, 1, 1] rfl
    rw [hp] at h
    unfold exAliasNonZero
    rw [h]
    decide
  have h9 : (16843009 : Nat) = exAliasPad.length + 8 := by rw [hp]
  have hdz : exAliasZero.drop 16843009 = [0, 0, 0, 0, 1, 1, 1, 1, 1, 1, 1, 1] := by
    unfold exAliasZero
    rw [h9, List.drop_append]
    rfl
  have hdn : exAliasNonZero.drop 16843009 = [1, 1, 1, 1, 1, 1, 1, 1, 1, 1, 1, 1] := by
    unfold exAliasNonZero
    rw [h9, List.drop_append]
    rfl
  have h20z : (⟨exAliasZero, 16843001⟩ : Stream).pos + 20 ≤
      (⟨exAliasZero, 16843001⟩ : Stream).data.length := by
    simp only [hlz]
    exact le_refl _
  have h20n : (⟨exAliasNonZero, 16843001⟩ : Stream).pos + 20 ≤
      (⟨exAliasNonZero, 16843001⟩ : Stream).data.length := by
    simp only [hln]
    exact le_refl _
  refine ⟨by rw [hlz, hln], ?_, ?_, by rw [hlz], ?_, ?_, ?_, ?_⟩
  · unfold exAliasZero exAliasNonZero
    rw [← hp, List.take_append, List.take_append]
    rfl
  · unfold exAliasZero exAliasNonZero
    rw [← hp, List.drop_append, List.drop_append]
    rfl
  · rw [fieldsAt_of_ReadPACEntry _ h20z]
    exact hfz
  · rw [ReadPACEntry_none_iff]
    refine ⟨h20z, ?_, Or.inl ?_⟩
    · simp only [hfz, hdz]
      decide
    · simp only [hfz]
  · rw [fieldsAt_of_ReadPACEntry _ h20n]
    exact hfn
  · have hz : (0 : Byte) ∉ (⟨exAliasNonZero, 16843001⟩ : Stream).data.drop
        (fieldsAt (⟨exAliasNonZero, 16843001⟩ : Stream).data
          (⟨exAliasNonZero, 16843001⟩ : Stream).pos).FilenamePtr := by
      simp only [hfn, hdn]
      decide
    rw [ReadPACEntry_of_not_terminated _ h20n hz]

/-- C5 (amended): when at least 20 bytes are available at the start offset `p`,
the fixed fields that `ReadPACEntry` returns are the little-endian `uint32`
values at `p`, `p+4`, `p+8`, `p+12`, `p+16`, as dataPtr, dataLen, unused,
unknown, filenamePtr (also when a later step fails), and the call succeeds
exactly when there is a zero byte at or after filenamePtr and the payload range
lies inside the content or dataLen is zero.  The values of unused and unknown
are stored as read, and they cause no failure as long as neither the filename
read nor the payload read takes in the bytes `p+8 .. p+15` that hold them: on
every content of the same length that differs only in these eight bytes the
call returns the same error, the same dataPtr, dataLen and filenamePtr, the
unused and unknown values of that content and, on success, the same filename
and data. -/
theorem ReadPACEntry_fields (d : List Byte) (p : Nat) (h : p + 20 ≤ d.length) :
    (ReadPACEntry ⟨d, p⟩).1.Fields =
      { DataPtr := Uint32 d p
        DataLen := Uint32 d (p + 4)
        Unused := Uint32 d (p + 8)
        Unknown := Uint32 d (p + 12)
        FilenamePtr := Uint32 d (p + 16) } ∧
    ((ReadPACEntry ⟨d, p⟩).2.1 = none ↔
      (0 : Byte) ∈ d.drop (Uint32 d (p + 16)) ∧
      (Uint32 d (p + 4) = 0 ∨ Uint32 d p + Uint32 d (p + 4) ≤ d.length)) ∧
    (∀ d' : List Byte, d'.length = d.length →
      d'.take (p + 8) = d.take (p + 8) → d'.drop (p + 16) = d.drop (p + 16) →
      (∀ rg ∈ pointerReads d p, ¬ touchesRange (p + 8) (p + 16) rg.1 rg.2) →
      (ReadPACEntry ⟨d', p⟩).2.1 = (ReadPACEntry ⟨d, p⟩).2.1 ∧
      (ReadPACEntry ⟨d', p⟩).1.Fields =
        { DataPtr := Uint32 d p
          DataLen := Uint32 d (p + 4)
          Unused := Uint32 d' (p + 8)
          Unknown := Uint32 d' (p + 12)
          FilenamePtr := Uint32 d (p + 16) } ∧
      ((ReadPACEntry ⟨d, p⟩).2.1 = none →
        (ReadPACEntry ⟨d', p⟩).1.Filename = (ReadPACEntry ⟨d, p⟩).1.Filename ∧
        (ReadPACEntry ⟨d', p⟩).1.Data = (ReadPACEntry ⟨d, p⟩).1.Data)) := by
  refine ⟨fieldsAt_of_ReadPACEntry ⟨d, p⟩ h, ?_, ?_⟩
  · rw [ReadPACEntry_none_iff]
    constructor
    · rintro ⟨_, h2, h3⟩
      exact ⟨h2, h3⟩
    · rintro ⟨h2, h3⟩
      exact ⟨h, h2, h3⟩
  · intro d' hlen hpre hpost hreads
    have u0 := Uint32_eq_of_region d d' (p + 8) (p + 16) hpre.symm hpost.symm p (by omega)
    have u4 := Uint32_eq_of_region d d' (p + 8) (p + 16) hpre.symm hpost.symm (p + 4)
      (by omega)
    have u16 := Uint32_eq_of_region d d' (p + 8) (p + 16) hpre.symm hpost.symm (p + 16)
      (by omega)
    have hfp : (fieldsAt d' p).FilenamePtr = (fieldsAt d p).FilenamePtr := u16.symm
    have hdp : (fieldsAt d' p).DataPtr = (fieldsAt d p).DataPtr := u0.symm
    have hdl : (fieldsAt d' p).DataLen = (fieldsAt d p).DataLen := u4.symm
    have hc := ReadPACEntry_congr d d' p hlen.symm h hfp hdp hdl (by
      by_cases hz : (0 : Byte) ∈ d.drop (fieldsAt d p).FilenamePtr
      · rw [if_pos hz]
        unfold pointerReads at hreads
        rw [if_pos hz] at hreads
        have hr := hreads _ (List.mem_cons_self _ _)
        simp only at hr
        exact range_eq_of_region d d' _ _ hpre.symm hpost.symm _ _
          (by rw [← Nat.add_assoc]; exact hr)
      · rw [if_neg hz]
        unfold pointerReads at hreads
        rw [if_neg hz] at hreads
        have hr := hreads _ (List.mem_cons_self _ _)
        simp only at hr
        exact drop_eq_of_region d d' _ _ hlen.symm hpre.symm hpost.symm _ hr) (by
      intro hz hle
      unfold pointerReads at hreads
      rw [if_pos hz] at hreads
      have hr := hreads _ (List.mem_cons_of_mem _ (List.mem_cons_self _ _))
      simp only at hr
      rw [Nat.min_eq_left hle] at hr
      exact range_eq_of_region d d' _ _ hpre.symm hpost.symm _ _ hr)
    refine ⟨hc.1.symm, ?_, ?_⟩
    · rw [fieldsAt_of_ReadPACEntry ⟨d', p⟩ (by simp only; omega)]
      simp only [fieldsAt]
      rw [u0, u4, u16]
    · intro hok
      exact ⟨(hc.2 hok).1.symm, (hc.2 hok).2.symm⟩

/-- Witness of C5 (amended) on `exEntry`, whose unused field is `0x01020304`,
against `exEntryUnusedZero`: the record decodes, the call succeeds on both, and
the second content gives `unused = 0` with everything else the same. -/
theorem ReadPACEntry_fields_witness :
    (ReadPACEntry ⟨exEntry, 0⟩).1.Fields =
      { DataPtr := 22, DataLen := 2, Unused := 16909060, Unknown := 7, FilenamePtr := 20 } ∧
    (ReadPACEntry ⟨exEntry, 0⟩).2.1 = none ∧
    (ReadPACEntry ⟨exEntryUnusedZero, 0⟩).2.1 = (ReadPACEntry ⟨exEntry, 0⟩).2.1 ∧
    (ReadPACEntry ⟨exEntryUnusedZero, 0⟩).1.Fields =
      { DataPtr := 22, DataLen := 2, Unused := 0, Unknown := 7, FilenamePtr := 20 } :=
  ⟨(ReadPACEntry_fields exEntry 0 (by decide)).1,
    (ReadPACEntry_fields exEntry 0 (by decide)).2.1.mpr (by decide),
    ((ReadPACEntry_fields exEntry 0 (by decide)).2.2 exEntryUnusedZero (by decide) (by decide)
      (by decide) (by decide)).1,
    ((ReadPACEntry_fields exEntry 0 (by decide)).2.2 exEntryUnusedZero (by decide) (by decide)
      (by decide) (by decide)).2.1.trans (by decide)⟩

/-! ## Claims about failures of the archive reader, continued -/

theorem PACEntry_eq_of (a b : PACEntry) (h1 : a.Fields = b.Fields)
    (h2 : a.Filename = b.Filename) (h3 : a.Data = b.Data) : a = b := by
  cases a
  cases b
  simp only at h1 h2 h3
  rw [h1, h2, h3]

/-- Two contents of the same length that hold the same bytes in every range
that `ReadPACEntry` takes in at the cursor `p` give the same result there: the
same error, and on success the same entry. -/
theorem ReadPACEntry_eq_of_agree (d d' : List Byte) (hlen : d.length = d'.length) (p : Nat)
    (hr : ∀ rg ∈ entryReads d p, agreeOn d d' rg.1 rg.2) :
    (ReadPACEntry ⟨d, p⟩).2.1 = (ReadPACEntry ⟨d', p⟩).2.1 ∧
    ((ReadPACEntry ⟨d, p⟩).2.1 = none → (ReadPACEntry ⟨d, p⟩).1 = (ReadPACEntry ⟨d', p⟩).1) := by
  by_cases h20 : p + 20 ≤ d.length
  · have hnlt : ¬ d.length < p + 20 := by omega
    have hrec : agreeOn d d' p (p + 20) := by
      have hmem : (p, p + 20) ∈ entryReads d p := by
        unfold entryReads
        rw [if_neg hnlt]
        split <;> exact List.mem_cons_self _ _
      exact hr (p, p + 20) hmem
    have hf : fieldsAt d' p = fieldsAt d p := by
      unfold agreeOn at hrec
      rw [Nat.add_sub_cancel_left] at hrec
      rw [← decodePACEntryFields_take_drop, ← decodePACEntryFields_take_drop, hrec]
    have hc := ReadPACEntry_congr d d' p hlen h20 (by rw [hf]) (by rw [hf]) (by rw [hf]) (by
      by_cases hz : (0 : Byte) ∈ d.drop (fieldsAt d p).FilenamePtr
      · rw [if_pos hz]
        unfold entryReads at hr
        rw [if_neg hnlt, if_pos hz] at hr
        have h := hr _ (List.mem_cons_of_mem _ (List.mem_cons_self _ _))
        unfold agreeOn at h
        simp only at h
        rw [Nat.add_assoc, Nat.add_sub_cancel_left] at h
        exact h
      · rw [if_neg hz]
        unfold entryReads at hr
        rw [if_neg hnlt, if_neg hz] at hr
        have h := hr _ (List.mem_cons_of_mem _ (List.mem_cons_self _ _))
        unfold agreeOn at h
        simp only at h
        rw [List.take_of_length_le (by simp), List.take_of_length_le (by simp; omega)] at h
        exact h) (by
      intro hz hle
      unfold entryReads at hr
      rw [if_neg hnlt, if_pos hz] at hr
      have h := hr _ (List.mem_cons_of_mem _ (List.mem_cons_of_mem _ (List.mem_cons_self _ _)))
      unfold agreeOn at h
      simp only at h
      rw [Nat.min_eq_left hle, Nat.add_sub_cancel_left] at h
      exact h)
    refine ⟨hc.1, ?_⟩
    intro hok
    apply PACEntry_eq_of
    · rw [fieldsAt_of_ReadPACEntry ⟨d, p⟩ h20, fieldsAt_of_ReadPACEntry ⟨d', p⟩ (by simp only; omega)]
      exact hf.symm
    · exact (hc.2 hok).1
    · exact (hc.2 hok).2
  · rw [ReadPACEntry_of_short ⟨d, p⟩ (by simpa using Nat.lt_of_not_le h20),
      ReadPACEntry_of_short ⟨d', p⟩ (by simp only; omega)]
    simp only [hlen]
    exact ⟨trivial, fun h => Option.noConfusion h⟩

theorem ReadPACAlloc_of_le (limit : Nat) (r : Stream)
    (h : (ReadPACHeader r).1.Count ≤ limit) : ReadPACAlloc limit r = some (ReadPAC r) := by
  unfold ReadPACAlloc ReadPAC
  generalize ReadPACHeader r = rh at h
  obtain ⟨hdr, e, r1⟩ := rh
  simp only at h
  cases e with
  | some err => rfl
  | none =>
    simp only
    rw [if_neg (by omega)]

theorem ReadPACAlloc_of_gt (limit : Nat) (r : Stream) (hh : (ReadPACHeader r).2.1 = none)
    (h : limit < (ReadPACHeader r).1.Count) : ReadPACAlloc limit r = none := by
  unfold ReadPACAlloc
  generalize ReadPACHeader r = rh at h hh
  obtain ⟨hdr, e, r1⟩ := rh
  simp only at h hh
  subst hh
  simp only
  rw [if_pos h]

/-- C12, as stated, fails in two places.  `exSlotAlias` and
`exSlotAliasChanged` have the same header and differ only in the bytes of the
record of slot 1 (offsets 44..63); on the first `ReadPAC` fails at the smallest
failing slot 0 with the filename error, on the second it succeeds: the filename
pointer of slot 0 addresses the record of slot 1, so the outcome depends on the
contents of a later slot.  And on `exHugeCount`, whose header declares
`0xFFFFFFFF` entries and whose slot 0 fails to decode, a run that cannot
allocate that many entry slots ends in the allocation, before slot 0 is read,
and returns no error at all. -/
theorem ReadPAC_first_error_counterexample :
    exSlotAlias.length = exSlotAliasChanged.length ∧
    exSlotAlias.take 44 = exSlotAliasChanged.take 44 ∧
    (ReadPACHeader ⟨exSlotAliasChanged, 0⟩).1 = (ReadPACHeader ⟨exSlotAlias, 0⟩).1 ∧
    indexSlot (ReadPACHeader ⟨exSlotAlias, 0⟩).1 1 = 44 ∧
    (ReadPAC ⟨exSlotAlias, 0⟩).2.1 =
      some (Err.Wrapf (Err.Wrap Err.EOF "Ptr.Filename") "Entry %d" 0) ∧
    (ReadPAC ⟨exSlotAliasChanged, 0⟩).2.1 = none ∧
    (ReadPACHeader ⟨exHugeCount, 0⟩).2.1 = none ∧
    (ReadPACHeader ⟨exHugeCount, 0⟩).1.Count = 4294967295 ∧
    (ReadPACEntry ⟨exHugeCount, indexSlot (ReadPACHeader ⟨exHugeCount, 0⟩).1 0⟩).2.1 =
      some (Err.Wrap Err.EOF "Fields") ∧
    ReadPACAlloc 4294967294 ⟨exHugeCount, 0⟩ = none := by
  decide

/-- C12 (amended): first error wins and carries its index.  On a stream whose
header decodes, whose `Count` entry slots can be allocated, and in which some
slot `m < Count` fails to decode, `ReadPAC` returns (a run that cannot allocate
`Count` slots ends in the allocation instead); there is a smallest failing slot
`k ≤ m`, and the error is the error `e` of slot `k` annotated with `k`.  The
annotation determines `k` and `e`; `e` names the step that failed (`Fields`:
fewer than 20 bytes at the slot; `Ptr.Filename`: no terminator; `Ptr.Data`:
payload range past the end).  The outcome does not depend on bytes that no
read of the slots up to `k` takes in: every stream of the same length with the
same header that holds the same bytes in the record, filename and payload
ranges read for the slots `0 .. k` gives the same archive value and the same
error, whatever the other bytes of the later slots are. -/
theorem ReadPAC_first_error (limit : Nat) (r : Stream) (hh : (ReadPACHeader r).2.1 = none)
    (hcap : (ReadPACHeader r).1.Count ≤ limit) (m : Nat)
    (hm : m < (ReadPACHeader r).1.Count)
    (hfail : (ReadPACEntry ⟨r.data, indexSlot (ReadPACHeader r).1 m⟩).2.1 ≠ none) :
    ReadPACAlloc limit r = some (ReadPAC r) ∧
    (∀ small : Nat, small < (ReadPACHeader r).1.Count → ReadPACAlloc small r = none) ∧
    ∃ k e, k ≤ m ∧
      (∀ j, j < k → (ReadPACEntry ⟨r.data, indexSlot (ReadPACHeader r).1 j⟩).2.1 = none) ∧
      (ReadPACEntry ⟨r.data, indexSlot (ReadPACHeader r).1 k⟩).2.1 = some e ∧
      (ReadPAC r).2.1 = some (Err.Wrapf e "Entry %d" k) ∧
      (∀ e' k', Err.Wrapf e' "Entry %d" k' = Err.Wrapf e "Entry %d" k → k' = k ∧ e' = e) ∧
      ((r.data.length < indexSlot (ReadPACHeader r).1 k + 20 ∧
          ∃ c, e = Err.Wrap c "Fields") ∨
        (indexSlot (ReadPACHeader r).1 k + 20 ≤ r.data.length ∧
          (0 : Byte) ∉ r.data.drop
            (fieldsAt r.data (indexSlot (ReadPACHeader r).1 k)).FilenamePtr ∧
          ∃ c, e = Err.Wrap c "Ptr.Filename") ∨
        (indexSlot (ReadPACHeader r).1 k + 20 ≤ r.data.length ∧
          (0 : Byte) ∈ r.data.drop
            (fieldsAt r.data (indexSlot (ReadPACHeader r).1 k)).FilenamePtr ∧
          r.data.length < (fieldsAt r.data (indexSlot (ReadPACHeader r).1 k)).DataPtr +
            (fieldsAt r.data (indexSlot (ReadPACHeader r).1 k)).DataLen ∧
          ∃ c, e = Err.Wrap c "Ptr.Data")) ∧
      (∀ r' : Stream, r'.data.length = r.data.length →
        (ReadPACHeader r').2.1 = none →
        (ReadPACHeader r').1 = (ReadPACHeader r).1 →
        (∀ j, j ≤ k → ∀ rg ∈ entryReads r.data (indexSlot (ReadPACHeader r).1 j),
          agreeOn r.data r'.data rg.1 rg.2) →
        (ReadPAC r').1 = (ReadPAC r).1 ∧ (ReadPAC r').2.1 = (ReadPAC r).2.1 ∧
        ReadPACAlloc limit r' = some (ReadPAC r')) := by
  refine ⟨ReadPACAlloc_of_le limit r hcap, fun small hs => ReadPACAlloc_of_gt small r hh hs, ?_⟩
  obtain ⟨h1, _, h3⟩ := ReadPAC_spec r hh
  rcases h3 with ⟨_, hall⟩ | ⟨k, e, hk1, hk2, hk3, hk4, _⟩
  · exact absurd (hall m hm).1 hfail
  · have hkm : k ≤ m := by
      by_contra hlt
      exact hfail (hk4 m (by omega)).1
    refine ⟨k, e, hkm, fun j hj => (hk4 j hj).1, hk2, hk3, ?_, ?_, ?_⟩
    · intro e' k' heq
      injection heq with ha _ hb
      exact ⟨hb, ha⟩
    · rcases ReadPACEntry_error_cases ⟨r.data, indexSlot (ReadPACHeader r).1 k⟩ e hk2 with
        ⟨a, b⟩ | ⟨a, b, c⟩ | ⟨a, b, _, c, d⟩
      · exact Or.inl ⟨a, _, b⟩
      · exact Or.inr (Or.inl ⟨a, b, _, c⟩)
      · exact Or.inr (Or.inr ⟨a, b, c, _, d⟩)
    · intro r' hlen hh' hhdr hsame
      have hsl : ∀ (d : List Byte) (h : PACHeader) (j : Nat),
          slotEntry d h j = ReadPACEntry ⟨d, indexSlot h j⟩ := fun _ _ _ => rfl
      rw [hsl] at hk2
      have hs : ∀ j, j < (ReadPACHeader r).1.Count →
          (∀ i, i < j → (slotEntry r.data (ReadPACHeader r).1 i).2.1 = none) →
          (slotEntry r.data (ReadPACHeader r).1 j).2.1 =
            (slotEntry r'.data (ReadPACHeader r').1 j).2.1 ∧
          ((slotEntry r.data (ReadPACHeader r).1 j).2.1 = none →
            (slotEntry r.data (ReadPACHeader r).1 j).1 =
              (slotEntry r'.data (ReadPACHeader r').1 j).1) := by
        intro j hj hprev
        rw [hhdr]
        simp only [hsl] at hprev ⊢
        have hjk : j ≤ k := by
          by_contra hgt
          have := hprev k (by omega)
          rw [this] at hk2
          exact Option.noConfusion hk2
        exact ReadPACEntry_eq_of_agree r.data r'.data hlen.symm _ (hsame j hjk)
      have hcongr := ReadPAC_congr r r' hh hh' (by rw [hhdr]) hs
      obtain ⟨h1', _, _⟩ := ReadPAC_spec r' hh'
      refine ⟨PAC_eq_of _ _ (by rw [h1', h1, hhdr]) hcongr.2.symm, hcongr.1.symm, ?_⟩
      exact ReadPACAlloc_of_le limit r' (by rw [hhdr]; exact hcap)

/-- Witness of C12 (amended) on `exTwoFailures`, where slots 0 and 1 both fail,
with room for two entry slots: the error of `ReadPAC` is the filename error of
slot 0, and `exTwoFailuresChanged`, which differs in the bytes of slot 1 that
no read of slot 0 takes in, gives the same error. -/
theorem ReadPAC_first_error_witness :
    ReadPACAlloc 2 ⟨exTwoFailures, 0⟩ = some (ReadPAC ⟨exTwoFailures, 0⟩) ∧
    (ReadPAC ⟨exTwoFailures, 0⟩).2.1 =
      some (Err.Wrapf (Err.Wrap Err.EOF "Ptr.Filename") "Entry %d" 0) ∧
    (ReadPAC ⟨exTwoFailuresChanged, 0⟩).2.1 = (ReadPAC ⟨exTwoFailures, 0⟩).2.1 := by
  obtain ⟨halloc, _, k, e, _, hmin, hke, herr, _, _, hind⟩ :=
    ReadPAC_first_error 2 ⟨exTwoFailures, 0⟩ (by decide) (by decide) 1 (by decide) (by decide)
  have h0 : (ReadPACEntry ⟨exTwoFailures, indexSlot (ReadPACHeader ⟨exTwoFailures, 0⟩).1 0⟩).2.1 =
      some (Err.Wrap Err.EOF "Ptr.Filename") := by decide
  have hk0 : k = 0 := by
    by_contra hne
    have := hmin 0 (by omega)
    rw [h0] at this
    exact Option.noConfusion this
  subst hk0
  rw [h0] at hke
  have he : e = Err.Wrap Err.EOF "Ptr.Filename" := (Option.some.inj hke).symm
  subst he
  refine ⟨halloc, herr, ?_⟩
  refine (hind ⟨exTwoFailuresChanged, 0⟩ (by decide) (by decide) (by decide) ?_).2.1
  intro j hj
  have hj0 : j = 0 := by omega
  subst hj0
  decide

end Clockwork
